import Mathlib

/-!
# TecnicoFS: a shallow embedding of `fs/operations.c`

The operation layer (`tfs_init`, `tfs_open`, `tfs_close`, `tfs_write`, `tfs_read`,
`tfs_link`, `tfs_sym_link`, `tfs_unlink`) is translated from `fs/operations.c`.
The state layer it calls (`fs/state.c`) is declared in `fs/state.h` only; its
functions are modelled from the specification and marked as such.

Conventions.
* C `int`/`ssize_t` values are `Int` (inumbers, handles, block numbers and link counts
  stay far from the bounds of `int`); `size_t` values are `Nat` with explicit reduction
  modulo `2 ^ 64` wherever the C arithmetic can wrap.
* Tables are total maps `Nat → _`; the parameters bound the part that exists.
* The entries of the root directory, which the C code keeps in the data block of the root
  inode, are the field `root_dir`; the bytes of the other blocks are `fs_data`.
* A copy that runs past the end of a block or of a local array is an invalid access.
* A `char const *` argument is `Option (List Nat)`: `none` is `NULL`, `some buf` is
  a pointer to the bytes `buf` followed by zero bytes.  The C string it denotes is
  the part of `buf` before the first zero byte (`cstr`).
* Locks are not modelled: operations run one at a time.
* A call either returns a value and a new state, or the process is stopped by a
  failed `ALWAYS_ASSERT`, or it performs an invalid memory access.
-/

namespace TecnicoFS

set_option maxRecDepth 100000

/-! ## Parameters, constants and records (`operations.h`, `config.h`, `state.h`) -/

/-- The sizing parameters `tfs_params`. -/
structure tfs_params where
  max_inode_count : Nat
  max_block_count : Nat
  max_open_files_count : Nat
  block_size : Nat
deriving DecidableEq, Repr

/-- The function `tfs_default_params` of `operations.c`. -/
def tfs_default_params : tfs_params :=
  { max_inode_count := 64, max_block_count := 1024, max_open_files_count := 16, block_size := 1024 }

/-- Modelled from the spec: `MAX_FILE_NAME` of the missing `config.h` ("source uses 40"). -/
def MAX_FILE_NAME : Nat := 40

/-- Modelled from the spec: `ROOT_DIR_INUM` of the missing `config.h` ("ROOT_INUM = 0"). -/
def ROOT_DIR_INUM : Int := 0

/-- Modelled from the spec: mode bit `O_CREAT = 1` of the missing `operations.h`. -/
def TFS_O_CREAT : Nat := 1

/-- Modelled from the spec: mode bit `O_TRUNC = 2` of the missing `operations.h`. -/
def TFS_O_TRUNC : Nat := 2

/-- Modelled from the spec: mode bit `O_APPEND = 4` of the missing `operations.h`. -/
def TFS_O_APPEND : Nat := 4

/-- The number of values of `size_t` (64-bit). -/
def SIZE_MOD : Nat := 2 ^ 64

/-- The size in bytes of `dir_entry_t` (`char d_name[MAX_FILE_NAME]; int d_inumber;`). -/
def SIZEOF_DIR_ENTRY : Nat := MAX_FILE_NAME + 4

/-- The code of the character '/'. -/
def SLASH : Nat := 47

/-- The enumeration `inode_type` of `state.h`. -/
inductive inode_type where
  | T_FILE
  | T_DIRECTORY
  | T_SYMLINK
deriving DecidableEq, Repr

/-- The enumeration `allocation_state_t` of `state.h`. -/
inductive allocation_state_t where
  | FREE
  | TAKEN
deriving DecidableEq, Repr

/-- The record `inode_t` of `state.h` (without its lock). -/
structure inode_t where
  i_node_type : inode_type
  i_size : Nat
  i_data_block : Int
  hard_links : Int
deriving DecidableEq, Repr

/-- The record `dir_entry_t` of `state.h`; `d_name` holds the C string stored in the array. -/
structure dir_entry_t where
  d_name : List Nat
  d_inumber : Int
deriving DecidableEq, Repr

/-- The record `open_file_entry_t` of `state.h` (without its mutex). -/
structure open_file_entry_t where
  of_inumber : Int
  of_offset : Nat
deriving DecidableEq, Repr

/-- The whole file-system state: the parameters, the three tables with their allocation
arrays, the bytes of the data blocks, and the directory entries held in the root block. -/
structure tfs_state where
  params : tfs_params
  inode_table : Nat → inode_t
  freeinode_ts : Nat → allocation_state_t
  fs_data : Nat → Nat → Nat
  free_blocks : Nat → allocation_state_t
  root_dir : Nat → dir_entry_t
  open_file_table : Nat → open_file_entry_t
  free_open_file_entries : Nat → allocation_state_t

/-- How a call of an operation ends. -/
inductive tfs_result (α : Type) where
  | ret (v : α) (s : tfs_state)
  | aborted
  | invalid_access

open inode_type allocation_state_t tfs_result

/-- Pointwise update of a table. -/
def upd {β : Type} (f : Nat → β) (i : Nat) (v : β) : Nat → β :=
  fun j => if j = i then v else f j

/-- The C string a buffer denotes: the bytes before the first zero byte. -/
def cstr (buf : List Nat) : List Nat :=
  buf.takeWhile (fun c => decide (c ≠ 0))

/-- The function `strlen`. -/
def strlen (buf : List Nat) : Nat :=
  (cstr buf).length

/-- The byte at position `k` of the memory a pointer designates. -/
def byte_at (buf : List Nat) (k : Nat) : Nat :=
  buf.getD k 0

/-- The conversion `(ssize_t)` of a `size_t` value. -/
def to_ssize (n : Nat) : Int :=
  if n % SIZE_MOD < 2 ^ 63 then ((n % SIZE_MOD : Nat) : Int) else ((n % SIZE_MOD : Nat) : Int) - (SIZE_MOD : Int)

/-! ## The state layer (`state.c`), modelled from the specification -/

/-- The linear scan `for (i = start; i < start + count; i++) if (p(i)) return i;`. -/
def scan_from (p : Nat → Bool) : Nat → Nat → Option Nat
  | _, 0 => none
  | start, count + 1 => if p start then some start else scan_from p (start + 1) count

/-- The first index below `n` at which `p` holds. -/
def first_index (p : Nat → Bool) (n : Nat) : Option Nat :=
  scan_from p 0 n

/-- Modelled from the spec: the first-fit scan of an allocation array shared by
`inode_create`, `data_block_alloc` and `add_to_open_file_table` of the missing `state.c`
("scans ... for the first FREE slot"). -/
def first_free (tbl : Nat → allocation_state_t) (n : Nat) : Option Nat :=
  first_index (fun i => decide (tbl i = FREE)) n

/-- Modelled from the spec: `state_block_size` of the missing `state.c`. -/
def state_block_size (s : tfs_state) : Nat :=
  s.params.block_size

/-- Modelled from the spec: the number of directory slots of the missing `state.c`
("⌊block_size / sizeof(directory_entry)⌋ slots"). -/
def MAX_DIR_ENTRIES (s : tfs_state) : Nat :=
  s.params.block_size / SIZEOF_DIR_ENTRY

/-- Modelled from the spec: `state_init` of the missing `state.c`. The tables are
allocated for the given parameters with every slot FREE; their contents are whatever the
memory `mem` held. The call is taken to succeed (to return 0). -/
def state_init (p : tfs_params) (mem : tfs_state) : tfs_state :=
  { mem with
    params := p
    freeinode_ts := fun _ => FREE
    free_blocks := fun _ => FREE
    free_open_file_entries := fun _ => FREE }

/-- Modelled from the spec: `inode_get` of the missing `state.c` ("Returns NULL on
out-of-range"). -/
def inode_get (s : tfs_state) (inumber : Int) : Option inode_t :=
  if 0 ≤ inumber ∧ inumber < (s.params.max_inode_count : Int) then
    some (s.inode_table inumber.toNat)
  else none

/-- Modelled from the spec: `is_inum_taken` of the missing `state.c` ("reads the
inode-allocation array"). -/
def is_inum_taken (s : tfs_state) (inum : Int) : Bool :=
  decide (0 ≤ inum ∧ inum < (s.params.max_inode_count : Int) ∧ s.freeinode_ts inum.toNat = TAKEN)

/-- Modelled from the spec: `data_block_alloc` of the missing `state.c` ("first-fit
allocation over the block pool"). -/
def data_block_alloc (s : tfs_state) : Int × tfs_state :=
  match first_free s.free_blocks s.params.max_block_count with
  | none => (-1, s)
  | some b => ((b : Int), { s with free_blocks := upd s.free_blocks b TAKEN })

/-- Modelled from the spec: `data_block_free` of the missing `state.c`. -/
def data_block_free (s : tfs_state) (block_number : Int) : tfs_state :=
  if 0 ≤ block_number ∧ block_number < (s.params.max_block_count : Int) then
    { s with free_blocks := upd s.free_blocks block_number.toNat FREE }
  else s

/-- Modelled from the spec: `data_block_get` of the missing `state.c` ("returns a pointer
to the block's byte buffer"); the callers test the result against NULL, which is the
answer for a number outside the pool. -/
def data_block_get (s : tfs_state) (block_number : Int) : Option (Nat → Nat) :=
  if 0 ≤ block_number ∧ block_number < (s.params.max_block_count : Int) then
    some (s.fs_data block_number.toNat)
  else none

/-- Modelled from the spec: `inode_delete` of the missing `state.c` ("if the inode
currently has a data block, frees it; marks the inode slot FREE"). An inode has a data
block when it is non-empty ("A file or symlink occupies exactly one block when
non-empty"). -/
def inode_delete (s : tfs_state) (inumber : Int) : tfs_state :=
  if 0 ≤ inumber ∧ inumber < (s.params.max_inode_count : Int) then
    let s1 :=
      if 0 < (s.inode_table inumber.toNat).i_size then
        data_block_free s (s.inode_table inumber.toNat).i_data_block
      else s
    { s1 with freeinode_ts := upd s1.freeinode_ts inumber.toNat FREE }
  else s

/-- Modelled from the spec: `inode_create` of the missing `state.c` ("scans the inode
allocation array ... for the first FREE slot; marks it TAKEN; initializes the inode
(size=0, hard_links=1, data_block=none, ..., kind). If kind == DIRECTORY, additionally
allocates a data block ... and zero-fills it (setting every d_inumber to -1). Returns -1
iff the inode table is full (or, for a directory, if no block is available; in that case
the inode slot is released)"). -/
def inode_create (s : tfs_state) (n_type : inode_type) : Int × tfs_state :=
  match first_free s.freeinode_ts s.params.max_inode_count with
  | none => (-1, s)
  | some i =>
    let s1 : tfs_state :=
      { s with
        freeinode_ts := upd s.freeinode_ts i TAKEN
        inode_table := upd s.inode_table i
          { i_node_type := n_type, i_size := 0, i_data_block := -1, hard_links := 1 } }
    if n_type = T_DIRECTORY then
      let a := data_block_alloc s1
      if a.1 = -1 then (-1, { a.2 with freeinode_ts := upd a.2.freeinode_ts i FREE })
      else
        ((i : Int),
          { a.2 with
            inode_table := upd a.2.inode_table i
              { i_node_type := n_type, i_size := 0, i_data_block := a.1, hard_links := 1 }
            root_dir := fun _ => { d_name := [], d_inumber := -1 } })
    else ((i : Int), s1)

/-- Modelled from the spec: the slot a name designates in the root directory, shared by
`find_in_dir` and `clear_dir_entry` of the missing `state.c` ("linear scan by name
equality"; "A slot is FREE iff inumber == -1"). -/
def dir_slot (s : tfs_state) (sub_name : List Nat) : Option Nat :=
  first_index
    (fun i => decide ((s.root_dir i).d_inumber ≠ -1 ∧ (s.root_dir i).d_name = sub_name))
    (MAX_DIR_ENTRIES s)

/-- Modelled from the spec: `find_in_dir` of the missing `state.c`
("find_in_dir(dir, name) -> inumber | -1"). -/
def find_in_dir (s : tfs_state) (sub_name : List Nat) : Int :=
  match dir_slot s sub_name with
  | none => -1
  | some i => (s.root_dir i).d_inumber

/-- Modelled from the spec: `add_dir_entry` of the missing `state.c` ("rejects name
containing '/', exceeding MAX_FILE_NAME-1, or when no FREE slot exists; otherwise writes
name+inumber into the first FREE slot"). -/
def add_dir_entry (s : tfs_state) (sub_name : List Nat) (sub_inumber : Int) : Int × tfs_state :=
  if SLASH ∈ sub_name ∨ MAX_FILE_NAME - 1 < sub_name.length then (-1, s)
  else
    match first_index (fun i => decide ((s.root_dir i).d_inumber = -1)) (MAX_DIR_ENTRIES s) with
    | none => (-1, s)
    | some i =>
      (0, { s with root_dir := upd s.root_dir i { d_name := sub_name, d_inumber := sub_inumber } })

/-- Modelled from the spec: `clear_dir_entry` of the missing `state.c` ("sets the
matching slot's inumber to -1"). -/
def clear_dir_entry (s : tfs_state) (sub_name : List Nat) : Int × tfs_state :=
  match dir_slot s sub_name with
  | none => (-1, s)
  | some i =>
    (0, { s with root_dir := upd s.root_dir i { d_name := (s.root_dir i).d_name, d_inumber := -1 } })

/-- Modelled from the spec: `add_to_open_file_table` of the missing `state.c`
("add_to_open_file_table(inumber, offset) -> handle | -1"). -/
def add_to_open_file_table (s : tfs_state) (inumber : Int) (offset : Nat) : Int × tfs_state :=
  match first_free s.free_open_file_entries s.params.max_open_files_count with
  | none => (-1, s)
  | some h =>
    ((h : Int),
      { s with
        free_open_file_entries := upd s.free_open_file_entries h TAKEN
        open_file_table := upd s.open_file_table h { of_inumber := inumber, of_offset := offset } })

/-- Modelled from the spec: `remove_from_open_file_table` of the missing `state.c`
("free the entry slot"). -/
def remove_from_open_file_table (s : tfs_state) (fhandle : Int) : tfs_state :=
  if 0 ≤ fhandle ∧ fhandle < (s.params.max_open_files_count : Int) then
    { s with free_open_file_entries := upd s.free_open_file_entries fhandle.toNat FREE }
  else s

/-- Modelled from the spec: `get_open_file_entry` of the missing `state.c`; no entry is
returned for a handle outside the table. -/
def get_open_file_entry (s : tfs_state) (fhandle : Int) : Option open_file_entry_t :=
  if 0 ≤ fhandle ∧ fhandle < (s.params.max_open_files_count : Int) then
    some (s.open_file_table fhandle.toNat)
  else none

/-- Modelled from the spec: `is_file_open` of the missing `state.c` ("true iff some TAKEN
open entry has .inumber == inumber"). -/
def is_file_open (s : tfs_state) (inumber : Int) : Bool :=
  (List.range s.params.max_open_files_count).any
    (fun h => decide (s.free_open_file_entries h = TAKEN ∧ (s.open_file_table h).of_inumber = inumber))

/-! ## The operation layer (`operations.c`) -/

/-- The function `tfs_init`: `params_ptr = none` is the NULL pointer; `mem` is the content
of the memory the tables are allocated in. -/
def tfs_init (params_ptr : Option tfs_params) (mem : tfs_state) : Int × tfs_state :=
  let params := match params_ptr with
    | some p => p
    | none => tfs_default_params
  let s0 := state_init params mem
  let r := inode_create s0 T_DIRECTORY
  if r.1 ≠ ROOT_DIR_INUM then (-1, r.2) else (0, r.2)

/-- The function `valid_pathname`. -/
def valid_pathname (name : Option (List Nat)) : Bool :=
  match name with
  | none => false
  | some buf => decide (1 < strlen buf ∧ strlen buf + 1 ≤ MAX_FILE_NAME ∧ byte_at buf 0 = SLASH)

/-- The pointer `name + 1` read as a C string. -/
def skip_slash (name : Option (List Nat)) : List Nat :=
  match name with
  | none => []
  | some buf => (cstr buf).tail

/-- The function `tfs_lookup`; `none` stands for the read through a NULL `root_inode`. -/
def tfs_lookup (s : tfs_state) (name : Option (List Nat)) (root_inode : Option inode_t) : Option Int :=
  if valid_pathname name = false then some (-1)
  else
    match root_inode with
    | none => none
    | some _ => some (find_in_dir s (skip_slash name))

/-- The path `tfs_open` reads out of a symbolic link: `path` is cleared, the first
`i_size` bytes of the block are copied into it, and it is read as a C string. -/
def symlink_path (block : Nat → Nat) (i_size : Nat) : List Nat :=
  cstr ((List.range i_size).map block)

/-- The function `tfs_open`. The first argument bounds the depth of the recursion through
symbolic links; `none` means that the bound was reached. -/
def tfs_open (fuel : Nat) (s : tfs_state) (name : Option (List Nat)) (mode : Nat) :
    Option (tfs_result Int) :=
  match fuel with
  | 0 => none
  | fuel + 1 =>
    if valid_pathname name = false then some (ret (-1) s)
    else
      match inode_get s ROOT_DIR_INUM with
      | none => some aborted
      | some root_dir_inode =>
        match tfs_lookup s name (some root_dir_inode) with
        | none => some invalid_access
        | some inum =>
          if 0 ≤ inum then
            match inode_get s inum with
            | none => some aborted
            | some inode =>
              if inode.i_node_type = T_SYMLINK then
                if is_inum_taken s inum = false then some (ret (-1) s)
                else
                  match data_block_get s inode.i_data_block with
                  | none => some invalid_access
                  | some block =>
                    if MAX_FILE_NAME < inode.i_size ∨ s.params.block_size < inode.i_size then
                      some invalid_access
                    else if MAX_FILE_NAME ≤ (symlink_path block inode.i_size).length then
                      some invalid_access
                    else tfs_open fuel s (some (symlink_path block inode.i_size)) mode
              else
                let s1 :=
                  if mode &&& TFS_O_TRUNC ≠ 0 ∧ 0 < inode.i_size then
                    let s0 := data_block_free s inode.i_data_block
                    { s0 with inode_table := upd s0.inode_table inum.toNat { inode with i_size := 0 } }
                  else s
                let offset :=
                  if mode &&& TFS_O_APPEND ≠ 0 then (s1.inode_table inum.toNat).i_size else 0
                let r := add_to_open_file_table s1 inum offset
                some (ret r.1 r.2)
          else if mode &&& TFS_O_CREAT ≠ 0 then
            let r := inode_create s T_FILE
            if r.1 = -1 then some (ret (-1) r.2)
            else
              let d := add_dir_entry r.2 (skip_slash name) r.1
              if d.1 = -1 then some (ret (-1) (inode_delete d.2 r.1))
              else
                let o := add_to_open_file_table d.2 r.1 0
                some (ret o.1 o.2)
          else some (ret (-1) s)

/-- The function `tfs_sym_link`. -/
def tfs_sym_link (s : tfs_state) (target link_name : Option (List Nat)) : tfs_result Int :=
  if valid_pathname link_name = false then ret (-1) s
  else
    match tfs_lookup s target (inode_get s ROOT_DIR_INUM) with
    | none => invalid_access
    | some inum_target =>
      if inum_target = -1 then ret (-1) s
      else
        let c := inode_create s T_SYMLINK
        if c.1 = -1 then aborted
        else
          match inode_get c.2 c.1 with
          | none => invalid_access
          | some _ =>
            if is_inum_taken c.2 c.1 = false then ret (-1) c.2
            else
              let block_size := strlen (link_name.getD []) + 1
              let a := data_block_alloc c.2
              if a.1 = -1 then ret (-1) (inode_delete a.2 c.1)
              else
                match data_block_get a.2 a.1 with
                | none => invalid_access
                | some block =>
                  if a.2.params.block_size < block_size then invalid_access
                  else
                    let s3 : tfs_state :=
                      { a.2 with
                        fs_data := upd a.2.fs_data a.1.toNat
                          (fun k => if k < block_size then byte_at (target.getD []) k else block k)
                        inode_table := upd a.2.inode_table c.1.toNat
                          { a.2.inode_table c.1.toNat with i_data_block := a.1, i_size := block_size } }
                    let d := add_dir_entry s3 (skip_slash link_name) c.1
                    if d.1 = -1 then aborted else ret 0 d.2

/-- The function `tfs_link`. -/
def tfs_link (s : tfs_state) (target link_name : Option (List Nat)) : tfs_result Int :=
  if valid_pathname link_name = false then ret (-1) s
  else
    match tfs_lookup s target (inode_get s ROOT_DIR_INUM) with
    | none => invalid_access
    | some inum =>
      if inum = -1 then ret (-1) s
      else
        match inode_get s inum with
        | none => invalid_access
        | some target_inode =>
          if is_inum_taken s inum = false then ret (-1) s
          else if target_inode.i_node_type = T_SYMLINK then ret (-1) s
          else
            let s1 : tfs_state :=
              { s with
                inode_table := upd s.inode_table inum.toNat
                  { target_inode with hard_links := target_inode.hard_links + 1 } }
            let d := add_dir_entry s1 (skip_slash link_name) inum
            if d.1 = -1 then aborted else ret 0 d.2

/-- The function `tfs_close`: the entry's mutex is locked through `file` before `file` is
compared with NULL. -/
def tfs_close (s : tfs_state) (fhandle : Int) : tfs_result Int :=
  match get_open_file_entry s fhandle with
  | none => invalid_access
  | some file =>
    let s1 : tfs_state :=
      { s with open_file_table := upd s.open_file_table fhandle.toNat { file with of_inumber := -1 } }
    ret 0 (remove_from_open_file_table s1 fhandle)

/-- The function `tfs_write`; `buffer` is the memory the caller passes. -/
def tfs_write (s : tfs_state) (fhandle : Int) (buffer : List Nat) (to_write : Nat) : tfs_result Int :=
  match get_open_file_entry s fhandle with
  | none => ret (-1) s
  | some file =>
    match inode_get s file.of_inumber with
    | none => aborted
    | some inode =>
      if is_inum_taken s file.of_inumber = false then ret (-1) s
      else
        let block_size := state_block_size s
        let to_write :=
          if block_size < (to_write + file.of_offset) % SIZE_MOD then
            (block_size + SIZE_MOD - file.of_offset % SIZE_MOD) % SIZE_MOD
          else to_write
        if 0 < to_write then
          let a := if inode.i_size = 0 then data_block_alloc s else (inode.i_data_block, s)
          if inode.i_size = 0 ∧ a.1 = -1 then ret (-1) s
          else
            match data_block_get a.2 a.1 with
            | none => aborted
            | some block =>
              if block_size < file.of_offset + to_write then invalid_access
              else
                let new_offset := (file.of_offset + to_write) % SIZE_MOD
                ret (to_ssize to_write)
                  { a.2 with
                    fs_data := upd a.2.fs_data a.1.toNat
                      (fun k => if file.of_offset ≤ k ∧ k < file.of_offset + to_write
                                then byte_at buffer (k - file.of_offset) else block k)
                    open_file_table := upd a.2.open_file_table fhandle.toNat
                      { file with of_offset := new_offset }
                    inode_table := upd a.2.inode_table file.of_inumber.toNat
                      { inode with
                        i_data_block := a.1
                        i_size := if inode.i_size < new_offset then new_offset else inode.i_size } }
        else ret (to_ssize to_write) s

/-- The function `tfs_read`; the result carries the bytes copied to the start of the
caller's buffer. -/
def tfs_read (s : tfs_state) (fhandle : Int) (len : Nat) : tfs_result (Int × List Nat) :=
  match get_open_file_entry s fhandle with
  | none => ret (-1, []) s
  | some file =>
    match inode_get s file.of_inumber with
    | none => aborted
    | some inode =>
      if is_inum_taken s file.of_inumber = false then ret (-1, []) s
      else
        let offset := file.of_offset
        let avail := (inode.i_size + SIZE_MOD - file.of_offset % SIZE_MOD) % SIZE_MOD
        let to_read := if avail < len then avail else len
        let s1 : tfs_state :=
          { s with
            open_file_table := upd s.open_file_table fhandle.toNat
              { file with of_offset := (file.of_offset + to_read) % SIZE_MOD } }
        if 0 < to_read then
          match data_block_get s1 inode.i_data_block with
          | none => aborted
          | some block =>
            if s.params.block_size < offset + to_read then invalid_access
            else ret (to_ssize to_read, (List.range to_read).map (fun k => block (offset + k))) s1
        else ret (to_ssize to_read, []) s1

/-- The function `tfs_unlink`. -/
def tfs_unlink (s : tfs_state) (target : Option (List Nat)) : tfs_result Int :=
  match tfs_lookup s target (inode_get s ROOT_DIR_INUM) with
  | none => invalid_access
  | some inum =>
    if inum = -1 then ret (-1) s
    else if is_file_open s inum = true then ret (-1) s
    else
      match inode_get s inum with
      | none => invalid_access
      | some inode =>
        if is_inum_taken s inum = false then ret (-1) s
        else
          let s1 : tfs_state :=
            { s with
              inode_table := upd s.inode_table inum.toNat
                { inode with hard_links := inode.hard_links - 1 } }
          let s2 := if inode.hard_links - 1 = 0 then inode_delete s1 inum else s1
          let d := clear_dir_entry s2 (skip_slash target)
          if d.1 = -1 then aborted else ret 0 d.2

/-! ## Concrete inputs used to evaluate the operations -/

/-- The bytes of a string literal. -/
def str (x : String) : List Nat :=
  x.toList.map Char.toNat

/-- A memory filled with zero bytes. -/
def zero_mem : tfs_state :=
  { params := tfs_default_params
    inode_table := fun _ => { i_node_type := T_FILE, i_size := 0, i_data_block := 0, hard_links := 0 }
    freeinode_ts := fun _ => FREE
    fs_data := fun _ _ => 0
    free_blocks := fun _ => FREE
    root_dir := fun _ => { d_name := [], d_inumber := 0 }
    open_file_table := fun _ => { of_inumber := 0, of_offset := 0 }
    free_open_file_entries := fun _ => FREE }

/-- The state after `tfs_init(NULL)`. -/
def fresh_default : tfs_state :=
  (tfs_init none zero_mem).2

/-- The value an operation returned, if it returned. -/
def tfs_result.value? {α : Type} (r : tfs_result α) : Option α :=
  match r with
  | ret v _ => some v
  | aborted => none
  | invalid_access => none

/-- The state an operation left, if it returned; the given state otherwise. -/
def tfs_result.state_or {α : Type} (r : tfs_result α) (s : tfs_state) : tfs_state :=
  match r with
  | ret _ s1 => s1
  | aborted => s
  | invalid_access => s

/-- The state of the test `remove_open_file.c` before its `tfs_unlink`: two inodes, two
blocks, "/f1" created and written while its handle stays open. -/
def open_file_state : tfs_state :=
  let s0 := (tfs_init (some { tfs_default_params with max_inode_count := 2, max_block_count := 2 })
    zero_mem).2
  let s1 := ((tfs_open 1 s0 (some (str "/f1")) TFS_O_CREAT).getD aborted).state_or s0
  (tfs_write s1 0 (str "Hello World!") 13).state_or s1

/-- The default file system after "/f1" was created and closed and the symbolic link
"/s1" to it was made. -/
def symlink_state : tfs_state :=
  let s1 := ((tfs_open 1 fresh_default (some (str "/f1")) TFS_O_CREAT).getD aborted).state_or
    fresh_default
  let s2 := (tfs_close s1 0).state_or s1
  (tfs_sym_link s2 (some (str "/f1")) (some (str "/s1"))).state_or s2

/-- The default file system after "/f12" was created and closed. -/
def long_name_state : tfs_state :=
  let s1 := ((tfs_open 1 fresh_default (some (str "/f12")) TFS_O_CREAT).getD aborted).state_or
    fresh_default
  (tfs_close s1 0).state_or s1

/-- The state `long_name_state` after `tfs_sym_link("/f12", "/s")`. -/
def short_link_state : tfs_state :=
  (tfs_sym_link long_name_state (some (str "/f12")) (some (str "/s"))).state_or long_name_state


/-- The bytes of a file: the first `i_size` bytes of the block its inode names. -/
def file_content (s : tfs_state) (inum : Nat) : List Nat :=
  (List.range (s.inode_table inum).i_size).map
    (s.fs_data (s.inode_table inum).i_data_block.toNat)

/-- A file system with a single open-file entry, taken by the handle on "/f1", which holds
the five bytes of "AAA!". -/
def full_table_state : tfs_state :=
  let s0 := (tfs_init (some { tfs_default_params with max_open_files_count := 1 }) zero_mem).2
  let s1 := ((tfs_open 1 s0 (some (str "/f1")) TFS_O_CREAT).getD aborted).state_or s0
  (tfs_write s1 0 (str "AAA!" ++ [0]) 5).state_or s1


/-- The default file system after "/f1" was created, the five bytes of "AAA!" were written
to it, and it was closed. -/
def written_state : tfs_state :=
  let s1 := ((tfs_open 1 fresh_default (some (str "/f1")) TFS_O_CREAT).getD aborted).state_or
    fresh_default
  let s2 := (tfs_write s1 0 (str "AAA!" ++ [0]) 5).state_or s1
  (tfs_close s2 0).state_or s2


/-- A file system with a single data block, taken by the root directory, after the empty
file "/f1" was created and closed. -/
def no_block_state : tfs_state :=
  let s0 := (tfs_init (some { tfs_default_params with max_block_count := 1 }) zero_mem).2
  let s1 := ((tfs_open 1 s0 (some (str "/f1")) TFS_O_CREAT).getD aborted).state_or s0
  (tfs_close s1 0).state_or s1


/-- The state `written_state` after `tfs_link("/f1", "/l1")`. -/
def linked_state : tfs_state :=
  (tfs_link written_state (some (str "/f1")) (some (str "/l1"))).state_or written_state

/-- A file system with a single open-file entry: "/f1" was created, written (five bytes)
and closed, then "/g" was created and its handle is still open. -/
def busy_table_state : tfs_state :=
  let s0 := (tfs_init (some { tfs_default_params with max_open_files_count := 1 }) zero_mem).2
  let s1 := ((tfs_open 1 s0 (some (str "/f1")) TFS_O_CREAT).getD aborted).state_or s0
  let s2 := (tfs_write s1 0 (str "AAA!" ++ [0]) 5).state_or s1
  let s3 := (tfs_close s2 0).state_or s2
  ((tfs_open 1 s3 (some (str "/g")) TFS_O_CREAT).getD aborted).state_or s3


/-- The files of the list are created one after the other as the test
`t2_thread_create_file.c` creates one: `tfs_open(name, TFS_O_CREAT)` must return a handle,
which `tfs_close` must close. The result is `none` when one of them fails. -/
def create_files (s : tfs_state) : List (List Nat) → Option tfs_state
  | [] => some s
  | name :: rest =>
    match tfs_open 1 s (some name) TFS_O_CREAT with
    | some (ret f s1) =>
      if f = -1 then none
      else
        match tfs_close s1 f with
        | ret _ s2 => create_files s2 rest
        | aborted => none
        | invalid_access => none
    | some aborted => none
    | some invalid_access => none
    | none => none

/-- The default parameters with three inodes only. -/
def three_inodes : tfs_params :=
  { tfs_default_params with max_inode_count := 3 }

/-- The file system with three inodes after "/a" and "/b" were created. -/
def full_inodes_state : tfs_state :=
  (create_files (tfs_init (some three_inodes) zero_mem).2 [str "/a", str "/b"]).getD zero_mem


/-! ## Reachable states and the invariants of the tables -/

/-- The number of indices below `n` at which `p` holds. -/
def count_upto (p : Nat → Bool) : Nat → Nat
  | 0 => 0
  | n + 1 => count_upto p n + (if p n then 1 else 0)

/-- The number of root-directory entries whose inumber is `i` (such an entry is not FREE,
a FREE entry holding -1). -/
def dir_links (s : tfs_state) (i : Nat) : Nat :=
  count_upto (fun m => decide ((s.root_dir m).d_inumber = (i : Int))) (MAX_DIR_ENTRIES s)

/-- The states reachable from a `tfs_init` that returned 0 by calls of the public
operations that returned, whatever they returned, executed one at a time.
`tfs_copy_from_external_fs` acts on the file system only through `tfs_open`, `tfs_write`
and `tfs_close`, so its effect is a sequence of these steps. -/
inductive reachable : tfs_state → Prop where
  | start (params_ptr : Option tfs_params) (mem s : tfs_state) :
      tfs_init params_ptr mem = (0, s) → reachable s
  | step_open (s s1 : tfs_state) (fuel : Nat) (name : Option (List Nat)) (mode : Nat) (v : Int) :
      reachable s → tfs_open fuel s name mode = some (ret v s1) → reachable s1
  | step_close (s s1 : tfs_state) (fhandle v : Int) :
      reachable s → tfs_close s fhandle = ret v s1 → reachable s1
  | step_write (s s1 : tfs_state) (fhandle : Int) (buffer : List Nat) (to_write : Nat) (v : Int) :
      reachable s → tfs_write s fhandle buffer to_write = ret v s1 → reachable s1
  | step_read (s s1 : tfs_state) (fhandle : Int) (len : Nat) (v : Int × List Nat) :
      reachable s → tfs_read s fhandle len = ret v s1 → reachable s1
  | step_link (s s1 : tfs_state) (target link_name : Option (List Nat)) (v : Int) :
      reachable s → tfs_link s target link_name = ret v s1 → reachable s1
  | step_sym_link (s s1 : tfs_state) (target link_name : Option (List Nat)) (v : Int) :
      reachable s → tfs_sym_link s target link_name = ret v s1 → reachable s1
  | step_unlink (s s1 : tfs_state) (target : Option (List Nat)) (v : Int) :
      reachable s → tfs_unlink s target = ret v s1 → reachable s1

/-- The invariants of the tables that every reachable state satisfies. -/
structure wf (s : tfs_state) : Prop where
  root : 0 < s.params.max_inode_count
  root_taken : s.freeinode_ts 0 = TAKEN
  dir : ∀ m, m < MAX_DIR_ENTRIES s → (s.root_dir m).d_inumber ≠ -1 →
    ∃ i : Nat, (s.root_dir m).d_inumber = (i : Int) ∧ 0 < i ∧ i < s.params.max_inode_count ∧
      s.freeinode_ts i = TAKEN
  kind : ∀ i, 0 < i → i < s.params.max_inode_count → s.freeinode_ts i = TAKEN →
    (s.inode_table i).i_node_type ≠ T_DIRECTORY
  links : ∀ i, 0 < i → i < s.params.max_inode_count → s.freeinode_ts i = TAKEN →
    (s.inode_table i).hard_links = (dir_links s i : Int)
  handles : ∀ h, h < s.params.max_open_files_count → s.free_open_file_entries h = TAKEN →
    ∃ i : Nat, (s.open_file_table h).of_inumber = (i : Int) ∧ 0 < i ∧
      i < s.params.max_inode_count ∧ s.freeinode_ts i = TAKEN ∧
      (s.inode_table i).i_node_type = T_FILE ∧
      (s.open_file_table h).of_offset ≤ s.params.block_size
  sizes : ∀ i, i < s.params.max_inode_count → s.freeinode_ts i = TAKEN →
    (s.inode_table i).i_size ≤ s.params.block_size
  blocks : ∀ i, i < s.params.max_inode_count → s.freeinode_ts i = TAKEN →
    0 < (s.inode_table i).i_size →
    ∃ b : Nat, (s.inode_table i).i_data_block = (b : Int) ∧ b < s.params.max_block_count ∧
      s.free_blocks b = TAKEN
  blocks_inj : ∀ i j, i < s.params.max_inode_count → j < s.params.max_inode_count →
    s.freeinode_ts i = TAKEN → s.freeinode_ts j = TAKEN →
    0 < (s.inode_table i).i_size → 0 < (s.inode_table j).i_size →
    (s.inode_table i).i_data_block = (s.inode_table j).i_data_block → i = j
  linked : ∀ i, 0 < i → i < s.params.max_inode_count → s.freeinode_ts i = TAKEN →
    0 < (s.inode_table i).hard_links


/-- The length `tfs_write` keeps of a requested `to_write`: the request is cut to
`block_size - offset` when `to_write + offset` exceeds the block size, all in `size_t`. -/
def capped_length (block_size offset to_write : Nat) : Nat :=
  if block_size < (to_write + offset) % SIZE_MOD then
    (block_size + SIZE_MOD - offset % SIZE_MOD) % SIZE_MOD
  else to_write

/-- The default file system after `f = tfs_open("/f1", TFS_O_CREAT)`: handle 0 on inode 1. -/
def created_state : tfs_state :=
  ((tfs_open 1 fresh_default (some (str "/f1")) TFS_O_CREAT).getD aborted).state_or fresh_default

/-- The state `created_state` after `tfs_write(f, "AAA!\0", 5)`: the file holds 5 bytes in
block 1 and handle 0 stands at offset 5. -/
def filled_state : tfs_state :=
  (tfs_write created_state 0 (str "AAA!" ++ [0]) 5).state_or created_state

/-- The default file system after "/f1" was created (handle 0), the five bytes of "AAA!"
were written through handle 0, and "/f1" was opened again with `TFS_O_TRUNC` (handle 1):
handle 0 still has offset 5 while the size is 0. -/
def truncated_state : tfs_state :=
  let s1 := ((tfs_open 1 fresh_default (some (str "/f1")) TFS_O_CREAT).getD aborted).state_or
    fresh_default
  let s2 := (tfs_write s1 0 (str "AAA!" ++ [0]) 5).state_or s1
  ((tfs_open 1 s2 (some (str "/f1")) TFS_O_TRUNC).getD aborted).state_or s2

/-- The default parameters with a block of 88 bytes: the root directory has two slots. -/
def two_slots : tfs_params :=
  { tfs_default_params with block_size := 88 }

/-- The file system with two directory slots after "/a" and "/b" were created. -/
def full_dir_state : tfs_state :=
  (create_files (tfs_init (some two_slots) zero_mem).2 [str "/a", str "/b"]).getD zero_mem

/-- The default file system holding "/f1" after `tfs_open("/f1", 0)`: handle 0 is open. -/
def no_block_open_state : tfs_state :=
  ((tfs_open 1 no_block_state (some (str "/f1")) 0).getD aborted).state_or no_block_state


/-- The state `filled_state` after `tfs_write(f, "BBBB", 2000)` through handle 0, which
stands at offset 5: the request exceeds the room left in the block. -/
def capped_state : tfs_state :=
  (tfs_write filled_state 0 (str "BBBB") 2000).state_or filled_state

/-- The state `written_state` after `tfs_link("/f1", "/f1")`. -/
def duplicate_name_state : tfs_state :=
  (tfs_link written_state (some (str "/f1")) (some (str "/f1"))).state_or written_state

/-- The default file system after `f = tfs_open("/a", TFS_O_CREAT); tfs_close(f)`: the empty
file "/a" is inode 1. -/
def file_a_state : tfs_state :=
  let s1 := ((tfs_open 1 fresh_default (some (str "/a")) TFS_O_CREAT).getD aborted).state_or
    fresh_default
  (tfs_close s1 0).state_or s1

/-- The state `file_a_state` after `tfs_sym_link("/a", "/b")`: inode 2 is a SYMLINK that
stores "/a". -/
def link_b_state : tfs_state :=
  (tfs_sym_link file_a_state (some (str "/a")) (some (str "/b"))).state_or file_a_state

/-- The state `link_b_state` after `tfs_unlink("/a")`: inode 1 is FREE again and "/b"
dangles. -/
def dangling_b_state : tfs_state :=
  (tfs_unlink link_b_state (some (str "/a"))).state_or link_b_state

/-- The state `dangling_b_state` after `tfs_sym_link("/b", "/a")`: "/a" is a SYMLINK that
stores "/b", and "/b" is a SYMLINK that stores "/a". -/
def cycle_state : tfs_state :=
  (tfs_sym_link dangling_b_state (some (str "/b")) (some (str "/a"))).state_or dangling_b_state


/-! # Theorems -/

/-! ## Basic facts -/

@[simp] theorem upd_same {β : Type} (f : Nat → β) (i : Nat) (v : β) : upd f i v i = v := by
  simp [upd]

theorem upd_other {β : Type} (f : Nat → β) (i j : Nat) (v : β) (h : j ≠ i) : upd f i v j = f j := by
  simp [upd, h]

theorem valid_pathname_iff (buf : List Nat) :
    valid_pathname (some buf) = true ↔
      1 < strlen buf ∧ strlen buf + 1 ≤ MAX_FILE_NAME ∧ byte_at buf 0 = SLASH := by
  simp [valid_pathname]

/-! ## C3: path validation -/

/-- C3. An invalid name (NULL, of length at most 1, not beginning with '/', or of length
at least `MAX_FILE_NAME`) makes `tfs_open`, `tfs_link` and `tfs_sym_link` return -1 in an
unchanged state, for every state, mode and target; and every name of length 2 to 39
beginning with '/' passes `valid_pathname`. -/
theorem path_validation (s : tfs_state) (fuel mode : Nat) (target name : Option (List Nat))
    (h : name = none ∨ ∃ buf, name = some buf ∧
      (strlen buf ≤ 1 ∨ byte_at buf 0 ≠ SLASH ∨ MAX_FILE_NAME ≤ strlen buf)) :
    tfs_open (fuel + 1) s name mode = some (ret (-1) s) ∧
    tfs_link s target name = ret (-1) s ∧
    tfs_sym_link s target name = ret (-1) s ∧
    ∀ buf : List Nat, 2 ≤ strlen buf → strlen buf ≤ 39 → byte_at buf 0 = SLASH →
      valid_pathname (some buf) = true := by
  have hv : valid_pathname name = false := by
    rcases h with h | ⟨buf, hb, h⟩
    · subst h; rfl
    · subst hb
      cases hq : valid_pathname (some buf) with
      | false => rfl
      | true =>
        rw [valid_pathname_iff] at hq
        simp only [MAX_FILE_NAME] at hq h
        omega
  refine ⟨?_, ?_, ?_, ?_⟩
  · simp [tfs_open, hv]
  · simp [tfs_link, hv]
  · simp [tfs_sym_link, hv]
  · intro buf h1 h2 h3
    rw [valid_pathname_iff]
    simp only [MAX_FILE_NAME]
    omega

/-- C3 at the link name of the test `hardlink_unvalid_link_name.c` (length 45). -/
theorem path_validation_witness :
    strlen (str "/l1333333333333333333333333333333333333333333") = 45 ∧
    tfs_link fresh_default (some (str "/f1"))
      (some (str "/l1333333333333333333333333333333333333333333")) = ret (-1) fresh_default :=
  ⟨by decide,
   (path_validation fresh_default 0 0 (some (str "/f1"))
      (some (str "/l1333333333333333333333333333333333333333333"))
      (Or.inr ⟨_, rfl, Or.inr (Or.inr (by decide))⟩)).2.1⟩

/-! ## C2: an open file cannot be unlinked -/

theorem is_file_open_iff (s : tfs_state) (i : Int) :
    is_file_open s i = true ↔
      ∃ h, h < s.params.max_open_files_count ∧ s.free_open_file_entries h = TAKEN ∧
        (s.open_file_table h).of_inumber = i := by
  simp [is_file_open, List.any_eq_true]

/-- C2. If the path resolves to an inumber that some TAKEN open-file entry holds,
`tfs_unlink` returns -1 and the state is unchanged. -/
theorem unlink_open_file_refused (s : tfs_state) (p : Option (List Nat)) (i : Int)
    (hres : tfs_lookup s p (inode_get s ROOT_DIR_INUM) = some i)
    (hopen : ∃ h, h < s.params.max_open_files_count ∧ s.free_open_file_entries h = TAKEN ∧
      (s.open_file_table h).of_inumber = i) :
    tfs_unlink s p = ret (-1) s := by
  have ho : is_file_open s i = true := (is_file_open_iff s i).2 hopen
  simp only [tfs_unlink, hres, ho]
  split <;> rfl

/-- C2 on the state of the test `remove_open_file.c`. -/
theorem unlink_open_file_refused_witness :
    tfs_lookup open_file_state (some (str "/f1")) (inode_get open_file_state ROOT_DIR_INUM) = some 1 ∧
    tfs_unlink open_file_state (some (str "/f1")) = ret (-1) open_file_state :=
  ⟨by decide,
   unlink_open_file_refused open_file_state (some (str "/f1")) 1 (by decide)
     ⟨0, by decide, by decide, by decide⟩⟩

/-! ## C7: no hard link to a symbolic link -/

/-- C7. If the target path resolves to an inode of kind SYMLINK, `tfs_link` returns -1 and
the state is unchanged, for every link name: no link count is incremented and no
directory entry is added. -/
theorem link_to_symlink_refused (s : tfs_state) (target x : Option (List Nat)) (i : Int)
    (inode : inode_t)
    (hres : tfs_lookup s target (inode_get s ROOT_DIR_INUM) = some i)
    (hin : inode_get s i = some inode)
    (hk : inode.i_node_type = T_SYMLINK) :
    tfs_link s target x = ret (-1) s := by
  simp only [tfs_link, hres, hin, hk]
  repeat' split
  all_goals first | rfl | simp_all

/-- C7 on the link "/s1" to "/f1": the path resolves to inode 2, a SYMLINK. -/
theorem link_to_symlink_refused_witness :
    tfs_lookup symlink_state (some (str "/s1")) (inode_get symlink_state ROOT_DIR_INUM) = some 2 ∧
    (symlink_state.inode_table 2).i_node_type = T_SYMLINK ∧
    tfs_link symlink_state (some (str "/s1")) (some (str "/x")) = ret (-1) symlink_state :=
  ⟨by decide, by decide,
   link_to_symlink_refused symlink_state (some (str "/s1")) (some (str "/x")) 2
     (symlink_state.inode_table 2) (by decide) (by decide) (by decide)⟩

/-! ## The scans -/

theorem scan_from_eq_some (p : Nat → Bool) (count start j : Nat) :
    scan_from p start count = some j ↔
      start ≤ j ∧ j < start + count ∧ p j = true ∧ ∀ m, start ≤ m → m < j → p m = false := by
  induction count generalizing start with
  | zero => simp [scan_from]; intro h1 h2; omega
  | succ k ih =>
    unfold scan_from
    by_cases hp : p start = true
    · simp only [hp, if_true, Option.some.injEq]
      constructor
      · intro h; subst h
        exact ⟨le_refl _, by omega, hp, fun m h1 h2 => by omega⟩
      · rintro ⟨h1, _, _, h4⟩
        by_contra hne
        have := h4 start (le_refl _) (by omega)
        simp [hp] at this
    · simp only [hp, Bool.false_eq_true, if_false, ih]
      have hpf : p start = false := by simpa using hp
      constructor
      · rintro ⟨h1, h2, h3, h4⟩
        refine ⟨by omega, by omega, h3, fun m hm1 hm2 => ?_⟩
        by_cases hm : m = start
        · subst hm; exact hpf
        · exact h4 m (by omega) hm2
      · rintro ⟨h1, h2, h3, h4⟩
        have hne : j ≠ start := by
          intro h; subst h; simp [hpf] at h3
        exact ⟨by omega, by omega, h3, fun m hm1 hm2 => h4 m (by omega) hm2⟩

theorem scan_from_eq_none (p : Nat → Bool) (count start : Nat) :
    scan_from p start count = none ↔ ∀ m, start ≤ m → m < start + count → p m = false := by
  induction count generalizing start with
  | zero => simp [scan_from]; intro m h1 h2; omega
  | succ k ih =>
    unfold scan_from
    by_cases hp : p start = true
    · simp only [hp, if_true]
      constructor
      · intro h; cases h
      · intro h
        have := h start (le_refl _) (by omega)
        simp [hp] at this
    · simp only [hp, Bool.false_eq_true, if_false, ih]
      have hpf : p start = false := by simpa using hp
      constructor
      · intro h m hm1 hm2
        by_cases hm : m = start
        · subst hm; exact hpf
        · exact h m (by omega) (by omega)
      · intro h m hm1 hm2
        exact h m (by omega) (by omega)

theorem first_index_eq_some (p : Nat → Bool) (n j : Nat) :
    first_index p n = some j ↔ j < n ∧ p j = true ∧ ∀ m, m < j → p m = false := by
  unfold first_index
  rw [scan_from_eq_some]
  constructor
  · rintro ⟨_, h2, h3, h4⟩
    exact ⟨by omega, h3, fun m hm => h4 m (Nat.zero_le _) hm⟩
  · rintro ⟨h2, h3, h4⟩
    exact ⟨Nat.zero_le _, by omega, h3, fun m _ hm => h4 m hm⟩

theorem first_index_eq_none (p : Nat → Bool) (n : Nat) :
    first_index p n = none ↔ ∀ m, m < n → p m = false := by
  unfold first_index
  rw [scan_from_eq_none]
  constructor
  · intro h m hm; exact h m (Nat.zero_le _) (by omega)
  · intro h m _ hm; exact h m (by omega)

theorem first_index_isSome (p : Nat → Bool) (n j : Nat) (hj : j < n) (hp : p j = true) :
    ∃ i, first_index p n = some i ∧ i ≤ j := by
  cases h : first_index p n with
  | none =>
    rw [first_index_eq_none] at h
    have := h j hj
    simp [hp] at this
  | some i =>
    refine ⟨i, rfl, ?_⟩
    rw [first_index_eq_some] at h
    by_contra hlt
    have := h.2.2 j (by omega)
    simp [hp] at this

theorem first_free_eq_some (tbl : Nat → allocation_state_t) (n j : Nat) :
    first_free tbl n = some j ↔ j < n ∧ tbl j = FREE ∧ ∀ m, m < j → tbl m ≠ FREE := by
  unfold first_free
  rw [first_index_eq_some]
  simp

theorem first_free_eq_none (tbl : Nat → allocation_state_t) (n : Nat) :
    first_free tbl n = none ↔ ∀ m, m < n → tbl m ≠ FREE := by
  unfold first_free
  rw [first_index_eq_none]
  simp

/-! ## The operations on their main paths -/

theorem inode_get_root (s : tfs_state) (h : 0 < s.params.max_inode_count) :
    inode_get s ROOT_DIR_INUM = some (s.inode_table 0) := by
  simp [inode_get, ROOT_DIR_INUM, h]

theorem inode_get_nat (s : tfs_state) (i : Nat) (h : i < s.params.max_inode_count) :
    inode_get s (i : Int) = some (s.inode_table i) := by
  simp [inode_get, h]

theorem is_inum_taken_nat (s : tfs_state) (i : Nat) (h : i < s.params.max_inode_count)
    (ht : s.freeinode_ts i = TAKEN) : is_inum_taken s (i : Int) = true := by
  simp [is_inum_taken, h, ht]

theorem add_to_open_file_table_some (s : tfs_state) (i : Int) (off h : Nat)
    (hf : first_free s.free_open_file_entries s.params.max_open_files_count = some h) :
    add_to_open_file_table s i off =
      ((h : Int),
        { s with
          free_open_file_entries := upd s.free_open_file_entries h TAKEN
          open_file_table := upd s.open_file_table h { of_inumber := i, of_offset := off } }) := by
  simp [add_to_open_file_table, hf]

theorem add_to_open_file_table_none (s : tfs_state) (i : Int) (off : Nat)
    (hf : first_free s.free_open_file_entries s.params.max_open_files_count = none) :
    add_to_open_file_table s i off = (-1, s) := by
  simp [add_to_open_file_table, hf]

/-- The state `tfs_init` builds when the tables have room for the root. -/
theorem tfs_init_ok (p : tfs_params) (mem : tfs_state) (hi : 0 < p.max_inode_count)
    (hb : 0 < p.max_block_count) :
    tfs_init (some p) mem =
      (0, { mem with
            params := p
            freeinode_ts := upd (fun _ => FREE) 0 TAKEN
            free_blocks := upd (fun _ => FREE) 0 TAKEN
            free_open_file_entries := fun _ => FREE
            inode_table := upd (upd mem.inode_table 0
                { i_node_type := T_DIRECTORY, i_size := 0, i_data_block := -1, hard_links := 1 }) 0
                { i_node_type := T_DIRECTORY, i_size := 0, i_data_block := 0, hard_links := 1 }
            root_dir := fun _ => { d_name := [], d_inumber := -1 } }) := by
  have h1 : first_free (fun _ => FREE) p.max_inode_count = some 0 := by
    rw [first_free_eq_some]; exact ⟨hi, rfl, fun m hm => by omega⟩
  have h2 : first_free (fun _ => FREE) p.max_block_count = some 0 := by
    rw [first_free_eq_some]; exact ⟨hb, rfl, fun m hm => by omega⟩
  simp [tfs_init, state_init, inode_create, data_block_alloc, h1, h2, ROOT_DIR_INUM]

theorem skip_slash_length (buf : List Nat) :
    (skip_slash (some buf)).length = strlen buf - 1 := by
  simp [skip_slash, strlen]

theorem find_in_dir_of_slot (s : tfs_state) (nm : List Nat) (d : Nat)
    (h : dir_slot s nm = some d) : find_in_dir s nm = (s.root_dir d).d_inumber := by
  simp [find_in_dir, h]

theorem find_in_dir_of_no_slot (s : tfs_state) (nm : List Nat)
    (h : dir_slot s nm = none) : find_in_dir s nm = -1 := by
  simp [find_in_dir, h]

theorem dir_slot_eq_some (s : tfs_state) (nm : List Nat) (d : Nat) :
    dir_slot s nm = some d ↔
      d < MAX_DIR_ENTRIES s ∧ ((s.root_dir d).d_inumber ≠ -1 ∧ (s.root_dir d).d_name = nm) ∧
        ∀ m, m < d → ¬ ((s.root_dir m).d_inumber ≠ -1 ∧ (s.root_dir m).d_name = nm) := by
  unfold dir_slot
  rw [first_index_eq_some]
  simp

theorem dir_slot_eq_none (s : tfs_state) (nm : List Nat) :
    dir_slot s nm = none ↔
      ∀ m, m < MAX_DIR_ENTRIES s → ¬ ((s.root_dir m).d_inumber ≠ -1 ∧ (s.root_dir m).d_name = nm) := by
  unfold dir_slot
  rw [first_index_eq_none]
  simp

/-- Opening an absent name with `TFS_O_CREAT` when an inode slot and a directory slot are
FREE: the inode is created, the entry added, and the open-file table is asked for a
handle. -/
theorem tfs_open_create (fuel : Nat) (s : tfs_state) (name : List Nat) (mode i d : Nat)
    (hv : valid_pathname (some name) = true)
    (hroot : 0 < s.params.max_inode_count)
    (hnf : find_in_dir s (skip_slash (some name)) < 0)
    (hm : mode &&& TFS_O_CREAT ≠ 0)
    (hi : first_free s.freeinode_ts s.params.max_inode_count = some i)
    (hs : SLASH ∉ skip_slash (some name))
    (hd : first_index (fun k => decide ((s.root_dir k).d_inumber = -1)) (MAX_DIR_ENTRIES s)
      = some d) :
    tfs_open (fuel + 1) s (some name) mode =
      some (ret
        (add_to_open_file_table
          { s with
            freeinode_ts := upd s.freeinode_ts i TAKEN
            inode_table := upd s.inode_table i
              { i_node_type := T_FILE, i_size := 0, i_data_block := -1, hard_links := 1 }
            root_dir := upd s.root_dir d { d_name := skip_slash (some name), d_inumber := i } }
          i 0).1
        (add_to_open_file_table
          { s with
            freeinode_ts := upd s.freeinode_ts i TAKEN
            inode_table := upd s.inode_table i
              { i_node_type := T_FILE, i_size := 0, i_data_block := -1, hard_links := 1 }
            root_dir := upd s.root_dir d { d_name := skip_slash (some name), d_inumber := i } }
          i 0).2) := by
  have hlen : ¬ (MAX_FILE_NAME - 1 < (skip_slash (some name)).length) := by
    rw [skip_slash_length]
    rw [valid_pathname_iff] at hv
    omega
  have hnf2 : ¬ (0 ≤ find_in_dir s (skip_slash (some name))) := by omega
  have hi2 : ¬ ((i : Int) = -1) := by omega
  simp [tfs_open, hv, inode_get_root s hroot, tfs_lookup, hnf2, hm, inode_create, hi,
    add_dir_entry, hs, hlen, hd, MAX_DIR_ENTRIES, hi2]
  simp [MAX_DIR_ENTRIES] at hd
  simp [hd]

/-- Opening a name that resolves to an inode that is no symbolic link. -/
theorem tfs_open_existing (fuel : Nat) (s : tfs_state) (name : Option (List Nat)) (mode : Nat)
    (inum : Int) (inode : inode_t)
    (hv : valid_pathname name = true)
    (hroot : 0 < s.params.max_inode_count)
    (hf : find_in_dir s (skip_slash name) = inum) (h0 : 0 ≤ inum)
    (hin : inode_get s inum = some inode)
    (hk : inode.i_node_type ≠ T_SYMLINK) :
    tfs_open (fuel + 1) s name mode =
      some (ret
        (add_to_open_file_table
          (if mode &&& TFS_O_TRUNC ≠ 0 ∧ 0 < inode.i_size then
            { data_block_free s inode.i_data_block with
              inode_table := upd (data_block_free s inode.i_data_block).inode_table inum.toNat
                { inode with i_size := 0 } }
           else s)
          inum
          (if mode &&& TFS_O_APPEND ≠ 0 then
            ((if mode &&& TFS_O_TRUNC ≠ 0 ∧ 0 < inode.i_size then
              { data_block_free s inode.i_data_block with
                inode_table := upd (data_block_free s inode.i_data_block).inode_table inum.toNat
                  { inode with i_size := 0 } }
             else s).inode_table inum.toNat).i_size
           else 0)).1
        (add_to_open_file_table
          (if mode &&& TFS_O_TRUNC ≠ 0 ∧ 0 < inode.i_size then
            { data_block_free s inode.i_data_block with
              inode_table := upd (data_block_free s inode.i_data_block).inode_table inum.toNat
                { inode with i_size := 0 } }
           else s)
          inum
          (if mode &&& TFS_O_APPEND ≠ 0 then
            ((if mode &&& TFS_O_TRUNC ≠ 0 ∧ 0 < inode.i_size then
              { data_block_free s inode.i_data_block with
                inode_table := upd (data_block_free s inode.i_data_block).inode_table inum.toNat
                  { inode with i_size := 0 } }
             else s).inode_table inum.toNat).i_size
           else 0)).2) := by
  subst hf
  simp [tfs_open, hv, inode_get_root s hroot, tfs_lookup, h0, hin, hk]

theorem get_open_file_entry_nat (s : tfs_state) (h : Nat)
    (hh : h < s.params.max_open_files_count) :
    get_open_file_entry s (h : Int) = some (s.open_file_table h) := by
  simp [get_open_file_entry, hh]

theorem to_ssize_small (n : Nat) (h : n < 2 ^ 63) : to_ssize n = (n : Int) := by
  have h1 : n % SIZE_MOD = n := Nat.mod_eq_of_lt (by simp only [SIZE_MOD]; omega)
  unfold to_ssize
  rw [h1, if_pos h]

/-- A write of `n > 0` bytes that fits in the block, through a valid handle on a TAKEN
inode of size 0: a block is allocated and filled. -/
theorem tfs_write_empty (s : tfs_state) (h i b n : Nat) (buffer : List Nat)
    (hh : h < s.params.max_open_files_count)
    (hi : (s.open_file_table h).of_inumber = (i : Int))
    (hi2 : i < s.params.max_inode_count)
    (ht : s.freeinode_ts i = TAKEN)
    (hz : (s.inode_table i).i_size = 0)
    (hb : first_free s.free_blocks s.params.max_block_count = some b)
    (hn : 0 < n)
    (hfit : (s.open_file_table h).of_offset + n ≤ s.params.block_size)
    (hbs : s.params.block_size < SIZE_MOD) :
    tfs_write s (h : Int) buffer n =
      ret (to_ssize n)
        { s with
          free_blocks := upd s.free_blocks b TAKEN
          fs_data := upd s.fs_data b
            (fun k => if (s.open_file_table h).of_offset ≤ k ∧ k < (s.open_file_table h).of_offset + n
                      then byte_at buffer (k - (s.open_file_table h).of_offset) else s.fs_data b k)
          open_file_table := upd s.open_file_table h
            { s.open_file_table h with of_offset := (s.open_file_table h).of_offset + n }
          inode_table := upd s.inode_table i
            { s.inode_table i with
              i_data_block := (b : Int)
              i_size := (s.open_file_table h).of_offset + n } } := by
  have hb2 := (first_free_eq_some _ _ _).1 hb
  have hmod : (n + (s.open_file_table h).of_offset) % SIZE_MOD
      = n + (s.open_file_table h).of_offset := Nat.mod_eq_of_lt (by omega)
  have hmod2 : ((s.open_file_table h).of_offset + n) % SIZE_MOD
      = (s.open_file_table h).of_offset + n := Nat.mod_eq_of_lt (by omega)
  have hcap : ¬ (s.params.block_size < n + (s.open_file_table h).of_offset) := by omega
  have hfit2 : ¬ (s.params.block_size < (s.open_file_table h).of_offset + n) := by omega
  have hbi : ¬ ((b : Int) = -1) := by omega
  have hpos : 0 < (s.open_file_table h).of_offset + n := by omega
  simp [tfs_write, get_open_file_entry_nat s h hh, hi, inode_get_nat s i hi2,
    is_inum_taken_nat s i hi2 ht, state_block_size, hmod, hmod2, hcap, hn, hz, data_block_alloc,
    hb, hbi, data_block_get, hb2.1, hfit2, hpos]

/-- A write of `n > 0` bytes that fits in the block, through a valid handle on a TAKEN
inode of positive size whose block number is in the pool. -/
theorem tfs_write_nonempty (s : tfs_state) (h i b n : Nat) (buffer : List Nat)
    (hh : h < s.params.max_open_files_count)
    (hi : (s.open_file_table h).of_inumber = (i : Int))
    (hi2 : i < s.params.max_inode_count)
    (ht : s.freeinode_ts i = TAKEN)
    (hz : 0 < (s.inode_table i).i_size)
    (hb : (s.inode_table i).i_data_block = (b : Int))
    (hb2 : b < s.params.max_block_count)
    (hn : 0 < n)
    (hfit : (s.open_file_table h).of_offset + n ≤ s.params.block_size)
    (hbs : s.params.block_size < SIZE_MOD) :
    tfs_write s (h : Int) buffer n =
      ret (to_ssize n)
        { s with
          fs_data := upd s.fs_data b
            (fun k => if (s.open_file_table h).of_offset ≤ k ∧ k < (s.open_file_table h).of_offset + n
                      then byte_at buffer (k - (s.open_file_table h).of_offset) else s.fs_data b k)
          open_file_table := upd s.open_file_table h
            { s.open_file_table h with of_offset := (s.open_file_table h).of_offset + n }
          inode_table := upd s.inode_table i
            { s.inode_table i with
              i_size := if (s.inode_table i).i_size < (s.open_file_table h).of_offset + n
                then (s.open_file_table h).of_offset + n else (s.inode_table i).i_size } } := by
  have hmod : (n + (s.open_file_table h).of_offset) % SIZE_MOD
      = n + (s.open_file_table h).of_offset := Nat.mod_eq_of_lt (by omega)
  have hmod2 : ((s.open_file_table h).of_offset + n) % SIZE_MOD
      = (s.open_file_table h).of_offset + n := Nat.mod_eq_of_lt (by omega)
  have hcap : ¬ (s.params.block_size < n + (s.open_file_table h).of_offset) := by omega
  have hfit2 : ¬ (s.params.block_size < (s.open_file_table h).of_offset + n) := by omega
  have hz2 : ¬ ((s.inode_table i).i_size = 0) := by omega
  simp [tfs_write, get_open_file_entry_nat s h hh, hi, inode_get_nat s i hi2,
    is_inum_taken_nat s i hi2 ht, state_block_size, hmod, hmod2, hcap, hn, hz2, hb,
    data_block_get, hb2, hfit2]

/-- A read through a valid handle on a TAKEN inode whose offset does not exceed the size:
`r = min (size - offset) len` bytes are returned from the block, and the offset advances
by `r`. -/
theorem tfs_read_ok (s : tfs_state) (h i b len : Nat)
    (hh : h < s.params.max_open_files_count)
    (hi : (s.open_file_table h).of_inumber = (i : Int))
    (hi2 : i < s.params.max_inode_count)
    (ht : s.freeinode_ts i = TAKEN)
    (hoff : (s.open_file_table h).of_offset ≤ (s.inode_table i).i_size)
    (hsz : (s.inode_table i).i_size ≤ s.params.block_size)
    (hbs : s.params.block_size < SIZE_MOD)
    (hb : 0 < (s.inode_table i).i_size → (s.inode_table i).i_data_block = (b : Int) ∧
      b < s.params.max_block_count) :
    tfs_read s (h : Int) len =
      ret (to_ssize (min ((s.inode_table i).i_size - (s.open_file_table h).of_offset) len),
           (List.range (min ((s.inode_table i).i_size - (s.open_file_table h).of_offset) len)).map
             (fun k => s.fs_data b ((s.open_file_table h).of_offset + k)))
        { s with
          open_file_table := upd s.open_file_table h
            { s.open_file_table h with
              of_offset := (s.open_file_table h).of_offset +
                min ((s.inode_table i).i_size - (s.open_file_table h).of_offset) len } } := by
  have hoffm : (s.open_file_table h).of_offset % SIZE_MOD = (s.open_file_table h).of_offset :=
    Nat.mod_eq_of_lt (by omega)
  have hav : ((s.inode_table i).i_size + SIZE_MOD - (s.open_file_table h).of_offset) % SIZE_MOD
      = (s.inode_table i).i_size - (s.open_file_table h).of_offset := by
    have : (s.inode_table i).i_size + SIZE_MOD - (s.open_file_table h).of_offset
        = ((s.inode_table i).i_size - (s.open_file_table h).of_offset) + SIZE_MOD := by omega
    rw [this, Nat.add_mod_right]
    exact Nat.mod_eq_of_lt (by omega)
  have hmin : (if (s.inode_table i).i_size - (s.open_file_table h).of_offset < len
      then (s.inode_table i).i_size - (s.open_file_table h).of_offset else len)
      = min ((s.inode_table i).i_size - (s.open_file_table h).of_offset) len := by
    split <;> omega
  have hnew : ((s.open_file_table h).of_offset +
      min ((s.inode_table i).i_size - (s.open_file_table h).of_offset) len) % SIZE_MOD
      = (s.open_file_table h).of_offset +
        min ((s.inode_table i).i_size - (s.open_file_table h).of_offset) len :=
    Nat.mod_eq_of_lt (by omega)
  simp only [tfs_read, get_open_file_entry_nat s h hh, hi, inode_get_nat s i hi2,
    is_inum_taken_nat s i hi2 ht, hoffm, hav, hmin, hnew]
  by_cases hr : 0 < min ((s.inode_table i).i_size - (s.open_file_table h).of_offset) len
  · have hsz0 : 0 < (s.inode_table i).i_size := by omega
    obtain ⟨hb1, hb2⟩ := hb hsz0
    have hfit : ¬ (s.params.block_size < (s.open_file_table h).of_offset +
        min ((s.inode_table i).i_size - (s.open_file_table h).of_offset) len) := by omega
    simp [hr, data_block_get, hb1, hb2, hfit]
  · have hr0 : min ((s.inode_table i).i_size - (s.open_file_table h).of_offset) len = 0 := by
      omega
    simp [hr0]

theorem tfs_close_ok (s : tfs_state) (h : Nat) (hh : h < s.params.max_open_files_count) :
    tfs_close s (h : Int) =
      ret 0
        { s with
          open_file_table := upd s.open_file_table h
            { s.open_file_table h with of_inumber := -1 }
          free_open_file_entries := upd s.free_open_file_entries h FREE } := by
  simp [tfs_close, get_open_file_entry_nat s h hh, remove_from_open_file_table, hh]

theorem map_byte_at_range (b : List Nat) :
    (List.range b.length).map (fun k => byte_at b k) = b := by
  apply List.ext_getElem
  · simp
  · intro k h1 h2
    simp [byte_at, List.getD_eq_getElem?_getD, List.getElem?_eq_getElem h2]

theorem split_pair {α : Type} {x : α × tfs_state} {v : α} {s : tfs_state} (h : x = (v, s)) :
    ∃ s1, x = (v, s1) ∧ s1 = s :=
  ⟨s, h, rfl⟩

theorem split_ret {α : Type} {r : tfs_result α} {v : α} {s : tfs_state} (h : r = ret v s) :
    ∃ s1, r = ret v s1 ∧ s1 = s :=
  ⟨s, h, rfl⟩

theorem split_some_ret {α : Type} {r : Option (tfs_result α)} {v : α} {s : tfs_state}
    (h : r = some (ret v s)) : ∃ s1, r = some (ret v s1) ∧ s1 = s :=
  ⟨s, h, rfl⟩

/-! ## C1: write/read round trip -/

/-- C1 (amended). In a file system initialised with room for one file (two inodes, two
blocks, one open-file entry, one directory slot), for every valid path whose name has no
further '/', and every buffer `b` of length `n` with `0 < n ≤ block_size`: creating the
file, writing `b`, closing, reopening and reading `n` bytes makes `tfs_write` and
`tfs_read` return `n`, and the bytes read are `b`. -/
theorem write_read_round_trip (p : tfs_params) (mem : tfs_state) (path b : List Nat)
    (n fuel : Nat)
    (hi : 2 ≤ p.max_inode_count) (hb : 2 ≤ p.max_block_count)
    (ho : 1 ≤ p.max_open_files_count) (hd : SIZEOF_DIR_ENTRY ≤ p.block_size)
    (hbs : p.block_size < 2 ^ 63)
    (hp : valid_pathname (some path) = true) (hs : SLASH ∉ skip_slash (some path))
    (hlen : b.length = n) (hn0 : 0 < n) (hn1 : n ≤ p.block_size) :
    ∃ (s0 s1 s2 s3 s4 s5 : tfs_state) (f g : Int),
      tfs_init (some p) mem = (0, s0) ∧
      tfs_open (fuel + 1) s0 (some path) TFS_O_CREAT = some (ret f s1) ∧
      tfs_write s1 f b n = ret (n : Int) s2 ∧
      tfs_close s2 f = ret 0 s3 ∧
      tfs_open (fuel + 1) s3 (some path) 0 = some (ret g s4) ∧
      tfs_read s4 g n = ret ((n : Int), b) s5 := by
  have hdir : 0 < p.block_size / SIZEOF_DIR_ENTRY :=
    Nat.div_pos hd (by simp [SIZEOF_DIR_ENTRY, MAX_FILE_NAME])
  have hsz : p.block_size < SIZE_MOD := by simp only [SIZE_MOD]; omega
  obtain ⟨s0, h0, e0⟩ := split_pair (tfs_init_ok p mem (by omega) (by omega))
  -- create
  have c1 := tfs_open_create fuel s0 path TFS_O_CREAT 1 0 hp (by simp [e0]; omega)
      (by
        rw [find_in_dir_of_no_slot]
        · decide
        · rw [dir_slot_eq_none]; simp [e0])
      (by decide)
      (by rw [first_free_eq_some]; simp [e0, upd]; omega)
      hs
      (by rw [first_index_eq_some]; simp [e0, MAX_DIR_ENTRIES]; exact hdir)
  rw [add_to_open_file_table_some _ _ _ 0 (by rw [first_free_eq_some]; simp [e0]; omega)] at c1
  obtain ⟨s1, h1, e1⟩ := split_some_ret c1
  dsimp only at e1
  -- write
  have c2 := tfs_write_empty s1 0 1 1 n b (by simp [e1, e0]; omega) (by simp [e1])
      (by simp [e1, e0]; omega) (by simp [e1, upd]) (by simp [e1])
      (by rw [first_free_eq_some]; simp [e1, e0, upd]; omega)
      hn0 (by simpa [e1, e0] using hn1) (by simpa [e1, e0] using hsz)
  rw [to_ssize_small n (by omega)] at c2
  obtain ⟨s2, h2, e2⟩ := split_ret c2
  -- close
  have c3 := tfs_close_ok s2 0 (by simp [e2, e1, e0]; omega)
  obtain ⟨s3, h3, e3⟩ := split_ret c3
  -- reopen
  have c4 := tfs_open_existing fuel s3 (some path) 0 1
      { i_node_type := T_FILE, i_size := n, i_data_block := 1, hard_links := 1 } hp
      (by simp [e3, e2, e1, e0]; omega)
      (by
        rw [find_in_dir_of_slot _ _ 0]
        · simp [e3, e2, e1]
        · rw [dir_slot_eq_some]; simp [e3, e2, e1, e0, MAX_DIR_ENTRIES]; exact hdir)
      (by decide)
      (by simp [inode_get, e3, e2, e1, e0]; omega)
      (by simp)
  simp only [show (0 &&& TFS_O_TRUNC) = 0 from by decide,
    show (0 &&& TFS_O_APPEND) = 0 from by decide, ne_eq, not_true_eq_false, false_and,
    if_false] at c4
  rw [add_to_open_file_table_some _ _ _ 0
    (by rw [first_free_eq_some]; simp [e3, e2, e1, e0]; omega)] at c4
  obtain ⟨s4, h4, e4⟩ := split_some_ret c4
  dsimp only at e4
  -- read
  have c5 := tfs_read_ok s4 0 1 1 n (by simp [e4, e3, e2, e1, e0]; omega) (by simp [e4])
      (by simp [e4, e3, e2, e1, e0]; omega) (by simp [e4, e3, e2, e1, upd])
      (by simp [e4, e3, e2, e1]) (by simpa [e4, e3, e2, e1, e0] using hn1)
      (by simpa [e4, e3, e2, e1, e0] using hsz) (by simp [e4, e3, e2, e1, e0]; omega)
  have hsize : (s4.inode_table 1).i_size = n := by simp [e4, e3, e2, e1]
  have hoff : (s4.open_file_table 0).of_offset = 0 := by simp [e4]
  have hdata : ∀ k, k < n → s4.fs_data 1 k = byte_at b k := by
    intro k hk
    simp [e4, e3, e2, e1, hk]
  rw [hsize, hoff] at c5
  simp only [Nat.sub_zero, Nat.min_self, Nat.zero_add] at c5
  rw [to_ssize_small n (by omega)] at c5
  have hbytes : (List.range n).map (fun k => s4.fs_data 1 k) = b := by
    subst hlen
    conv_rhs => rw [← map_byte_at_range b]
    apply List.map_congr_left
    intro k hk
    exact hdata k (by simpa using hk)
  rw [hbytes] at c5
  obtain ⟨s5, h5, _⟩ := split_ret c5
  exact ⟨s0, s1, s2, s3, s4, s5, _, _, h0, h1, h2, h3, h4, h5⟩


/-- C1 on scenario S1: the default parameters, "/f1" and the five bytes of "AAA!". -/
theorem write_read_round_trip_witness :
    ∃ (s0 s1 s2 s3 s4 s5 : tfs_state) (f g : Int),
      tfs_init (some tfs_default_params) zero_mem = (0, s0) ∧
      tfs_open 1 s0 (some (str "/f1")) TFS_O_CREAT = some (ret f s1) ∧
      tfs_write s1 f (str "AAA!" ++ [0]) 5 = ret 5 s2 ∧
      tfs_close s2 f = ret 0 s3 ∧
      tfs_open 1 s3 (some (str "/f1")) 0 = some (ret g s4) ∧
      tfs_read s4 g 5 = ret (5, str "AAA!" ++ [0]) s5 :=
  write_read_round_trip tfs_default_params zero_mem (str "/f1") (str "AAA!" ++ [0]) 5 0
    (by decide) (by decide) (by decide) (by decide) (by decide) (by decide) (by decide)
    (by decide) (by decide) (by decide)

/-- C1 as stated fails for the valid path "/a/b": `add_dir_entry` rejects the name "a/b",
so `tfs_open` with `TFS_O_CREAT` returns -1 in the fresh default file system, and
`tfs_write` through that value returns -1, not the number of bytes. -/
theorem round_trip_counterexample :
    valid_pathname (some (str "/a/b")) = true ∧
    ∀ fuel, ∃ s1,
      tfs_open (fuel + 1) fresh_default (some (str "/a/b")) TFS_O_CREAT = some (ret (-1) s1) ∧
      tfs_write s1 (-1) (str "AAA!") 4 = ret (-1) s1 :=
  ⟨by decide, fun _ => ⟨_, rfl, rfl⟩⟩


/-! ## C4: following a symbolic link -/

/-- C4 at the failing input. In the default file system holding "/f12",
`tfs_sym_link("/f12", "/s")` returns 0 but stores only `strlen("/s") + 1 = 3` bytes of the
target, the path "/f1"; afterwards `tfs_open("/s", 0)` returns -1 at every depth of
recursion, while `tfs_open("/f12", 0)` returns the handle 0. -/
theorem symlink_stores_truncated_target :
    (tfs_sym_link long_name_state (some (str "/f12")) (some (str "/s"))).value? = some 0 ∧
    symlink_path (short_link_state.fs_data 1) (short_link_state.inode_table 2).i_size = str "/f1" ∧
    (∀ fuel, tfs_open (fuel + 2) short_link_state (some (str "/s")) 0
      = some (ret (-1) short_link_state)) ∧
    (∀ fuel, ∃ s1, tfs_open (fuel + 1) short_link_state (some (str "/f12")) 0
      = some (ret 0 s1)) :=
  ⟨by decide, by decide, fun _ => rfl, fun _ => ⟨_, rfl⟩⟩


/-! ## The directory after an insertion -/

theorem find_in_dir_eq_neg_one (s : tfs_state) (nm : List Nat) :
    find_in_dir s nm = -1 ↔ dir_slot s nm = none := by
  constructor
  · intro h
    cases hd : dir_slot s nm with
    | none => rfl
    | some k =>
      rw [find_in_dir_of_slot s nm k hd] at h
      rw [dir_slot_eq_some] at hd
      exact absurd h hd.2.1.1
  · exact find_in_dir_of_no_slot s nm

theorem dir_slot_after_add_same (s s1 : tfs_state) (nb : List Nat) (d : Nat) (i : Int)
    (hp : s1.params = s.params)
    (hr : s1.root_dir = upd s.root_dir d { d_name := nb, d_inumber := i })
    (hd : d < MAX_DIR_ENTRIES s) (hi : i ≠ -1) (hno : dir_slot s nb = none) :
    dir_slot s1 nb = some d := by
  rw [dir_slot_eq_none] at hno
  rw [dir_slot_eq_some]
  refine ⟨by simpa [MAX_DIR_ENTRIES, hp] using hd, by simp [hr, hi], ?_⟩
  intro m hm
  have hne : m ≠ d := by omega
  rw [hr, upd_other _ _ _ _ hne]
  exact hno m (by omega)

theorem dir_slot_after_add_other (s s1 : tfs_state) (na nb : List Nat) (d : Nat) (i : Int)
    (hp : s1.params = s.params)
    (hr : s1.root_dir = upd s.root_dir d { d_name := nb, d_inumber := i })
    (hfree : (s.root_dir d).d_inumber = -1) (hne : na ≠ nb) :
    dir_slot s1 na = dir_slot s na := by
  unfold dir_slot
  have hm : MAX_DIR_ENTRIES s1 = MAX_DIR_ENTRIES s := by simp [MAX_DIR_ENTRIES, hp]
  rw [hm]
  congr 1
  funext m
  by_cases hmd : m = d
  · subst hmd
    simp [hr, hfree, Ne.symm hne]
  · rw [hr, upd_other _ _ _ _ hmd]

/-! ## C5: a hard link names the same file -/

/-- What a `tfs_link` that returned 0 did. -/
theorem tfs_link_ret_zero (s s1 : tfs_state) (a b : Option (List Nat))
    (h : tfs_link s a b = ret 0 s1) :
    valid_pathname b = true ∧
    ∃ (i : Int) (inode : inode_t) (d : Nat),
      tfs_lookup s a (inode_get s ROOT_DIR_INUM) = some i ∧ i ≠ -1 ∧
      inode_get s i = some inode ∧ is_inum_taken s i = true ∧
      inode.i_node_type ≠ T_SYMLINK ∧
      first_index (fun k => decide ((s.root_dir k).d_inumber = -1)) (MAX_DIR_ENTRIES s) = some d ∧
      s1 = { s with
             inode_table := upd s.inode_table i.toNat
               { inode with hard_links := inode.hard_links + 1 }
             root_dir := upd s.root_dir d { d_name := skip_slash b, d_inumber := i } } := by
  unfold tfs_link at h
  split at h
  · simp at h
  · rename_i hv
    refine ⟨by simpa using hv, ?_⟩
    split at h
    · simp at h
    · rename_i i hl
      split at h
      · simp at h
      · rename_i hi
        split at h
        · simp at h
        · rename_i inode hin
          split at h
          · simp at h
          · rename_i ht
            split at h
            · simp at h
            · rename_i hk
              simp only [add_dir_entry] at h
              by_cases hrej : SLASH ∈ skip_slash b ∨ MAX_FILE_NAME - 1 < (skip_slash b).length
              · simp [hrej] at h
              · cases hfi : first_index (fun k => decide ((s.root_dir k).d_inumber = -1))
                    (MAX_DIR_ENTRIES s) with
                | none =>
                  simp only [MAX_DIR_ENTRIES] at hfi h
                  simp [hrej, hfi] at h
                | some d =>
                  simp only [MAX_DIR_ENTRIES] at hfi h
                  simp [hrej, hfi] at h
                  refine ⟨i, inode, d, hl, hi, hin, by simpa using ht, hk, ?_, h.symm⟩
                  simp [MAX_DIR_ENTRIES, hfi]


theorem inode_get_some (s : tfs_state) (i : Int) (inode : inode_t)
    (h : inode_get s i = some inode) :
    0 ≤ i ∧ i < (s.params.max_inode_count : Int) ∧ inode = s.inode_table i.toNat ∧
      i = ((i.toNat : Nat) : Int) ∧ i.toNat < s.params.max_inode_count := by
  unfold inode_get at h
  split at h
  · rename_i hr
    simp at h
    exact ⟨hr.1, hr.2, h.symm, by omega, by omega⟩
  · simp at h

theorem file_content_take (s : tfs_state) (inum len : Nat) :
    (file_content s inum).take len =
      (List.range (min (s.inode_table inum).i_size len)).map
        (s.fs_data (s.inode_table inum).i_data_block.toNat) := by
  unfold file_content
  rw [← List.map_take, List.take_range, Nat.min_comm]

/-- C5 (amended). If `a` resolves to a FILE inode `i` of a well-formed size and block, `b`
is not in the directory and `tfs_link(a, b)` returns 0, then `b` resolves to `i` and the
link count of `i` has grown by exactly 1, whatever the open-file table holds; and for
every FREE entry `h` that is the first of the open-file table, `tfs_open(b, 0)` returns
the handle `h`, through which `tfs_read` returns the bytes of the file (the first `len` of
them). -/
theorem hard_link_equivalence (s s1 : tfs_state) (a b : Option (List Nat)) (i : Int)
    (inode : inode_t) (fuel len : Nat)
    (hres : tfs_lookup s a (inode_get s ROOT_DIR_INUM) = some i)
    (hin : inode_get s i = some inode) (hfile : inode.i_node_type = T_FILE)
    (hnb : find_in_dir s (skip_slash b) = -1)
    (hlink : tfs_link s a b = ret 0 s1)
    (hsz : inode.i_size ≤ s.params.block_size) (hbs : s.params.block_size < 2 ^ 63)
    (hblk : 0 < inode.i_size →
      0 ≤ inode.i_data_block ∧ inode.i_data_block < (s.params.max_block_count : Int)) :
    tfs_lookup s1 b (inode_get s1 ROOT_DIR_INUM) = some i ∧
    (s1.inode_table i.toNat).hard_links = inode.hard_links + 1 ∧
    ∀ h : Nat, first_free s.free_open_file_entries s.params.max_open_files_count = some h →
      ∃ s2 s3, tfs_open (fuel + 1) s1 b 0 = some (ret (h : Int) s2) ∧
        tfs_read s2 (h : Int) len =
          ret (((min inode.i_size len : Nat) : Int), (file_content s i.toNat).take len) s3 := by
  obtain ⟨hvb, i1, inode1, d, hl, hi, hin1, ht, hk, hd, e1⟩ := tfs_link_ret_zero s s1 a b hlink
  rw [hres] at hl
  cases hl
  rw [hin] at hin1
  cases hin1
  obtain ⟨h0, hlt, heq, hcast, hnat⟩ := inode_get_some s i inode hin
  have hroot : 0 < s.params.max_inode_count := by omega
  have hsm : s.params.block_size < SIZE_MOD := by simp only [SIZE_MOD]; omega
  have hd2 := (first_index_eq_some _ _ _).1 hd
  have hdfree : (s.root_dir d).d_inumber = -1 := by simpa using hd2.2.1
  have hslot : dir_slot s1 (skip_slash b) = some d :=
    dir_slot_after_add_same s s1 (skip_slash b) d i (by simp [e1]) (by simp [e1]) hd2.1 hi
      ((find_in_dir_eq_neg_one s _).1 hnb)
  have hfind : find_in_dir s1 (skip_slash b) = i := by
    rw [find_in_dir_of_slot s1 _ d hslot]
    simp [e1]
  refine ⟨?_, by simp [e1], ?_⟩
  · simp [tfs_lookup, hvb, inode_get_root s1 (by simpa [e1] using hroot), hfind]
  · intro h hfree
    have hh := (first_free_eq_some _ _ _).1 hfree
    have c1 := tfs_open_existing fuel s1 b 0 i { inode with hard_links := inode.hard_links + 1 }
      hvb (by simpa [e1] using hroot) hfind h0
      (by simp [inode_get, e1, h0, hlt]) (by simp [hfile])
    simp only [show (0 &&& TFS_O_TRUNC) = 0 from by decide,
      show (0 &&& TFS_O_APPEND) = 0 from by decide, ne_eq, not_true_eq_false, false_and,
      if_false] at c1
    rw [add_to_open_file_table_some _ _ _ h (by simpa [e1] using hfree)] at c1
    obtain ⟨s2, h2, e2⟩ := split_some_ret c1
    have c2 := tfs_read_ok s2 h i.toNat inode.i_data_block.toNat len
      (by simpa [e2, e1] using hh.1) (by simpa [e2] using hcast) (by simpa [e2, e1] using hnat)
      (by simpa [e2, e1, is_inum_taken, h0, hlt] using ht)
      (by simp [e2]) (by simpa [e2, e1] using hsz) (by simpa [e2, e1] using hsm)
      (by
        intro hpos
        have hpos2 : 0 < inode.i_size := by simpa [e2, e1] using hpos
        have := hblk hpos2
        simp [e2, e1]
        omega)
    have hsize : (s2.inode_table i.toNat).i_size = inode.i_size := by simp [e2, e1]
    have hoff : (s2.open_file_table h).of_offset = 0 := by simp [e2]
    have hdata : s2.fs_data = s.fs_data := by simp [e2, e1]
    rw [hsize, hoff, hdata] at c2
    simp only [Nat.sub_zero, Nat.zero_add] at c2
    rw [to_ssize_small _ (by omega)] at c2
    rw [file_content_take, ← heq]
    obtain ⟨s3, h3, _⟩ := split_ret c2
    exact ⟨s2, s3, h2, h3⟩


/-- C5 on scenario S2: "/l1" linked to "/f1", which holds the five bytes of "AAA!"; the
first FREE open-file entry is 0. -/
theorem hard_link_equivalence_witness :
    tfs_lookup written_state (some (str "/f1")) (inode_get written_state ROOT_DIR_INUM) = some 1 ∧
    tfs_link written_state (some (str "/f1")) (some (str "/l1")) = ret 0 linked_state ∧
    tfs_lookup linked_state (some (str "/l1")) (inode_get linked_state ROOT_DIR_INUM) = some 1 ∧
    (linked_state.inode_table 1).hard_links = 2 ∧
    ∃ s2 s3, tfs_open 1 linked_state (some (str "/l1")) 0 = some (ret 0 s2) ∧
      tfs_read s2 0 5 = ret (5, str "AAA!" ++ [0]) s3 := by
  have w := hard_link_equivalence written_state linked_state (some (str "/f1"))
    (some (str "/l1")) 1
    { i_node_type := T_FILE, i_size := 5, i_data_block := 1, hard_links := 1 } 0 5
    (by decide) (by decide) (by decide) (by decide) rfl (by decide) (by decide)
    (fun _ => by decide)
  exact ⟨by decide, rfl, w.1, w.2.1, w.2.2 0 (by decide)⟩

/-- C5 as stated fails when the open-file table is full: with a single open-file entry,
held by the handle on "/f1", `tfs_link("/f1", "/l1")` returns 0, "/l1" resolves to inode 1
and the link count is 2, yet `tfs_open("/l1", 0)` returns -1 and `tfs_read` through that
value returns -1 and no bytes. -/
theorem hard_link_counterexample :
    tfs_lookup full_table_state (some (str "/f1")) (inode_get full_table_state ROOT_DIR_INUM)
      = some 1 ∧
    (full_table_state.inode_table 1).i_node_type = T_FILE ∧
    valid_pathname (some (str "/l1")) = true ∧
    find_in_dir full_table_state (skip_slash (some (str "/l1"))) = -1 ∧
    first_free full_table_state.free_open_file_entries
      full_table_state.params.max_open_files_count = none ∧
    ∃ s1, tfs_link full_table_state (some (str "/f1")) (some (str "/l1")) = ret 0 s1 ∧
      tfs_lookup s1 (some (str "/l1")) (inode_get s1 ROOT_DIR_INUM) = some 1 ∧
      (s1.inode_table 1).hard_links = 2 ∧
      ∀ fuel, ∃ s2, tfs_open (fuel + 1) s1 (some (str "/l1")) 0 = some (ret (-1) s2) ∧
        tfs_read s2 (-1) 5 = ret (-1, []) s2 :=
  ⟨by decide, by decide, by decide, by decide, by decide, _, rfl, by decide, by decide,
   fun _ => ⟨_, rfl, rfl⟩⟩


/-! ## C8: truncation on open -/

theorem tfs_lookup_some_nonneg (s : tfs_state) (p : Option (List Nat)) (i : Int)
    (hres : tfs_lookup s p (inode_get s ROOT_DIR_INUM) = some i) (h0 : i ≠ -1) :
    valid_pathname p = true ∧ 0 < s.params.max_inode_count ∧ find_in_dir s (skip_slash p) = i := by
  unfold tfs_lookup at hres
  split at hres
  · simp at hres; omega
  · rename_i hv
    split at hres
    · simp at hres
    · rename_i r hr
      simp at hres
      refine ⟨by simpa using hv, ?_, hres⟩
      unfold inode_get at hr
      split at hr
      · rename_i hlt
        simp [ROOT_DIR_INUM] at hlt
        exact hlt
      · simp at hr

/-- C8 (amended). If the path resolves to a TAKEN FILE inode of positive size whose block
number is in the pool, and the open-file table has a FREE entry, then `tfs_open` with
`TFS_O_TRUNC` set returns a handle on that inode with offset 0, the inode's size is 0
afterwards, its data block is FREE, and a `tfs_read` on the handle returns 0 for every
`len`. -/
theorem open_truncate (s : tfs_state) (p : Option (List Nat)) (mode fuel h len : Nat) (i : Int)
    (inode : inode_t)
    (hres : tfs_lookup s p (inode_get s ROOT_DIR_INUM) = some i)
    (hin : inode_get s i = some inode) (hfile : inode.i_node_type = T_FILE)
    (hpos : 0 < inode.i_size) (htr : mode &&& TFS_O_TRUNC ≠ 0)
    (ht : s.freeinode_ts i.toNat = TAKEN)
    (hblk : 0 ≤ inode.i_data_block ∧ inode.i_data_block < (s.params.max_block_count : Int))
    (hfree : first_free s.free_open_file_entries s.params.max_open_files_count = some h) :
    ∃ s1 s2, tfs_open (fuel + 1) s p mode = some (ret (h : Int) s1) ∧
      s1.open_file_table h = { of_inumber := i, of_offset := 0 } ∧
      s1.free_open_file_entries h = TAKEN ∧
      (s1.inode_table i.toNat).i_size = 0 ∧
      s1.free_blocks inode.i_data_block.toNat = FREE ∧
      tfs_read s1 (h : Int) len = ret (0, []) s2 := by
  obtain ⟨h0, hlt, heq, hcast, hnat⟩ := inode_get_some s i inode hin
  obtain ⟨hv, hroot, hfind⟩ := tfs_lookup_some_nonneg s p i hres (by omega)
  have hh := (first_free_eq_some _ _ _).1 hfree
  have c1 := tfs_open_existing fuel s p mode i inode hv hroot hfind h0 hin (by simp [hfile])
  simp only [htr, hpos, ne_eq, not_false_eq_true, and_self, if_true] at c1
  rw [add_to_open_file_table_some _ _ _ h (by simpa [data_block_free, hblk] using hfree)] at c1
  obtain ⟨s1, h1, e1⟩ := split_some_ret c1
  have hoft : s1.open_file_table h = { of_inumber := i, of_offset := 0 } := by
    simp [e1]
  have hsize : (s1.inode_table i.toNat).i_size = 0 := by simp [e1, data_block_free, hblk]
  have hget : get_open_file_entry s1 (h : Int) = some (s1.open_file_table h) :=
    get_open_file_entry_nat s1 h (by simpa [e1, data_block_free, hblk] using hh.1)
  have hig : inode_get s1 i = some (s1.inode_table i.toNat) := by
    simp [inode_get, e1, data_block_free, hblk, h0, hlt]
  have htk : is_inum_taken s1 i = true := by
    simp [is_inum_taken, e1, data_block_free, hblk, h0, hlt, ht]
  have hrd : tfs_read s1 (h : Int) len =
      ret (0, []) { s1 with open_file_table := upd s1.open_file_table h (s1.open_file_table h) } := by
    simp only [tfs_read, hget, hoft, hig, htk, hsize]
    have hz : (0 + SIZE_MOD - 0 % SIZE_MOD) % SIZE_MOD = 0 := by simp [SIZE_MOD]
    have hm : (if 0 < len then 0 else len) = 0 := by split <;> omega
    simp [hz, hm, to_ssize, SIZE_MOD]
  exact ⟨s1, _, h1, hoft, by simp [e1], hsize, by simp [e1, data_block_free, hblk], hrd⟩

/-- C8 on "/f1" holding five bytes, opened with `TFS_O_TRUNC`. -/
theorem open_truncate_witness :
    (written_state.inode_table 1).i_size = 5 ∧
    ∃ s1 s2, tfs_open 1 written_state (some (str "/f1")) TFS_O_TRUNC = some (ret 0 s1) ∧
      s1.open_file_table 0 = { of_inumber := 1, of_offset := 0 } ∧
      s1.free_open_file_entries 0 = TAKEN ∧
      (s1.inode_table 1).i_size = 0 ∧
      s1.free_blocks 1 = FREE ∧
      tfs_read s1 0 5 = ret (0, []) s2 :=
  ⟨by decide,
   open_truncate written_state (some (str "/f1")) TFS_O_TRUNC 0 0 5 1
     { i_node_type := T_FILE, i_size := 5, i_data_block := 1, hard_links := 1 }
     (by decide) (by decide) (by decide) (by decide) (by decide) (by decide) (by decide)
     (by decide)⟩

/-- C8 as stated fails when the open-file table is full: with a single open-file entry,
held by the handle on "/f1" (five bytes), `tfs_open("/f1", TFS_O_TRUNC)` returns -1, not
a handle, after truncating the file. -/
theorem open_truncate_counterexample :
    tfs_lookup full_table_state (some (str "/f1")) (inode_get full_table_state ROOT_DIR_INUM)
      = some 1 ∧
    (full_table_state.inode_table 1).i_node_type = T_FILE ∧
    (full_table_state.inode_table 1).i_size = 5 ∧
    ∀ fuel, ∃ s1, tfs_open (fuel + 1) full_table_state (some (str "/f1")) TFS_O_TRUNC
        = some (ret (-1) s1) ∧ (s1.inode_table 1).i_size = 0 :=
  ⟨by decide, by decide, by decide, fun _ => ⟨_, rfl, rfl⟩⟩


/-! ## C9: appending -/

theorem map_range_append (F f : Nat → Nat) (m n : Nat) (b : List Nat) (hb : b.length = n)
    (hF1 : ∀ k, k < m → F k = f k) (hF2 : ∀ k, k < n → F (m + k) = byte_at b k) :
    (List.range (m + n)).map F = (List.range m).map f ++ b := by
  rw [List.range_add, List.map_append, List.map_map]
  congr 1
  · apply List.map_congr_left
    intro k hk
    exact hF1 k (by simpa using hk)
  · subst hb
    conv_rhs => rw [← map_byte_at_range b]
    apply List.map_congr_left
    intro k hk
    exact hF2 k (by simpa using hk)

/-- A write of no bytes through a valid handle on a TAKEN inode whose offset is within the
block returns 0 and changes nothing. -/
theorem tfs_write_zero (s : tfs_state) (h i : Nat) (buffer : List Nat)
    (hh : h < s.params.max_open_files_count)
    (hi : (s.open_file_table h).of_inumber = (i : Int))
    (hi2 : i < s.params.max_inode_count)
    (ht : s.freeinode_ts i = TAKEN)
    (hfit : (s.open_file_table h).of_offset ≤ s.params.block_size)
    (hbs : s.params.block_size < SIZE_MOD) :
    tfs_write s (h : Int) buffer 0 = ret 0 s := by
  have hmod : (s.open_file_table h).of_offset % SIZE_MOD = (s.open_file_table h).of_offset :=
    Nat.mod_eq_of_lt (by omega)
  have hcap : ¬ (s.params.block_size < (s.open_file_table h).of_offset) := by omega
  simp only [tfs_write, get_open_file_entry_nat s h hh, hi, inode_get_nat s i hi2,
    is_inum_taken_nat s i hi2 ht, state_block_size, Nat.zero_add, hmod]
  simp [hcap, to_ssize, SIZE_MOD]

/-- C9 (amended). If the path resolves to a TAKEN FILE inode of size `s` with content `c`
(its block number in the pool when `s > 0`) and the open-file table has a FREE entry, then
`tfs_open` returns a handle with offset 0 for every mode without `TFS_O_APPEND`, and with
offset `s` for the mode `TFS_O_APPEND`; and a `tfs_write` of `n` bytes `b` with
`s + n ≤ block_size` through the latter returns `n` and leaves size `s + n` and content `c`
followed by `b`, provided a data block is FREE when `s = 0 < n`. -/
theorem open_append_write (s : tfs_state) (p : Option (List Nat)) (fuel h n : Nat)
    (b : List Nat) (i : Int) (inode : inode_t)
    (hres : tfs_lookup s p (inode_get s ROOT_DIR_INUM) = some i)
    (hin : inode_get s i = some inode) (hfile : inode.i_node_type = T_FILE)
    (ht : s.freeinode_ts i.toNat = TAKEN)
    (hbs : s.params.block_size < 2 ^ 63)
    (hblk : 0 < inode.i_size →
      0 ≤ inode.i_data_block ∧ inode.i_data_block < (s.params.max_block_count : Int))
    (hfree : first_free s.free_open_file_entries s.params.max_open_files_count = some h)
    (hlen : b.length = n) (hfit : inode.i_size + n ≤ s.params.block_size)
    (hroom : inode.i_size = 0 → 0 < n →
      ∃ k, first_free s.free_blocks s.params.max_block_count = some k) :
    (∀ mode, mode &&& TFS_O_APPEND = 0 →
      ∃ s1, tfs_open (fuel + 1) s p mode = some (ret (h : Int) s1) ∧
        s1.open_file_table h = { of_inumber := i, of_offset := 0 }) ∧
    ∃ s1 s2, tfs_open (fuel + 1) s p TFS_O_APPEND = some (ret (h : Int) s1) ∧
      s1.open_file_table h = { of_inumber := i, of_offset := inode.i_size } ∧
      tfs_write s1 (h : Int) b n = ret (n : Int) s2 ∧
      (s2.inode_table i.toNat).i_size = inode.i_size + n ∧
      file_content s2 i.toNat = file_content s i.toNat ++ b := by
  obtain ⟨h0, hlt, heq, hcast, hnat⟩ := inode_get_some s i inode hin
  obtain ⟨hv, hroot, hfind⟩ := tfs_lookup_some_nonneg s p i hres (by omega)
  have hh := (first_free_eq_some _ _ _).1 hfree
  have hsm : s.params.block_size < SIZE_MOD := by simp only [SIZE_MOD]; omega
  constructor
  · intro mode hm
    have c1 := tfs_open_existing fuel s p mode i inode hv hroot hfind h0 hin (by simp [hfile])
    simp only [hm, ne_eq, not_true_eq_false, if_false] at c1
    rw [add_to_open_file_table_some _ _ _ h (by
      split
      · simp only [data_block_free]; split <;> simpa using hfree
      · exact hfree)] at c1
    obtain ⟨s1, h1, e1⟩ := split_some_ret c1
    exact ⟨s1, h1, by simp [e1]⟩
  · have c1 := tfs_open_existing fuel s p TFS_O_APPEND i inode hv hroot hfind h0 hin
      (by simp [hfile])
    simp only [show (TFS_O_APPEND &&& TFS_O_TRUNC) = 0 from by decide,
      show (TFS_O_APPEND &&& TFS_O_APPEND) = 4 from by decide, ne_eq, not_true_eq_false,
      false_and, if_false, show ¬ ((4 : Nat) = 0) from by decide, not_false_eq_true,
      if_true] at c1
    rw [add_to_open_file_table_some _ _ _ h hfree, ← heq] at c1
    obtain ⟨s1, h1, e1⟩ := split_some_ret c1
    have hoft : s1.open_file_table h = { of_inumber := i, of_offset := inode.i_size } := by
      simp [e1]
    have hs1i : s1.inode_table i.toNat = inode := by simp [e1, heq]
    refine ⟨s1, ?_⟩
    by_cases hn : n = 0
    · subst hn
      have hb : b = [] := List.length_eq_zero.mp hlen
      have c2 := tfs_write_zero s1 h i.toNat b (by simpa [e1] using hh.1)
        (by rw [hoft]; exact hcast) (by simpa [e1] using hnat) (by simpa [e1] using ht)
        (by rw [hoft]; simpa [e1] using hfit) (by simpa [e1] using hsm)
      refine ⟨s1, h1, hoft, by simpa using c2, by simp [hs1i], ?_⟩
      simp [file_content, hs1i, ← heq, hb, e1]
    · have hn0 : 0 < n := by omega
      by_cases hz : inode.i_size = 0
      · obtain ⟨k, hk⟩ := hroom hz hn0
        have c2 := tfs_write_empty s1 h i.toNat k n b (by simpa [e1] using hh.1)
          (by rw [hoft]; exact hcast) (by simpa [e1] using hnat) (by simpa [e1] using ht)
          (by rw [hs1i]; exact hz) (by simpa [e1] using hk) hn0
          (by rw [hoft]; simpa [e1] using hfit) (by simpa [e1] using hsm)
        rw [to_ssize_small n (by omega)] at c2
        obtain ⟨s2, h2, e2⟩ := split_ret c2
        refine ⟨s2, h1, hoft, h2, by simp [e2, hoft], ?_⟩
        have hc0 : file_content s i.toNat = [] := by simp [file_content, ← heq, hz]
        rw [hc0, List.nil_append]
        simp only [file_content]
        have e3 : (s2.inode_table i.toNat).i_size = 0 + n := by simp [e2, hoft, hz]
        have e4 : (s2.inode_table i.toNat).i_data_block = (k : Int) := by simp [e2]
        rw [e3, e4]
        have := map_range_append (s2.fs_data k) (fun _ => 0) 0 n b hlen
          (fun j hj => by omega)
          (fun j hj => by simp [e2, hoft, hz, hj])
        simpa using this
      · have hpos : 0 < inode.i_size := by omega
        obtain ⟨hb1, hb2⟩ := hblk hpos
        have c2 := tfs_write_nonempty s1 h i.toNat inode.i_data_block.toNat n b
          (by simpa [e1] using hh.1)
          (by rw [hoft]; exact hcast) (by simpa [e1] using hnat) (by simpa [e1] using ht)
          (by rw [hs1i]; exact hpos) (by rw [hs1i]; omega) (by simp [e1]; omega) hn0
          (by rw [hoft]; simpa [e1] using hfit) (by simpa [e1] using hsm)
        rw [to_ssize_small n (by omega)] at c2
        obtain ⟨s2, h2, e2⟩ := split_ret c2
        have e3 : (s2.inode_table i.toNat).i_size = inode.i_size + n := by
          simp [e2, hoft, hs1i, hn0]
        have e4 : (s2.inode_table i.toNat).i_data_block = inode.i_data_block := by
          simp [e2, hs1i]
        refine ⟨s2, h1, hoft, h2, e3, ?_⟩
        simp only [file_content]
        rw [e3, e4, ← heq]
        apply map_range_append _ _ _ _ _ hlen
        · intro j hj
          have : ¬ (inode.i_size ≤ j) := by omega
          simp [e2, hoft, this, e1]
        · intro j hj
          simp [e2, hoft, hj]


/-- C9 on "/f1" holding the five bytes of "AAA!": two bytes are appended. -/
theorem open_append_write_witness :
    (written_state.inode_table 1).i_size = 5 ∧
    ∃ s1 s2, tfs_open 1 written_state (some (str "/f1")) TFS_O_APPEND = some (ret 0 s1) ∧
      s1.open_file_table 0 = { of_inumber := 1, of_offset := 5 } ∧
      tfs_write s1 0 (str "BB") 2 = ret 2 s2 ∧
      (s2.inode_table 1).i_size = 7 ∧
      file_content s2 1 = str "AAA!" ++ [0] ++ str "BB" :=
  ⟨by decide,
   (open_append_write written_state (some (str "/f1")) 0 0 2 (str "BB") 1
     { i_node_type := T_FILE, i_size := 5, i_data_block := 1, hard_links := 1 }
     (by decide) (by decide) (by decide) (by decide) (by decide) (fun _ => by decide)
     (by decide) (by decide) (by decide) (fun h => absurd h (by decide))).2⟩

/-- C9 as stated fails in two ways. With a single open-file entry, held by the handle on
"/f1", `tfs_open("/f1", TFS_O_APPEND)` returns -1, not a handle. With a single data block,
taken by the root directory, the empty file "/f1" is opened for appending at offset 0 and
a `tfs_write` of one byte returns -1, not 1. -/
theorem open_append_counterexample :
    (tfs_lookup full_table_state (some (str "/f1")) (inode_get full_table_state ROOT_DIR_INUM)
        = some 1 ∧
      (full_table_state.inode_table 1).i_node_type = T_FILE ∧
      ∀ fuel, tfs_open (fuel + 1) full_table_state (some (str "/f1")) TFS_O_APPEND
        = some (ret (-1) full_table_state)) ∧
    (tfs_lookup no_block_state (some (str "/f1")) (inode_get no_block_state ROOT_DIR_INUM)
        = some 1 ∧
      (no_block_state.inode_table 1).i_node_type = T_FILE ∧
      (no_block_state.inode_table 1).i_size = 0 ∧
      ∀ fuel, ∃ s1, tfs_open (fuel + 1) no_block_state (some (str "/f1")) TFS_O_APPEND
          = some (ret 0 s1) ∧
        tfs_write s1 0 (str "B") 1 = ret (-1) s1) :=
  ⟨⟨by decide, by decide, fun _ => rfl⟩,
   ⟨by decide, by decide, by decide, fun _ => ⟨_, rfl, rfl⟩⟩⟩


/-! ## Unlinking -/

theorem inode_delete_params (s : tfs_state) (i : Int) : (inode_delete s i).params = s.params := by
  simp only [inode_delete, data_block_free]
  repeat' split
  all_goals rfl

theorem inode_delete_root_dir (s : tfs_state) (i : Int) :
    (inode_delete s i).root_dir = s.root_dir := by
  simp only [inode_delete, data_block_free]
  repeat' split
  all_goals rfl

theorem tfs_lookup_of_slot (s : tfs_state) (p : Option (List Nat)) (d : Nat)
    (hv : valid_pathname p = true) (hroot : 0 < s.params.max_inode_count)
    (hslot : dir_slot s (skip_slash p) = some d) :
    tfs_lookup s p (inode_get s ROOT_DIR_INUM) = some (s.root_dir d).d_inumber := by
  simp [tfs_lookup, hv, inode_get_root s hroot, find_in_dir_of_slot s _ d hslot]

theorem tfs_lookup_of_no_slot (s : tfs_state) (p : Option (List Nat))
    (hroot : 0 < s.params.max_inode_count)
    (hslot : dir_slot s (skip_slash p) = none) :
    tfs_lookup s p (inode_get s ROOT_DIR_INUM) = some (-1) := by
  simp [tfs_lookup, inode_get_root s hroot, find_in_dir_of_no_slot s _ hslot]

/-- An unlink that goes through: the name has a directory slot, the inode it names is in
the table, TAKEN and not open. -/
theorem tfs_unlink_ok (s : tfs_state) (p : Option (List Nat)) (inode : inode_t) (d : Nat)
    (hv : valid_pathname p = true) (hroot : 0 < s.params.max_inode_count)
    (hslot : dir_slot s (skip_slash p) = some d)
    (hclosed : is_file_open s (s.root_dir d).d_inumber = false)
    (hin : inode_get s (s.root_dir d).d_inumber = some inode)
    (ht : is_inum_taken s (s.root_dir d).d_inumber = true) :
    tfs_unlink s p =
      ret 0
        { (if inode.hard_links - 1 = 0 then
            inode_delete
              { s with
                inode_table := upd s.inode_table (s.root_dir d).d_inumber.toNat
                  { inode with hard_links := inode.hard_links - 1 } }
              (s.root_dir d).d_inumber
           else
            { s with
              inode_table := upd s.inode_table (s.root_dir d).d_inumber.toNat
                { inode with hard_links := inode.hard_links - 1 } }) with
          root_dir := upd s.root_dir d { d_name := (s.root_dir d).d_name, d_inumber := -1 } } := by
  have hne : (s.root_dir d).d_inumber ≠ -1 := ((dir_slot_eq_some s _ d).1 hslot).2.1.1
  have hslot2 : ∀ s2 : tfs_state, s2.params = s.params → s2.root_dir = s.root_dir →
      dir_slot s2 (skip_slash p) = some d := by
    intro s2 hp hr
    unfold dir_slot MAX_DIR_ENTRIES
    rw [hp, hr]
    exact hslot
  simp only [tfs_unlink, tfs_lookup_of_slot s p d hv hroot hslot, hne, hclosed, hin, ht,
    if_false, Bool.false_eq_true, clear_dir_entry]
  by_cases hz : inode.hard_links - 1 = 0
  · have h2 := hslot2 (inode_delete
        { s with
          inode_table := upd s.inode_table (s.root_dir d).d_inumber.toNat
            { inode with hard_links := inode.hard_links - 1 } }
        (s.root_dir d).d_inumber)
      (by rw [inode_delete_params])
      (by rw [inode_delete_root_dir])
    simp only [hz] at h2
    simp only [hz, if_true, h2]
    simp [inode_delete_root_dir]
  · have h2 := hslot2
        { s with
          inode_table := upd s.inode_table (s.root_dir d).d_inumber.toNat
            { inode with hard_links := inode.hard_links - 1 } } rfl rfl
    simp only [hz, if_false, h2]
    simp


theorem is_file_open_congr (s s1 : tfs_state) (i : Int) (hp : s1.params = s.params)
    (h1 : s1.free_open_file_entries = s.free_open_file_entries)
    (h2 : s1.open_file_table = s.open_file_table) :
    is_file_open s1 i = is_file_open s i := by
  simp [is_file_open, hp, h1, h2]

/-- Opening, with mode 0, a name that resolves to a TAKEN well-formed inode that is no
symbolic link, and reading through the handle: the first `len` bytes of the file. -/
theorem open_read_file (s : tfs_state) (p : Option (List Nat)) (fuel h len : Nat) (i : Int)
    (inode : inode_t)
    (hv : valid_pathname p = true) (hroot : 0 < s.params.max_inode_count)
    (hfind : find_in_dir s (skip_slash p) = i)
    (hin : inode_get s i = some inode) (hk : inode.i_node_type ≠ T_SYMLINK)
    (ht : s.freeinode_ts i.toNat = TAKEN)
    (hsz : inode.i_size ≤ s.params.block_size) (hbs : s.params.block_size < 2 ^ 63)
    (hblk : 0 < inode.i_size →
      0 ≤ inode.i_data_block ∧ inode.i_data_block < (s.params.max_block_count : Int))
    (hfree : first_free s.free_open_file_entries s.params.max_open_files_count = some h) :
    ∃ s2 s3, tfs_open (fuel + 1) s p 0 = some (ret (h : Int) s2) ∧
      tfs_read s2 (h : Int) len =
        ret (((min inode.i_size len : Nat) : Int), (file_content s i.toNat).take len) s3 := by
  obtain ⟨h0, hlt, heq, hcast, hnat⟩ := inode_get_some s i inode hin
  have hsm : s.params.block_size < SIZE_MOD := by simp only [SIZE_MOD]; omega
  have hh := (first_free_eq_some _ _ _).1 hfree
  have c1 := tfs_open_existing fuel s p 0 i inode hv hroot hfind h0 hin hk
  simp only [show (0 &&& TFS_O_TRUNC) = 0 from by decide,
    show (0 &&& TFS_O_APPEND) = 0 from by decide, ne_eq, not_true_eq_false, false_and,
    if_false] at c1
  rw [add_to_open_file_table_some _ _ _ h hfree] at c1
  obtain ⟨s2, h2, e2⟩ := split_some_ret c1
  have c2 := tfs_read_ok s2 h i.toNat inode.i_data_block.toNat len
    (by simpa [e2] using hh.1) (by simpa [e2] using hcast) (by simpa [e2] using hnat)
    (by simpa [e2] using ht)
    (by simp [e2]) (by simpa [e2, ← heq] using hsz) (by simpa [e2] using hsm)
    (by
      intro hpos
      have hpos2 : 0 < inode.i_size := by simpa [e2, ← heq] using hpos
      have := hblk hpos2
      simp [e2, ← heq]
      omega)
  have hsize : (s2.inode_table i.toNat).i_size = inode.i_size := by simp [e2, ← heq]
  have hoff : (s2.open_file_table h).of_offset = 0 := by simp [e2]
  have hdata : s2.fs_data = s.fs_data := by simp [e2]
  rw [hsize, hoff, hdata] at c2
  simp only [Nat.sub_zero, Nat.zero_add] at c2
  rw [to_ssize_small _ (by omega)] at c2
  rw [file_content_take, ← heq]
  obtain ⟨s3, h3, _⟩ := split_ret c2
  exact ⟨s2, s3, h2, h3⟩


/-! ## C6: the link count -/

/-- C6 (amended). Let `a` resolve to a FILE inode `i` whose only name it is (link count 1,
names unique in the directory), with no open handle on `i`, and let `tfs_link(a, b)` for
an absent name `b` return 0. Then, whatever the open-file table holds, `tfs_unlink(a)`
returns 0 and leaves `i` TAKEN, and `tfs_unlink(b)` returns 0, after which the slot of `i`
is FREE, its data block is FREE, neither name resolves, and the next `inode_create`
succeeds with a slot not above `i` (with `i` itself when every lower slot is TAKEN). In
between, for every FREE entry `h` that is the first of the open-file table,
`tfs_open(b, 0)` returns the handle `h`, through which `tfs_read` returns the unchanged
bytes. -/
theorem hard_link_count (s s1 : tfs_state) (a b : Option (List Nat)) (i : Int)
    (inode : inode_t) (fuel len : Nat)
    (hres : tfs_lookup s a (inode_get s ROOT_DIR_INUM) = some i)
    (hin : inode_get s i = some inode) (hfile : inode.i_node_type = T_FILE)
    (hone : inode.hard_links = 1)
    (huniq : ∀ m k, m < MAX_DIR_ENTRIES s → k < MAX_DIR_ENTRIES s →
      (s.root_dir m).d_inumber ≠ -1 → (s.root_dir k).d_inumber ≠ -1 →
      (s.root_dir m).d_name = (s.root_dir k).d_name → m = k)
    (hnb : find_in_dir s (skip_slash b) = -1)
    (hlink : tfs_link s a b = ret 0 s1)
    (hclosed : is_file_open s i = false)
    (hsz : inode.i_size ≤ s.params.block_size) (hbs : s.params.block_size < 2 ^ 63)
    (hblk : 0 < inode.i_size →
      0 ≤ inode.i_data_block ∧ inode.i_data_block < (s.params.max_block_count : Int)) :
    ∃ s2, tfs_unlink s1 a = ret 0 s2 ∧ s2.freeinode_ts i.toNat = TAKEN ∧
      (∀ h : Nat, first_free s.free_open_file_entries s.params.max_open_files_count = some h →
        ∃ s3 s4, tfs_open (fuel + 1) s2 b 0 = some (ret (h : Int) s3) ∧
          tfs_read s3 (h : Int) len =
            ret (((min inode.i_size len : Nat) : Int), (file_content s i.toNat).take len) s4) ∧
      ∃ s5, tfs_unlink s2 b = ret 0 s5 ∧ s5.freeinode_ts i.toNat = FREE ∧
        (0 < inode.i_size → s5.free_blocks inode.i_data_block.toNat = FREE) ∧
        tfs_lookup s5 a (inode_get s5 ROOT_DIR_INUM) = some (-1) ∧
        tfs_lookup s5 b (inode_get s5 ROOT_DIR_INUM) = some (-1) ∧
        ∃ j, first_free s5.freeinode_ts s5.params.max_inode_count = some j ∧ j ≤ i.toNat ∧
          ((∀ m, m < i.toNat → s.freeinode_ts m = TAKEN) → j = i.toNat) ∧
          (inode_create s5 T_FILE).1 = (j : Int) := by
  obtain ⟨hvb, i1, inode1, d, hl, hi, hin1, ht, hk, hd, e1⟩ := tfs_link_ret_zero s s1 a b hlink
  rw [hres] at hl
  cases hl
  rw [hin] at hin1
  cases hin1
  obtain ⟨h0, hlt, heq, hcast, hnat⟩ := inode_get_some s i inode hin
  obtain ⟨hva, hroot, hfinda⟩ := tfs_lookup_some_nonneg s a i hres hi
  have hd2 := (first_index_eq_some _ _ _).1 hd
  have hdfree : (s.root_dir d).d_inumber = -1 := by simpa using hd2.2.1
  have hnob : dir_slot s (skip_slash b) = none := (find_in_dir_eq_neg_one s _).1 hnb
  have hnob2 := (dir_slot_eq_none s _).1 hnob
  -- the slot of `a`
  obtain ⟨da, hda⟩ : ∃ da, dir_slot s (skip_slash a) = some da := by
    cases hc : dir_slot s (skip_slash a) with
    | none => rw [find_in_dir_of_no_slot s _ hc] at hfinda; exact absurd hfinda.symm hi
    | some da => exact ⟨da, rfl⟩
  have hda2 := (dir_slot_eq_some s _ da).1 hda
  have hdai : (s.root_dir da).d_inumber = i := by
    rw [← find_in_dir_of_slot s _ da hda]; exact hfinda
  have hdd : da ≠ d := by
    intro hc; rw [hc] at hda2; exact hda2.2.1.1 hdfree
  have hab : skip_slash a ≠ skip_slash b := by
    intro hc; rw [hc] at hda; rw [hnob] at hda; cases hda
  have htk : s.freeinode_ts i.toNat = TAKEN := by
    simp only [is_inum_taken, decide_eq_true_eq] at ht
    exact ht.2.2
  -- unlink a
  have hsa1 : dir_slot s1 (skip_slash a) = some da := by
    rw [dir_slot_after_add_other s s1 (skip_slash a) (skip_slash b) d i (by simp [e1])
      (by simp [e1]) hdfree hab]
    exact hda
  have hr1da : s1.root_dir da = s.root_dir da := by simp [e1, upd_other _ _ _ _ hdd]
  have c2 := tfs_unlink_ok s1 a { inode with hard_links := inode.hard_links + 1 } da hva
    (by simpa [e1] using hroot) hsa1
    (by
      rw [hr1da, hdai, is_file_open_congr s s1 i (by simp [e1]) (by simp [e1]) (by simp [e1])]
      exact hclosed)
    (by rw [hr1da, hdai]; simp [inode_get, e1, h0, hlt])
    (by rw [hr1da, hdai]; simpa [is_inum_taken, e1] using ht)
  rw [hr1da, hdai] at c2
  simp only [hone, show ((1 : Int) + 1 - 1 = 0) = False from by simp, if_false] at c2
  obtain ⟨s2, h2, e2⟩ := split_ret c2
  have hp2 : s2.params = s.params := by simp [e2, e1]
  have hdir2 : ∀ m, s2.root_dir m =
      if m = da then { d_name := (s.root_dir da).d_name, d_inumber := -1 }
      else if m = d then { d_name := skip_slash b, d_inumber := i } else s.root_dir m := by
    intro m
    simp only [e2, e1, upd]
  have hsb2 : dir_slot s2 (skip_slash b) = some d := by
    rw [dir_slot_eq_some]
    refine ⟨by simpa [MAX_DIR_ENTRIES, hp2] using hd2.1, ?_, ?_⟩
    · rw [hdir2]; simp [Ne.symm hdd, hi]
    · intro m hm
      rw [hdir2]
      by_cases h1 : m = da
      · simp [h1]
      · have h3 : m ≠ d := by omega
        simp only [h1, h3, if_false]
        exact hnob2 m (by omega)
  have hfind2 : find_in_dir s2 (skip_slash b) = i := by
    rw [find_in_dir_of_slot s2 _ d hsb2, hdir2]; simp [Ne.symm hdd]
  have hin2 : inode_get s2 i = some { inode with hard_links := 1 } := by
    simp [inode_get, e2, e1, h0, hlt]
  have hfc : file_content s2 i.toNat = file_content s i.toNat := by
    simp [file_content, e2, e1, ← heq]
  have hrd : ∀ h : Nat,
      first_free s.free_open_file_entries s.params.max_open_files_count = some h →
      ∃ s3 s4, tfs_open (fuel + 1) s2 b 0 = some (ret (h : Int) s3) ∧
        tfs_read s3 (h : Int) len =
          ret (((min inode.i_size len : Nat) : Int), (file_content s i.toNat).take len) s4 := by
    intro h hfree
    have hrd := open_read_file s2 b fuel h len i { inode with hard_links := 1 } hvb
      (by simpa [hp2] using hroot) hfind2 hin2 (by simp [hfile]) (by simpa [e2, e1] using htk)
      (by simpa [hp2] using hsz) (by simpa [hp2] using hbs) (by simpa [hp2] using hblk)
      (by simpa [e2, e1] using hfree)
    rw [hfc] at hrd
    exact hrd
  refine ⟨s2, h2, by simpa [e2, e1] using htk, hrd, ?_⟩
  -- unlink b
  have hr2d : s2.root_dir d = { d_name := skip_slash b, d_inumber := i } := by
    rw [hdir2]; simp [Ne.symm hdd]
  have c5 := tfs_unlink_ok s2 b { inode with hard_links := 1 } d hvb
    (by simpa [hp2] using hroot) hsb2
    (by
      rw [hr2d, is_file_open_congr s s2 i hp2 (by simp [e2, e1]) (by simp [e2, e1])]
      exact hclosed)
    (by rw [hr2d]; exact hin2)
    (by rw [hr2d]; simpa [is_inum_taken, e2, e1] using ht)
  rw [hr2d] at c5
  simp only [show ((1 : Int) - 1 = 0) = True from by simp, if_true] at c5
  obtain ⟨s5, h5, e5⟩ := split_ret c5
  have hp5 : s5.params = s.params := by simp [e5, inode_delete_params, hp2]
  have hfr5 : s5.freeinode_ts i.toNat = FREE := by
    simp [e5, inode_delete, h0, hp2, hlt]
  have hdir5 : ∀ m, m ≠ da → m ≠ d → s5.root_dir m = s.root_dir m := by
    intro m h1 h3
    simp [e5, upd_other _ _ _ _ h3, hdir2, h1, h3]
  have hdir5a : (s5.root_dir da).d_inumber = -1 := by
    simp [e5, upd_other _ _ _ _ hdd, hdir2]
  have hdir5d : (s5.root_dir d).d_inumber = -1 := by simp [e5]
  have hroot5 : 0 < s5.params.max_inode_count := by simpa [hp5] using hroot
  refine ⟨s5, h5, hfr5, ?_, ?_, ?_, ?_⟩
  · intro hpos
    obtain ⟨hb1, hb2⟩ := hblk hpos
    simp [e5, inode_delete, h0, hp2, hlt, e2, e1, hpos, data_block_free, hb1, hb2]
  · apply tfs_lookup_of_no_slot s5 a hroot5
    rw [dir_slot_eq_none]
    intro m hm
    by_cases h1 : m = da
    · rw [h1]; simp [hdir5a]
    · by_cases h3 : m = d
      · rw [h3]; simp [hdir5d]
      · rw [hdir5 m h1 h3]
        intro hc
        have hm2 : m < MAX_DIR_ENTRIES s := by simpa [MAX_DIR_ENTRIES, hp5] using hm
        exact h1 (huniq m da hm2 hda2.1 hc.1 hda2.2.1.1 (by rw [hc.2, hda2.2.1.2]))
  · apply tfs_lookup_of_no_slot s5 b hroot5
    rw [dir_slot_eq_none]
    intro m hm
    by_cases h1 : m = da
    · rw [h1]; simp [hdir5a]
    · by_cases h3 : m = d
      · rw [h3]; simp [hdir5d]
      · rw [hdir5 m h1 h3]
        exact hnob2 m (by simpa [MAX_DIR_ENTRIES, hp5] using hm)
  · obtain ⟨j, hj, hji⟩ := first_index_isSome
      (fun k => decide (s5.freeinode_ts k = FREE)) s5.params.max_inode_count i.toNat
      (by simpa [hp5] using hnat) (by simp [hfr5])
    have hj2 : first_free s5.freeinode_ts s5.params.max_inode_count = some j := hj
    refine ⟨j, hj2, hji, ?_, ?_⟩
    · intro hall
      by_contra hne
      have hlt2 : j < i.toNat := by omega
      have hjf := ((first_free_eq_some _ _ _).1 hj2).2.1
      have hne2 : j ≠ i.toNat := by omega
      have : s5.freeinode_ts j = s.freeinode_ts j := by
        simp [e5, inode_delete, h0, hp2, hlt, upd_other _ _ _ _ hne2, e2, e1]
        repeat' split
        all_goals simp [data_block_free]
        all_goals repeat' split
        all_goals rfl
      rw [this, hall j hlt2] at hjf
      cases hjf
    · simp [inode_create, hj2]


theorem written_state_one_entry :
    ∀ m, m < MAX_DIR_ENTRIES written_state → (written_state.root_dir m).d_inumber ≠ -1 → m = 0 := by
  decide

/-- C6 on "/f1" (five bytes) and its hard link "/l1" in the default file system; the first
FREE open-file entry is 0. -/
theorem hard_link_count_witness :
    tfs_link written_state (some (str "/f1")) (some (str "/l1")) = ret 0 linked_state ∧
    ∃ s2, tfs_unlink linked_state (some (str "/f1")) = ret 0 s2 ∧ s2.freeinode_ts 1 = TAKEN ∧
      (∃ s3 s4, tfs_open 1 s2 (some (str "/l1")) 0 = some (ret 0 s3) ∧
        tfs_read s3 0 5 = ret (5, str "AAA!" ++ [0]) s4) ∧
      ∃ s5, tfs_unlink s2 (some (str "/l1")) = ret 0 s5 ∧ s5.freeinode_ts 1 = FREE ∧
        (0 < 5 → s5.free_blocks 1 = FREE) ∧
        tfs_lookup s5 (some (str "/f1")) (inode_get s5 ROOT_DIR_INUM) = some (-1) ∧
        tfs_lookup s5 (some (str "/l1")) (inode_get s5 ROOT_DIR_INUM) = some (-1) ∧
        ∃ j, first_free s5.freeinode_ts s5.params.max_inode_count = some j ∧ j ≤ 1 ∧
          ((∀ m, m < 1 → written_state.freeinode_ts m = TAKEN) → j = 1) ∧
          (inode_create s5 T_FILE).1 = (j : Int) := by
  obtain ⟨s2, w1, w2, w3, w4⟩ :=
    hard_link_count written_state linked_state (some (str "/f1")) (some (str "/l1")) 1
      { i_node_type := T_FILE, i_size := 5, i_data_block := 1, hard_links := 1 } 0 5
      (by decide) (by decide) (by decide) (by decide)
      (fun m k hm hk h1 h2 _ => by
        rw [written_state_one_entry m hm h1, written_state_one_entry k hk h2])
      (by decide) rfl (by decide) (by decide) (by decide) (fun _ => by decide)
  exact ⟨rfl, s2, w1, w2, w3 0 (by decide), w4⟩

/-- C6 as stated fails when the open-file table is full: with a single open-file entry,
held by a handle on another file "/g", the file "/f1" has no open handle,
`tfs_link("/f1", "/l1")` and `tfs_unlink("/f1")` return 0 and inode 1 stays TAKEN, yet
`tfs_open("/l1", 0)` returns -1 and nothing can be read; `tfs_unlink("/l1")` still returns
0 and frees inode 1 and its block. -/
theorem hard_link_count_counterexample :
    tfs_lookup busy_table_state (some (str "/f1")) (inode_get busy_table_state ROOT_DIR_INUM)
      = some 1 ∧
    (busy_table_state.inode_table 1).i_node_type = T_FILE ∧
    (busy_table_state.inode_table 1).hard_links = 1 ∧
    is_file_open busy_table_state 1 = false ∧
    find_in_dir busy_table_state (skip_slash (some (str "/l1"))) = -1 ∧
    first_free busy_table_state.free_open_file_entries
      busy_table_state.params.max_open_files_count = none ∧
    ∃ s1 s2, tfs_link busy_table_state (some (str "/f1")) (some (str "/l1")) = ret 0 s1 ∧
      tfs_unlink s1 (some (str "/f1")) = ret 0 s2 ∧ s2.freeinode_ts 1 = TAKEN ∧
      (s2.inode_table 1).i_data_block = 1 ∧ s2.free_blocks 1 = TAKEN ∧
      (∀ fuel, ∃ s3, tfs_open (fuel + 1) s2 (some (str "/l1")) 0 = some (ret (-1) s3) ∧
        tfs_read s3 (-1) 5 = ret (-1, []) s3) ∧
      ∃ s5, tfs_unlink s2 (some (str "/l1")) = ret 0 s5 ∧ s5.freeinode_ts 1 = FREE ∧
        s5.free_blocks 1 = FREE :=
  ⟨by decide, by decide, by decide, by decide, by decide, by decide, _, _, rfl, rfl,
   by decide, by decide, by decide, fun _ => ⟨_, rfl, rfl⟩, _, rfl, by decide, by decide⟩


/-! ## C10: bounded allocation with rollback -/

theorem upd_upd_self {β : Type} (f : Nat → β) (i : Nat) (v : β) :
    upd (upd f i v) i (f i) = f := by
  funext j
  by_cases h : j = i
  · subst h; simp [upd]
  · simp [upd, h]

/-- Creation in a full table: when no inode slot is FREE or no directory slot is FREE,
`tfs_open` of an absent valid name with `TFS_O_CREAT` returns -1; the allocation arrays,
the directory, the blocks and the open-file table are as before. -/
theorem tfs_open_create_full (s : tfs_state) (name : Option (List Nat)) (mode fuel : Nat)
    (hv : valid_pathname name = true) (hroot : 0 < s.params.max_inode_count)
    (hnf : find_in_dir s (skip_slash name) = -1)
    (hm : mode &&& TFS_O_CREAT ≠ 0)
    (hfull : first_free s.freeinode_ts s.params.max_inode_count = none ∨
      first_index (fun k => decide ((s.root_dir k).d_inumber = -1)) (MAX_DIR_ENTRIES s) = none) :
    ∃ s1, tfs_open (fuel + 1) s name mode = some (ret (-1) s1) ∧
      s1.freeinode_ts = s.freeinode_ts ∧ s1.root_dir = s.root_dir ∧
      s1.params = s.params ∧ s1.free_blocks = s.free_blocks ∧ s1.fs_data = s.fs_data ∧
      s1.open_file_table = s.open_file_table ∧
      s1.free_open_file_entries = s.free_open_file_entries := by
  have hnf2 : ¬ ((0 : Int) ≤ find_in_dir s (skip_slash name)) := by omega
  cases hff : first_free s.freeinode_ts s.params.max_inode_count with
  | none =>
    refine ⟨s, ?_, rfl, rfl, rfl, rfl, rfl, rfl, rfl⟩
    simp [tfs_open, hv, inode_get_root s hroot, tfs_lookup, hnf2, hm, inode_create, hff]
  | some j =>
    have hdir : first_index (fun k => decide ((s.root_dir k).d_inumber = -1))
        (MAX_DIR_ENTRIES s) = none := by
      rcases hfull with h | h
      · rw [hff] at h; cases h
      · exact h
    have hj := (first_free_eq_some _ _ _).1 hff
    have hji : ¬ ((j : Int) = -1) := by omega
    have hdir2 : first_index (fun k => decide ((s.root_dir k).d_inumber = -1))
        (s.params.block_size / SIZEOF_DIR_ENTRY) = none := by
      simpa [MAX_DIR_ENTRIES] using hdir
    have hopen : tfs_open (fuel + 1) s name mode =
        some (ret (-1)
          (inode_delete
            { s with
              freeinode_ts := upd s.freeinode_ts j TAKEN
              inode_table := upd s.inode_table j
                { i_node_type := T_FILE, i_size := 0, i_data_block := -1, hard_links := 1 } }
            (j : Int))) := by
      by_cases hrej : SLASH ∈ skip_slash name ∨ MAX_FILE_NAME - 1 < (skip_slash name).length
      · simp [tfs_open, hv, inode_get_root s hroot, tfs_lookup, hnf2, hm, inode_create, hff,
          add_dir_entry, hrej, hji]
      · simp [tfs_open, hv, inode_get_root s hroot, tfs_lookup, hnf2, hm, inode_create, hff,
          add_dir_entry, MAX_DIR_ENTRIES, hdir2, hrej, hji]
    refine ⟨_, hopen, ?_, ?_, ?_, ?_, ?_, ?_, ?_⟩
    · simp only [inode_delete]
      simp [hj.1]
      rw [← hj.2.1]
      exact upd_upd_self _ _ _
    · rw [inode_delete_root_dir]
    · rw [inode_delete_params]
    all_goals simp [inode_delete, hj.1]


theorem not_free_iff_taken (a : allocation_state_t) : a ≠ FREE ↔ a = TAKEN := by
  cases a <;> simp

/-- What a `tfs_open` of an absent name with `TFS_O_CREAT` that returned a handle did. -/
theorem tfs_open_create_inv (s s1 : tfs_state) (name : List Nat) (f : Int)
    (hopen : tfs_open 1 s (some name) TFS_O_CREAT = some (ret f s1)) (hf : f ≠ -1)
    (habs : dir_slot s (skip_slash (some name)) = none) :
    ∃ j d, first_free s.freeinode_ts s.params.max_inode_count = some j ∧
      s1.params = s.params ∧ s1.freeinode_ts = upd s.freeinode_ts j TAKEN ∧
      s1.root_dir = upd s.root_dir d { d_name := skip_slash (some name), d_inumber := j } := by
  have hnf : find_in_dir s (skip_slash (some name)) = -1 := find_in_dir_of_no_slot s _ habs
  have hnf2 : ¬ ((0 : Int) ≤ find_in_dir s (skip_slash (some name))) := by omega
  cases hv : valid_pathname (some name) with
  | false => simp [tfs_open, hv] at hopen; omega
  | true =>
    by_cases hroot : 0 < s.params.max_inode_count
    · cases hff : first_free s.freeinode_ts s.params.max_inode_count with
      | none =>
        obtain ⟨s2, h2, _⟩ := tfs_open_create_full s (some name) TFS_O_CREAT 0 hv hroot hnf
          (by decide) (Or.inl hff)
        rw [h2] at hopen
        simp at hopen
        omega
      | some j =>
        cases hdd : first_index (fun k => decide ((s.root_dir k).d_inumber = -1))
            (MAX_DIR_ENTRIES s) with
        | none =>
          obtain ⟨s2, h2, _⟩ := tfs_open_create_full s (some name) TFS_O_CREAT 0 hv hroot hnf
            (by decide) (Or.inr hdd)
          rw [h2] at hopen
          simp at hopen
          omega
        | some d =>
          by_cases hs : SLASH ∈ skip_slash (some name)
          · have hji : ¬ ((j : Int) = -1) := by omega
            simp [tfs_open, hv, inode_get_root s hroot, tfs_lookup, hnf2, inode_create, hff,
              add_dir_entry, hs, hji, TFS_O_CREAT] at hopen
            omega
          · have c := tfs_open_create 0 s name TFS_O_CREAT j d hv hroot (by omega) (by decide)
              hff hs hdd
            cases hoft : first_free s.free_open_file_entries s.params.max_open_files_count with
            | none =>
              rw [add_to_open_file_table_none _ _ _ (by simpa using hoft)] at c
              rw [c] at hopen
              simp at hopen
              omega
            | some h =>
              rw [add_to_open_file_table_some _ _ _ h (by simpa using hoft)] at c
              rw [c] at hopen
              simp at hopen
              refine ⟨j, d, rfl, ?_, ?_, ?_⟩ <;> simp [← hopen.2]
    · have hz : s.params.max_inode_count = 0 := by omega
      simp [tfs_open, hv, inode_get, ROOT_DIR_INUM, hz] at hopen

/-- A `tfs_close` that returned leaves the parameters, the inode allocation array and the
directory as they were. -/
theorem tfs_close_frame (s s1 : tfs_state) (f v : Int) (h : tfs_close s f = ret v s1) :
    s1.params = s.params ∧ s1.freeinode_ts = s.freeinode_ts ∧ s1.root_dir = s.root_dir := by
  unfold tfs_close at h
  split at h
  · cases h
  · simp only [remove_from_open_file_table] at h
    split at h
    · simp at h
      simp [← h.2]
    · simp at h
      simp [← h.2]

/-- Creating files with new names takes one more inode slot each: the slots `0 .. k` being
TAKEN before, the slots `0 .. k + length` are TAKEN afterwards. -/
theorem create_files_taken :
    ∀ (names : List (List Nat)) (s s1 : tfs_state) (k : Nat) (C : List (List Nat)),
      (∀ m, m ≤ k → s.freeinode_ts m = TAKEN) →
      (∀ m, m < MAX_DIR_ENTRIES s → (s.root_dir m).d_inumber ≠ -1 → (s.root_dir m).d_name ∈ C) →
      (∀ n, n ∈ names → skip_slash (some n) ∉ C) →
      (names.map (fun n => skip_slash (some n))).Nodup →
      create_files s names = some s1 →
      s1.params = s.params ∧ ∀ m, m ≤ k + names.length → s1.freeinode_ts m = TAKEN := by
  intro names
  induction names with
  | nil =>
    intro s s1 k C htk _ _ _ hc
    simp [create_files] at hc
    subst hc
    exact ⟨rfl, fun m hm => htk m (by simpa using hm)⟩
  | cons name rest ih =>
    intro s s1 k C htk hdir hnew hnd hc
    have habs : dir_slot s (skip_slash (some name)) = none := by
      rw [dir_slot_eq_none]
      intro m hm hc2
      exact hnew name (by simp) (hc2.2 ▸ hdir m hm hc2.1)
    unfold create_files at hc
    split at hc
    · rename_i f s2 hopen
      split at hc
      · cases hc
      · rename_i hf
        split at hc
        · rename_i v s3 hclose
          obtain ⟨j, d, hj, hp2, hft2, hrd2⟩ := tfs_open_create_inv s s2 name f hopen hf habs
          obtain ⟨hp3, hft3, hrd3⟩ := tfs_close_frame s2 s3 f v hclose
          have hj2 := (first_free_eq_some _ _ _).1 hj
          have hjk : k < j := by
            by_contra hle
            have := htk j (by omega)
            rw [hj2.2.1] at this
            cases this
          have hnd2 : skip_slash (some name) ∉ rest.map (fun n => skip_slash (some n)) ∧
              (rest.map (fun n => skip_slash (some n))).Nodup := by
            rw [List.map_cons] at hnd
            exact List.nodup_cons.1 hnd
          have hres := ih s3 s1 (k + 1) (skip_slash (some name) :: C)
            (by
              intro m hm
              rw [hft3, hft2]
              by_cases hmj : m = j
              · simp [hmj]
              · rw [upd_other _ _ _ _ hmj]
                by_cases hmk : m ≤ k
                · exact htk m hmk
                · exact (not_free_iff_taken _).1 (hj2.2.2 m (by omega)))
            (by
              intro m hm hne
              have hm2 : m < MAX_DIR_ENTRIES s := by
                simpa [MAX_DIR_ENTRIES, hp3, hp2] using hm
              rw [hrd3, hrd2] at hne ⊢
              by_cases hmd : m = d
              · simp [hmd]
              · rw [upd_other _ _ _ _ hmd] at hne ⊢
                exact List.mem_cons_of_mem _ (hdir m hm2 hne))
            (by
              intro n hn hmem
              rcases List.mem_cons.1 hmem with h1 | h1
              · exact hnd2.1 (List.mem_map.2 ⟨n, hn, h1⟩)
              · exact hnew n (List.mem_cons_of_mem _ hn) h1)
            hnd2.2 hc
          refine ⟨by rw [hres.1, hp3, hp2], ?_⟩
          intro m hm
          exact hres.2 m (by simp at hm; omega)
        · cases hc
        · cases hc
    · cases hc
    · cases hc
    · cases hc

/-- After `max_inode_count - 1` files with distinct names were created in a fresh file
system, no inode slot is FREE. -/
theorem create_files_fills_table (p : tfs_params) (mem : tfs_state) (names : List (List Nat))
    (s : tfs_state) (hi : 0 < p.max_inode_count) (hb : 0 < p.max_block_count)
    (hlen : names.length + 1 = p.max_inode_count)
    (hnd : (names.map (fun n => skip_slash (some n))).Nodup)
    (hc : create_files (tfs_init (some p) mem).2 names = some s) :
    s.params = p ∧ first_free s.freeinode_ts s.params.max_inode_count = none := by
  rw [tfs_init_ok p mem hi hb] at hc
  have h := create_files_taken names _ s 0 [] (by intro m hm; simp [upd]; omega)
    (by intro m _ hne; simp at hne) (by intro n _; simp) hnd hc
  refine ⟨h.1, ?_⟩
  rw [first_free_eq_none]
  intro m hm
  rw [h.1] at hm
  simp at hm
  rw [h.2 m (by omega)]
  simp


/-- C10. In a state whose inode table has no FREE slot or whose root directory has no FREE
entry, `tfs_open` of a valid name absent from the directory, with `TFS_O_CREAT` set,
returns -1 and leaves the inode allocation array and the directory entries exactly as
before (an inode allocated before the directory insertion failed is released). In
particular, once `max_inode_count - 1` files with distinct names have been created in a
freshly initialised file system, the next such `tfs_open` returns -1. -/
theorem bounded_allocation (s : tfs_state) (name : Option (List Nat)) (mode fuel : Nat)
    (hv : valid_pathname name = true) (hroot : 0 < s.params.max_inode_count)
    (hnf : find_in_dir s (skip_slash name) = -1)
    (hm : mode &&& TFS_O_CREAT ≠ 0)
    (hfull : first_free s.freeinode_ts s.params.max_inode_count = none ∨
      first_index (fun k => decide ((s.root_dir k).d_inumber = -1)) (MAX_DIR_ENTRIES s) = none) :
    (∃ s1, tfs_open (fuel + 1) s name mode = some (ret (-1) s1) ∧
      s1.freeinode_ts = s.freeinode_ts ∧ s1.root_dir = s.root_dir) ∧
    ∀ (p : tfs_params) (mem : tfs_state) (names : List (List Nat)) (s2 : tfs_state),
      0 < p.max_block_count → names.length + 1 = p.max_inode_count →
      (names.map (fun n => skip_slash (some n))).Nodup →
      create_files (tfs_init (some p) mem).2 names = some s2 →
      find_in_dir s2 (skip_slash name) = -1 →
      ∃ s3, tfs_open (fuel + 1) s2 name mode = some (ret (-1) s3) ∧
        s3.freeinode_ts = s2.freeinode_ts ∧ s3.root_dir = s2.root_dir := by
  constructor
  · obtain ⟨s1, h1, h2, h3, _⟩ := tfs_open_create_full s name mode fuel hv hroot hnf hm hfull
    exact ⟨s1, h1, h2, h3⟩
  · intro p mem names s2 hb hlen hnd hc hnf2
    obtain ⟨hp, hff⟩ := create_files_fills_table p mem names s2 (by omega) hb hlen hnd hc
    obtain ⟨s3, h1, h2, h3, _⟩ := tfs_open_create_full s2 name mode fuel hv
      (by rw [hp]; omega) hnf2 hm (Or.inl hff)
    exact ⟨s3, h1, h2, h3⟩

/-- C10 on a file system with three inodes: after "/a" and "/b" were created the inode
table is full, and creating "/nomorespace" returns -1. -/
theorem bounded_allocation_witness :
    create_files (tfs_init (some three_inodes) zero_mem).2 [str "/a", str "/b"]
      = some full_inodes_state ∧
    first_free full_inodes_state.freeinode_ts full_inodes_state.params.max_inode_count = none ∧
    (∃ s1, tfs_open 1 full_inodes_state (some (str "/nomorespace")) TFS_O_CREAT
        = some (ret (-1) s1) ∧
      s1.freeinode_ts = full_inodes_state.freeinode_ts ∧
      s1.root_dir = full_inodes_state.root_dir) ∧
    ∃ s3, tfs_open 1 full_inodes_state (some (str "/c")) TFS_O_CREAT = some (ret (-1) s3) ∧
      s3.freeinode_ts = full_inodes_state.freeinode_ts ∧
      s3.root_dir = full_inodes_state.root_dir :=
  ⟨rfl, by decide,
   (bounded_allocation full_inodes_state (some (str "/nomorespace")) TFS_O_CREAT 0
     (by decide) (by decide) (by decide) (by decide) (Or.inl (by decide))).1,
   (bounded_allocation full_inodes_state (some (str "/c")) TFS_O_CREAT 0
     (by decide) (by decide) (by decide) (by decide) (Or.inl (by decide))).2
     three_inodes zero_mem [str "/a", str "/b"] full_inodes_state
     (by decide) (by decide) (by decide) rfl (by decide)⟩


/-! ## C11: capacity exhaustion in the link operations -/

/-- C11 at the failing inputs. With a valid link name and an existing target,
`tfs_sym_link` is stopped by its `ALWAYS_ASSERT` when the inode table is full (three
inodes, all TAKEN) and when the root directory is full (two slots, both taken), and
`tfs_link` is stopped by its `ALWAYS_ASSERT` when the root directory is full: none of
them returns -1. -/
theorem link_creation_aborts_when_full :
    (valid_pathname (some (str "/s")) = true ∧
      tfs_lookup full_inodes_state (some (str "/a")) (inode_get full_inodes_state ROOT_DIR_INUM)
        = some 1 ∧
      first_free full_inodes_state.freeinode_ts full_inodes_state.params.max_inode_count = none ∧
      tfs_sym_link full_inodes_state (some (str "/a")) (some (str "/s")) = aborted) ∧
    (tfs_lookup full_dir_state (some (str "/a")) (inode_get full_dir_state ROOT_DIR_INUM)
        = some 1 ∧
      first_index (fun k => decide ((full_dir_state.root_dir k).d_inumber = -1))
        (MAX_DIR_ENTRIES full_dir_state) = none ∧
      tfs_sym_link full_dir_state (some (str "/a")) (some (str "/s")) = aborted ∧
      tfs_link full_dir_state (some (str "/a")) (some (str "/s")) = aborted) :=
  ⟨⟨by decide, by decide, by decide, rfl⟩, ⟨by decide, by decide, rfl, rfl⟩⟩

/-! ## C12: closing a handle -/

/-- C12 at the failing inputs. `tfs_close` locks the mutex of the entry before it tests
the entry against NULL: for every handle outside the open-file table the call is an
invalid memory access, not a return of -1; so it is for the handles -1 and 16 of the
default file system. -/
theorem close_invalid_handle_faults :
    (∀ (s : tfs_state) (fhandle : Int), get_open_file_entry s fhandle = none →
      tfs_close s fhandle = invalid_access) ∧
    get_open_file_entry fresh_default (-1) = none ∧
    tfs_close fresh_default (-1) = invalid_access ∧
    get_open_file_entry fresh_default 16 = none ∧
    tfs_close fresh_default 16 = invalid_access :=
  ⟨fun s fhandle h => by simp [tfs_close, h], by decide, rfl, by decide, rfl⟩

/-! ## C15: a write without a free block -/

/-- C15. When no data block is FREE, a write through a handle on an inode of size 0 whose
length after capping is positive returns -1 and leaves the whole state as it was: the
size and block of the inode, the offset of the handle and the block allocation array. -/
theorem write_without_block (s : tfs_state) (fhandle : Int) (buffer : List Nat)
    (to_write : Nat) (file : open_file_entry_t) (inode : inode_t)
    (hget : get_open_file_entry s fhandle = some file)
    (hin : inode_get s file.of_inumber = some inode)
    (hz : inode.i_size = 0)
    (hfull : first_free s.free_blocks s.params.max_block_count = none)
    (hpos : 0 < capped_length s.params.block_size file.of_offset to_write) :
    tfs_write s fhandle buffer to_write = ret (-1) s := by
  simp only [capped_length] at hpos
  simp only [tfs_write, hget, hin, state_block_size, hpos, hz, data_block_alloc, hfull]
  split <;> simp

/-- C15 on a file system whose single block is taken by the root: a write of one byte to
the empty file "/f1". -/
theorem write_without_block_witness :
    first_free no_block_open_state.free_blocks no_block_open_state.params.max_block_count = none ∧
    no_block_open_state.free_open_file_entries 0 = TAKEN ∧
    tfs_write no_block_open_state 0 (str "B") 1 = ret (-1) no_block_open_state :=
  ⟨by decide, by decide,
   write_without_block no_block_open_state 0 (str "B") 1
     { of_inumber := 1, of_offset := 0 }
     { i_node_type := T_FILE, i_size := 0, i_data_block := -1, hard_links := 1 }
     (by decide) (by decide) (by decide) (by decide) (by decide)⟩

/-! ## Counting directory entries -/

theorem count_upto_congr (p q : Nat → Bool) (n : Nat) (h : ∀ m, m < n → p m = q m) :
    count_upto p n = count_upto q n := by
  induction n with
  | zero => rfl
  | succ k ih =>
    simp only [count_upto]
    rw [ih (fun m hm => h m (by omega)), h k (by omega)]

theorem count_upto_update (p q : Nat → Bool) (n d : Nat) (hd : d < n)
    (h : ∀ m, m ≠ d → q m = p m) :
    count_upto q n + (if p d then 1 else 0) = count_upto p n + (if q d then 1 else 0) := by
  induction n with
  | zero => omega
  | succ k ih =>
    simp only [count_upto]
    by_cases hk : d = k
    · subst hk
      rw [count_upto_congr q p d (fun m hm => h m (by omega))]
      omega
    · have := ih (by omega)
      rw [h k (fun hc => hk hc.symm)]
      omega

theorem count_upto_eq_zero (p : Nat → Bool) (n : Nat) :
    count_upto p n = 0 ↔ ∀ m, m < n → p m = false := by
  induction n with
  | zero => simp [count_upto]
  | succ k ih =>
    simp only [count_upto]
    constructor
    · intro h m hm
      have h1 : count_upto p k = 0 := by omega
      by_cases hmk : m = k
      · subst hmk
        by_contra hc
        simp at hc
        simp [hc] at h
      · exact (ih.1 h1) m (by omega)
    · intro h
      rw [ih.2 (fun m hm => h m (by omega)), h k (by omega)]
      simp

theorem dir_links_congr (s s1 : tfs_state) (i : Nat) (hp : s1.params = s.params)
    (hr : s1.root_dir = s.root_dir) : dir_links s1 i = dir_links s i := by
  simp [dir_links, MAX_DIR_ENTRIES, hp, hr]

theorem dir_links_upd (s s1 : tfs_state) (d i : Nat) (e : dir_entry_t)
    (hp : s1.params = s.params) (hr : s1.root_dir = upd s.root_dir d e)
    (hd : d < MAX_DIR_ENTRIES s) :
    dir_links s1 i + (if (s.root_dir d).d_inumber = (i : Int) then 1 else 0) =
      dir_links s i + (if e.d_inumber = (i : Int) then 1 else 0) := by
  have hm : MAX_DIR_ENTRIES s1 = MAX_DIR_ENTRIES s := by simp [MAX_DIR_ENTRIES, hp]
  have := count_upto_update
    (fun m => decide ((s.root_dir m).d_inumber = (i : Int)))
    (fun m => decide ((s1.root_dir m).d_inumber = (i : Int))) (MAX_DIR_ENTRIES s) d hd
    (by intro m hmd; simp [hr, upd_other _ _ _ _ hmd])
  simp only [dir_links, hm]
  simpa [hr] using this

theorem dir_links_eq_zero (s : tfs_state) (i : Nat)
    (h : ∀ m, m < MAX_DIR_ENTRIES s → (s.root_dir m).d_inumber ≠ (i : Int)) :
    dir_links s i = 0 := by
  unfold dir_links
  rw [count_upto_eq_zero]
  intro m hm
  simpa using h m hm

theorem dir_links_zero_imp (s : tfs_state) (i : Nat) (h : dir_links s i = 0) :
    ∀ m, m < MAX_DIR_ENTRIES s → (s.root_dir m).d_inumber ≠ (i : Int) := by
  unfold dir_links at h
  rw [count_upto_eq_zero] at h
  intro m hm
  simpa using h m hm

/-! ## The invariants are kept: the open-file table -/

/-- A change of the open-file table alone keeps the invariants when every TAKEN entry of
the new table names a TAKEN FILE inode and has its offset within the block. -/
theorem wf_of_handles (s s1 : tfs_state) (hw : wf s)
    (hp : s1.params = s.params) (hit : s1.inode_table = s.inode_table)
    (hft : s1.freeinode_ts = s.freeinode_ts) (hfb : s1.free_blocks = s.free_blocks)
    (hrd : s1.root_dir = s.root_dir)
    (hh : ∀ h, h < s.params.max_open_files_count → s1.free_open_file_entries h = TAKEN →
      ∃ i : Nat, (s1.open_file_table h).of_inumber = (i : Int) ∧ 0 < i ∧
        i < s.params.max_inode_count ∧ s.freeinode_ts i = TAKEN ∧
        (s.inode_table i).i_node_type = T_FILE ∧
        (s1.open_file_table h).of_offset ≤ s.params.block_size) :
    wf s1 := by
  have hm : MAX_DIR_ENTRIES s1 = MAX_DIR_ENTRIES s := by simp [MAX_DIR_ENTRIES, hp]
  constructor
  · rw [hp]; exact hw.root
  · rw [hft]; exact hw.root_taken
  · intro m hm1 hne
    rw [hm] at hm1
    rw [hrd] at hne ⊢
    rw [hp, hft]
    exact hw.dir m hm1 hne
  · intro i h0 h1 h2
    rw [hp] at h1
    rw [hft] at h2
    rw [hit]
    exact hw.kind i h0 h1 h2
  · intro i h0 h1 h2
    rw [hp] at h1
    rw [hft] at h2
    rw [hit, dir_links_congr s s1 i hp hrd]
    exact hw.links i h0 h1 h2
  · intro h h1 h2
    rw [hp] at h1
    rw [hp, hft, hit]
    exact hh h h1 h2
  · intro i h1 h2
    rw [hp] at h1
    rw [hft] at h2
    rw [hit, hp]
    exact hw.sizes i h1 h2
  · intro i h1 h2 h3
    rw [hp] at h1
    rw [hft] at h2
    rw [hit] at h3
    rw [hit, hp, hfb]
    exact hw.blocks i h1 h2 h3
  · intro i j h1 h2 h3 h4 h5 h6 h7
    rw [hp] at h1 h2
    rw [hft] at h3 h4
    rw [hit] at h5 h6 h7
    exact hw.blocks_inj i j h1 h2 h3 h4 h5 h6 h7
  · intro i h0 h1 h2
    rw [hp] at h1
    rw [hft] at h2
    rw [hit]
    exact hw.linked i h0 h1 h2

/-- `tfs_close` keeps the invariants. -/
theorem wf_tfs_close (s s1 : tfs_state) (fhandle v : Int) (hw : wf s)
    (h : tfs_close s fhandle = ret v s1) : wf s1 := by
  unfold tfs_close at h
  split at h
  · cases h
  · rename_i file hget
    simp only [remove_from_open_file_table] at h
    unfold get_open_file_entry at hget
    split at hget
    · rename_i hr
      simp only [hr, and_self, if_true] at h
      simp at h
      obtain ⟨_, rfl⟩ := h
      refine wf_of_handles s _ hw rfl rfl rfl rfl rfl ?_
      intro k hk htk
      by_cases hkh : k = fhandle.toNat
      · subst hkh
        simp at htk
      · simp only [upd_other _ _ _ _ hkh] at htk ⊢
        exact hw.handles k hk htk
    · cases hget

/-- `tfs_read` keeps the invariants. -/
theorem wf_tfs_read (s s1 : tfs_state) (fhandle : Int) (len : Nat) (v : Int × List Nat)
    (hw : wf s) (h : tfs_read s fhandle len = ret v s1) : wf s1 := by
  unfold tfs_read at h
  split at h
  · simp at h; rw [← h.2]; exact hw
  · rename_i file hget
    split at h
    · cases h
    · rename_i inode hin
      split at h
      · simp at h; rw [← h.2]; exact hw
      · -- the new offset is within the block for a TAKEN entry
        have key : ∀ (to_read : Nat) (e : open_file_entry_t),
            (0 < to_read → file.of_offset + to_read ≤ s.params.block_size) →
            e = { file with of_offset := (file.of_offset + to_read) % SIZE_MOD } →
            wf { s with open_file_table := upd s.open_file_table fhandle.toNat e } := by
          intro to_read e hfit he
          subst he
          refine wf_of_handles s _ hw rfl rfl rfl rfl rfl ?_
          intro k hk htk
          by_cases hkh : k = fhandle.toNat
          · subst hkh
            simp only [upd_same]
            unfold get_open_file_entry at hget
            split at hget
            · simp at hget
              obtain ⟨i, h1, h2, h3, h4, h5, h6⟩ := hw.handles _ hk htk
              rw [hget] at h1 h6
              refine ⟨i, h1, h2, h3, h4, h5, ?_⟩
              by_cases hz : 0 < to_read
              · exact le_trans (Nat.mod_le _ _) (hfit hz)
              · have : to_read = 0 := by omega
                subst this
                exact le_trans (Nat.mod_le _ _) h6
            · cases hget
          · simp only [upd_other _ _ _ _ hkh]
            exact hw.handles k hk htk
        dsimp only at h
        generalize (if (inode.i_size + SIZE_MOD - file.of_offset % SIZE_MOD) % SIZE_MOD < len
          then (inode.i_size + SIZE_MOD - file.of_offset % SIZE_MOD) % SIZE_MOD else len)
          = to_read at h
        split at h
        · rename_i hpos
          split at h
          · cases h
          · split at h
            · cases h
            · rename_i hfit
              simp at h
              rw [← h.2]
              exact key _ _ (fun _ => by omega) rfl
        · rename_i hpos
          simp at h
          rw [← h.2]
          exact key _ _ (fun hc => absurd hc hpos) rfl


/-- `add_to_open_file_table` keeps the invariants when it is given a TAKEN FILE inode and
an offset within the block. -/
theorem wf_add_to_open_file_table (s : tfs_state) (inum : Int) (off i : Nat) (hw : wf s)
    (hi : inum = (i : Int)) (h0 : 0 < i) (h1 : i < s.params.max_inode_count)
    (ht : s.freeinode_ts i = TAKEN) (hk : (s.inode_table i).i_node_type = T_FILE)
    (ho : off ≤ s.params.block_size) :
    wf (add_to_open_file_table s inum off).2 := by
  unfold add_to_open_file_table
  split
  · exact hw
  · rename_i h hf
    refine wf_of_handles s _ hw rfl rfl rfl rfl rfl ?_
    intro k hk1 htk
    by_cases hkh : k = h
    · subst hkh
      simp only [upd_same]
      exact ⟨i, hi, h0, h1, ht, hk, ho⟩
    · simp only [upd_other _ _ _ _ hkh] at htk ⊢
      exact hw.handles k hk1 htk

/-! ## The invariants are kept: writing -/

/-- A change of the size and block of one TAKEN inode, of one open-file entry's offset and
possibly the allocation of a FREE block to that inode keeps the invariants. -/
theorem wf_of_write_like (s s1 : tfs_state) (hw : wf s) (h i : Nat) (e : open_file_entry_t)
    (ino : inode_t)
    (hp : s1.params = s.params) (hft : s1.freeinode_ts = s.freeinode_ts)
    (hrd : s1.root_dir = s.root_dir)
    (hfo : s1.free_open_file_entries = s.free_open_file_entries)
    (hoft : s1.open_file_table = upd s.open_file_table h e)
    (he1 : e.of_inumber = (s.open_file_table h).of_inumber)
    (he2 : e.of_offset ≤ s.params.block_size)
    (hit : s1.inode_table = upd s.inode_table i ino)
    (hi : i < s.params.max_inode_count) (hti : s.freeinode_ts i = TAKEN)
    (hk : ino.i_node_type = (s.inode_table i).i_node_type)
    (hl : ino.hard_links = (s.inode_table i).hard_links)
    (hs : ino.i_size ≤ s.params.block_size)
    (hb : (s1.free_blocks = s.free_blocks ∧ 0 < (s.inode_table i).i_size ∧
            ino.i_data_block = (s.inode_table i).i_data_block) ∨
          ((s.inode_table i).i_size = 0 ∧ ∃ b : Nat, ino.i_data_block = (b : Int) ∧
            b < s.params.max_block_count ∧ s.free_blocks b = FREE ∧
            s1.free_blocks = upd s.free_blocks b TAKEN)) :
    wf s1 := by
  have hm : MAX_DIR_ENTRIES s1 = MAX_DIR_ENTRIES s := by simp [MAX_DIR_ENTRIES, hp]
  constructor
  · rw [hp]; exact hw.root
  · rw [hft]; exact hw.root_taken
  · intro m hm1 hne
    rw [hm] at hm1
    rw [hrd] at hne ⊢
    rw [hp, hft]
    exact hw.dir m hm1 hne
  · intro j h0 h1 h2
    rw [hp] at h1
    rw [hft] at h2
    rw [hit]
    by_cases hji : j = i
    · subst hji; rw [upd_same, hk]; exact hw.kind j h0 h1 h2
    · rw [upd_other _ _ _ _ hji]; exact hw.kind j h0 h1 h2
  · intro j h0 h1 h2
    rw [hp] at h1
    rw [hft] at h2
    rw [hit, dir_links_congr s s1 j hp hrd]
    by_cases hji : j = i
    · subst hji; rw [upd_same, hl]; exact hw.links j h0 h1 h2
    · rw [upd_other _ _ _ _ hji]; exact hw.links j h0 h1 h2
  · intro k h1 h2
    rw [hp] at h1
    rw [hfo] at h2
    obtain ⟨j, e1, e2, e3, e4, e5, e6⟩ := hw.handles k h1 h2
    rw [hp, hft, hit, hoft]
    refine ⟨j, ?_, e2, e3, e4, ?_, ?_⟩
    · by_cases hkh : k = h
      · subst hkh; rw [upd_same, he1]; exact e1
      · rw [upd_other _ _ _ _ hkh]; exact e1
    · by_cases hji : j = i
      · subst hji; rw [upd_same, hk]; exact e5
      · rw [upd_other _ _ _ _ hji]; exact e5
    · by_cases hkh : k = h
      · subst hkh; rw [upd_same]; exact he2
      · rw [upd_other _ _ _ _ hkh]; exact e6
  · intro j h1 h2
    rw [hp] at h1
    rw [hft] at h2
    rw [hit, hp]
    by_cases hji : j = i
    · subst hji; rw [upd_same]; exact hs
    · rw [upd_other _ _ _ _ hji]; exact hw.sizes j h1 h2
  · intro j h1 h2 h3
    rw [hp] at h1
    rw [hft] at h2
    rw [hit] at h3 ⊢
    rw [hp]
    by_cases hji : j = i
    · subst hji
      rw [upd_same] at h3 ⊢
      rcases hb with ⟨hb1, hb2, hb3⟩ | ⟨hb1, b, hb2, hb3, hb4, hb5⟩
      · rw [hb1, hb3]; exact hw.blocks j h1 h2 hb2
      · exact ⟨b, hb2, hb3, by rw [hb5, upd_same]⟩
    · rw [upd_other _ _ _ _ hji] at h3 ⊢
      obtain ⟨b, e1, e2, e3⟩ := hw.blocks j h1 h2 h3
      refine ⟨b, e1, e2, ?_⟩
      rcases hb with ⟨hb1, _, _⟩ | ⟨_, b2, _, _, hb4, hb5⟩
      · rw [hb1]; exact e3
      · rw [hb5]
        by_cases hbb : b = b2
        · subst hbb; rw [upd_same]
        · rw [upd_other _ _ _ _ hbb]; exact e3
  · intro j k h1 h2 h3 h4 h5 h6 h7
    rw [hp] at h1 h2
    rw [hft] at h3 h4
    rw [hit] at h5 h6 h7
    -- the block of `i` in the new state differs from the blocks of the other owners
    have key : ∀ x, x ≠ i → x < s.params.max_inode_count → s.freeinode_ts x = TAKEN →
        0 < (s.inode_table x).i_size → 0 < ino.i_size →
        (s.inode_table x).i_data_block = ino.i_data_block → False := by
      intro x hx hx1 hx2 hx3 hx4 hx5
      rcases hb with ⟨_, hb2, hb3⟩ | ⟨_, b, hb2, _, hb4, _⟩
      · rw [hb3] at hx5
        exact hx (hw.blocks_inj x i hx1 hi hx2 hti hx3 hb2 hx5)
      · obtain ⟨b2, e1, _, e3⟩ := hw.blocks x hx1 hx2 hx3
        rw [e1, hb2] at hx5
        have : b2 = b := by omega
        rw [this, hb4] at e3
        cases e3
    by_cases hji : j = i
    · by_cases hki : k = i
      · rw [hji, hki]
      · rw [hji, upd_same] at h5 h7
        rw [upd_other _ _ _ _ hki] at h6 h7
        exact (key k hki h2 h4 h6 h5 h7.symm).elim
    · by_cases hki : k = i
      · rw [hki, upd_same] at h6 h7
        rw [upd_other _ _ _ _ hji] at h5 h7
        exact (key j hji h1 h3 h5 h6 h7).elim
      · rw [upd_other _ _ _ _ hji] at h5 h7
        rw [upd_other _ _ _ _ hki] at h6 h7
        exact hw.blocks_inj j k h1 h2 h3 h4 h5 h6 h7
  · intro j h0 h1 h2
    rw [hp] at h1
    rw [hft] at h2
    rw [hit]
    by_cases hji : j = i
    · rw [hji, upd_same, hl]; exact hw.linked i (by omega) hi hti
    · rw [upd_other _ _ _ _ hji]; exact hw.linked j h0 h1 h2


theorem get_open_file_entry_some (s : tfs_state) (fhandle : Int) (file : open_file_entry_t)
    (h : get_open_file_entry s fhandle = some file) :
    0 ≤ fhandle ∧ fhandle.toNat < s.params.max_open_files_count ∧
      file = s.open_file_table fhandle.toNat ∧ fhandle = ((fhandle.toNat : Nat) : Int) := by
  unfold get_open_file_entry at h
  split at h
  · rename_i hr
    simp at h
    exact ⟨hr.1, by omega, h.symm, by omega⟩
  · cases h

theorem is_inum_taken_true (s : tfs_state) (i : Int) (h : is_inum_taken s i = true) :
    s.freeinode_ts i.toNat = TAKEN := by
  simp only [is_inum_taken, decide_eq_true_eq] at h
  exact h.2.2

/-- `tfs_write` keeps the invariants. -/
theorem wf_tfs_write (s s1 : tfs_state) (fhandle : Int) (buffer : List Nat) (to_write : Nat)
    (v : Int) (hw : wf s) (h : tfs_write s fhandle buffer to_write = ret v s1) : wf s1 := by
  unfold tfs_write at h
  split at h
  · simp at h; rw [← h.2]; exact hw
  · rename_i file hget
    obtain ⟨_, hh, hfile, _⟩ := get_open_file_entry_some s fhandle file hget
    split at h
    · cases h
    · rename_i inode hin
      obtain ⟨h0, hlt, heq, hcast, hnat⟩ := inode_get_some s _ inode hin
      split at h
      · simp at h; rw [← h.2]; exact hw
      · rename_i htk
        have htk2 : s.freeinode_ts file.of_inumber.toNat = TAKEN :=
          is_inum_taken_true s _ (by simpa using htk)
        dsimp only [state_block_size] at h
        generalize (if s.params.block_size < (to_write + file.of_offset) % SIZE_MOD
          then (s.params.block_size + SIZE_MOD - file.of_offset % SIZE_MOD) % SIZE_MOD
          else to_write) = tw at h
        split at h
        · by_cases hz : inode.i_size = 0
          · simp only [hz, if_true, true_and, data_block_alloc] at h
            cases hff : first_free s.free_blocks s.params.max_block_count with
            | none =>
              simp [hff] at h
              rw [← h.2]; exact hw
            | some b =>
              have hb := (first_free_eq_some _ _ _).1 hff
              have hbi : ¬ ((b : Int) = -1) := by omega
              have hrange : (0 : Int) ≤ (b : Int) ∧ (b : Int) < (s.params.max_block_count : Int) :=
                ⟨by omega, by omega⟩
              simp only [hff, hbi, if_false, data_block_get, hrange, and_self, if_true] at h
              split at h
              · cases h
              · rename_i hfit
                simp at h
                obtain ⟨_, rfl⟩ := h
                refine wf_of_write_like s _ hw fhandle.toNat file.of_inumber.toNat
                  { file with of_offset := (file.of_offset + tw) % SIZE_MOD }
                  { inode with
                    i_data_block := (b : Int)
                    i_size := if 0 < (file.of_offset + tw) % SIZE_MOD
                      then (file.of_offset + tw) % SIZE_MOD else 0 }
                  rfl rfl rfl rfl rfl (by rw [hfile]) ?_ ?_ hnat htk2 (by rw [heq])
                  (by rw [heq]) ?_ ?_
                · exact le_trans (Nat.mod_le _ _) (by omega)
                · simp
                · have := le_trans (Nat.mod_le (file.of_offset + tw) SIZE_MOD)
                    (show file.of_offset + tw ≤ s.params.block_size by omega)
                  simp only []
                  split <;> omega
                · right
                  refine ⟨by rw [← heq]; exact hz, b, rfl, hb.1, hb.2.1, ?_⟩
                  simp
          · simp only [hz, if_false, false_and] at h
            split at h
            · cases h
            · rename_i block hblock
              split at h
              · cases h
              · rename_i hfit
                simp at h
                obtain ⟨_, rfl⟩ := h
                refine wf_of_write_like s _ hw fhandle.toNat file.of_inumber.toNat
                  { file with of_offset := (file.of_offset + tw) % SIZE_MOD }
                  { inode with
                    i_data_block := inode.i_data_block
                    i_size := if inode.i_size < (file.of_offset + tw) % SIZE_MOD
                      then (file.of_offset + tw) % SIZE_MOD else inode.i_size }
                  rfl rfl rfl rfl rfl (by rw [hfile]) ?_ rfl hnat htk2 (by rw [heq])
                  (by rw [heq]) ?_ ?_
                · exact le_trans (Nat.mod_le _ _) (by omega)
                · have h1 := le_trans (Nat.mod_le (file.of_offset + tw) SIZE_MOD)
                    (show file.of_offset + tw ≤ s.params.block_size by omega)
                  have h2 := hw.sizes _ hnat htk2
                  rw [← heq] at h2
                  simp only []
                  split <;> omega
                · left
                  refine ⟨rfl, by rw [← heq]; omega, by rw [← heq]⟩
        · simp at h
          rw [← h.2]; exact hw


/-! ## The invariants are kept: truncation, creation, linking, unlinking -/

/-- Truncating a TAKEN non-empty inode (its size set to 0, its block freed) keeps the
invariants. -/
theorem wf_of_trunc (s s1 : tfs_state) (hw : wf s) (i : Nat)
    (hi : i < s.params.max_inode_count) (hti : s.freeinode_ts i = TAKEN)
    (hpos : 0 < (s.inode_table i).i_size)
    (hp : s1.params = s.params) (hft : s1.freeinode_ts = s.freeinode_ts)
    (hrd : s1.root_dir = s.root_dir)
    (hfo : s1.free_open_file_entries = s.free_open_file_entries)
    (hoft : s1.open_file_table = s.open_file_table)
    (hit : s1.inode_table = upd s.inode_table i { s.inode_table i with i_size := 0 })
    (hfb : ∀ b : Nat, (s.inode_table i).i_data_block ≠ (b : Int) →
      s1.free_blocks b = s.free_blocks b) :
    wf s1 := by
  have hm : MAX_DIR_ENTRIES s1 = MAX_DIR_ENTRIES s := by simp [MAX_DIR_ENTRIES, hp]
  constructor
  · rw [hp]; exact hw.root
  · rw [hft]; exact hw.root_taken
  · intro m hm1 hne
    rw [hm] at hm1
    rw [hrd] at hne ⊢
    rw [hp, hft]
    exact hw.dir m hm1 hne
  · intro j h0 h1 h2
    rw [hp] at h1
    rw [hft] at h2
    rw [hit]
    by_cases hji : j = i
    · subst hji; rw [upd_same]; exact hw.kind j h0 h1 h2
    · rw [upd_other _ _ _ _ hji]; exact hw.kind j h0 h1 h2
  · intro j h0 h1 h2
    rw [hp] at h1
    rw [hft] at h2
    rw [hit, dir_links_congr s s1 j hp hrd]
    by_cases hji : j = i
    · subst hji; rw [upd_same]; exact hw.links j h0 h1 h2
    · rw [upd_other _ _ _ _ hji]; exact hw.links j h0 h1 h2
  · intro k h1 h2
    rw [hp] at h1
    rw [hfo] at h2
    obtain ⟨j, e1, e2, e3, e4, e5, e6⟩ := hw.handles k h1 h2
    rw [hp, hft, hit, hoft]
    refine ⟨j, e1, e2, e3, e4, ?_, e6⟩
    by_cases hji : j = i
    · subst hji; rw [upd_same]; exact e5
    · rw [upd_other _ _ _ _ hji]; exact e5
  · intro j h1 h2
    rw [hp] at h1
    rw [hft] at h2
    rw [hit, hp]
    by_cases hji : j = i
    · subst hji; rw [upd_same]; simp
    · rw [upd_other _ _ _ _ hji]; exact hw.sizes j h1 h2
  · intro j h1 h2 h3
    rw [hp] at h1
    rw [hft] at h2
    rw [hit] at h3 ⊢
    rw [hp]
    by_cases hji : j = i
    · subst hji
      rw [upd_same] at h3
      simp at h3
    · rw [upd_other _ _ _ _ hji] at h3 ⊢
      obtain ⟨b, e1, e2, e3⟩ := hw.blocks j h1 h2 h3
      refine ⟨b, e1, e2, ?_⟩
      rw [hfb b, e3]
      intro hc
      rw [← e1] at hc
      exact hji (hw.blocks_inj j i h1 hi h2 hti h3 hpos hc.symm)
  · intro j k h1 h2 h3 h4 h5 h6 h7
    rw [hp] at h1 h2
    rw [hft] at h3 h4
    rw [hit] at h5 h6 h7
    by_cases hji : j = i
    · rw [hji, upd_same] at h5; simp at h5
    · by_cases hki : k = i
      · rw [hki, upd_same] at h6; simp at h6
      · rw [upd_other _ _ _ _ hji] at h5 h7
        rw [upd_other _ _ _ _ hki] at h6 h7
        exact hw.blocks_inj j k h1 h2 h3 h4 h5 h6 h7
  · intro j h0 h1 h2
    rw [hp] at h1
    rw [hft] at h2
    rw [hit]
    by_cases hji : j = i
    · rw [hji, upd_same]; exact hw.linked i (by omega) hi hti
    · rw [upd_other _ _ _ _ hji]; exact hw.linked j h0 h1 h2

/-- A change of the record of a FREE inode slot alone keeps the invariants. -/
theorem wf_of_free_slot_change (s s1 : tfs_state) (hw : wf s) (j : Nat)
    (hjf : s.freeinode_ts j = FREE)
    (hp : s1.params = s.params) (hft : s1.freeinode_ts = s.freeinode_ts)
    (hrd : s1.root_dir = s.root_dir) (hfb : s1.free_blocks = s.free_blocks)
    (hfo : s1.free_open_file_entries = s.free_open_file_entries)
    (hoft : s1.open_file_table = s.open_file_table)
    (hit : ∀ i, i ≠ j → s1.inode_table i = s.inode_table i) :
    wf s1 := by
  have hm : MAX_DIR_ENTRIES s1 = MAX_DIR_ENTRIES s := by simp [MAX_DIR_ENTRIES, hp]
  have hne : ∀ i, s.freeinode_ts i = TAKEN → i ≠ j := by
    intro i hi hc; rw [hc, hjf] at hi; cases hi
  constructor
  · rw [hp]; exact hw.root
  · rw [hft]; exact hw.root_taken
  · intro m hm1 hne1
    rw [hm] at hm1
    rw [hrd] at hne1 ⊢
    rw [hp, hft]
    exact hw.dir m hm1 hne1
  · intro i h0 h1 h2
    rw [hp] at h1
    rw [hft] at h2
    rw [hit i (hne i h2)]
    exact hw.kind i h0 h1 h2
  · intro i h0 h1 h2
    rw [hp] at h1
    rw [hft] at h2
    rw [hit i (hne i h2), dir_links_congr s s1 i hp hrd]
    exact hw.links i h0 h1 h2
  · intro k h1 h2
    rw [hp] at h1
    rw [hfo] at h2
    obtain ⟨i, e1, e2, e3, e4, e5, e6⟩ := hw.handles k h1 h2
    rw [hp, hft, hoft]
    refine ⟨i, e1, e2, e3, e4, ?_, e6⟩
    rw [hit i (hne i e4)]
    exact e5
  · intro i h1 h2
    rw [hp] at h1
    rw [hft] at h2
    rw [hit i (hne i h2), hp]
    exact hw.sizes i h1 h2
  · intro i h1 h2 h3
    rw [hp] at h1
    rw [hft] at h2
    rw [hit i (hne i h2)] at h3 ⊢
    rw [hp, hfb]
    exact hw.blocks i h1 h2 h3
  · intro i k h1 h2 h3 h4 h5 h6 h7
    rw [hp] at h1 h2
    rw [hft] at h3 h4
    rw [hit i (hne i h3)] at h5 h7
    rw [hit k (hne k h4)] at h6 h7
    exact hw.blocks_inj i k h1 h2 h3 h4 h5 h6 h7
  · intro i h0 h1 h2
    rw [hp] at h1
    rw [hft] at h2
    rw [hit i (hne i h2)]
    exact hw.linked i h0 h1 h2


theorem dir_links_of_free_inode (s : tfs_state) (hw : wf s) (j : Nat)
    (hjf : s.freeinode_ts j = FREE) : dir_links s j = 0 := by
  apply dir_links_eq_zero
  intro m hm hc
  have hne : (s.root_dir m).d_inumber ≠ -1 := by rw [hc]; omega
  obtain ⟨i, e1, _, _, e4⟩ := hw.dir m hm hne
  rw [hc] at e1
  have : j = i := by omega
  rw [this, e4] at hjf
  cases hjf

/-- Taking a FREE inode slot for a new inode with one link and entering it in a FREE
directory slot keeps the invariants; the new inode is empty or owns a block that was
FREE. -/
theorem wf_of_new_inode (s s1 : tfs_state) (hw : wf s) (j d : Nat) (ino : inode_t)
    (nm : List Nat)
    (hj : j < s.params.max_inode_count) (hjf : s.freeinode_ts j = FREE)
    (hd : d < MAX_DIR_ENTRIES s) (hdf : (s.root_dir d).d_inumber = -1)
    (hp : s1.params = s.params) (hft : s1.freeinode_ts = upd s.freeinode_ts j TAKEN)
    (hit : s1.inode_table = upd s.inode_table j ino)
    (hrd : s1.root_dir = upd s.root_dir d { d_name := nm, d_inumber := (j : Int) })
    (hfo : s1.free_open_file_entries = s.free_open_file_entries)
    (hoft : s1.open_file_table = s.open_file_table)
    (hk : ino.i_node_type ≠ T_DIRECTORY) (hl : ino.hard_links = 1)
    (hs : ino.i_size ≤ s.params.block_size)
    (hb : (ino.i_size = 0 ∧ s1.free_blocks = s.free_blocks) ∨
      (∃ b : Nat, ino.i_data_block = (b : Int) ∧ b < s.params.max_block_count ∧
        s.free_blocks b = FREE ∧ s1.free_blocks = upd s.free_blocks b TAKEN)) :
    wf s1 := by
  have hm : MAX_DIR_ENTRIES s1 = MAX_DIR_ENTRIES s := by simp [MAX_DIR_ENTRIES, hp]
  have hj0 : 0 < j := by
    by_contra hc
    have : j = 0 := by omega
    rw [this, hw.root_taken] at hjf
    cases hjf
  have htk : ∀ i, s.freeinode_ts i = TAKEN → i ≠ j := by
    intro i hi hc; rw [hc, hjf] at hi; cases hi
  have htk1 : ∀ i, i ≠ j → s1.freeinode_ts i = s.freeinode_ts i := by
    intro i hi; rw [hft, upd_other _ _ _ _ hi]
  have htk2 : ∀ i, s.freeinode_ts i = TAKEN → s1.freeinode_ts i = TAKEN := by
    intro i hi; rw [htk1 i (htk i hi)]; exact hi
  have hfbk : ∀ b, s.free_blocks b = TAKEN → s1.free_blocks b = TAKEN := by
    intro b hbt
    rcases hb with ⟨_, hb1⟩ | ⟨b2, _, _, hb3, hb4⟩
    · rw [hb1]; exact hbt
    · rw [hb4]
      by_cases hbb : b = b2
      · rw [hbb, upd_same]
      · rw [upd_other _ _ _ _ hbb]; exact hbt
  have hlinks := dir_links_upd s s1 d
  constructor
  · rw [hp]; exact hw.root
  · exact htk2 0 hw.root_taken
  · intro m hm1 hne
    rw [hm] at hm1
    rw [hp]
    by_cases hmd : m = d
    · subst hmd
      rw [hrd, upd_same]
      exact ⟨j, rfl, hj0, hj, by rw [hft, upd_same]⟩
    · rw [hrd, upd_other _ _ _ _ hmd] at hne ⊢
      obtain ⟨i, e1, e2, e3, e4⟩ := hw.dir m hm1 hne
      exact ⟨i, e1, e2, e3, htk2 i e4⟩
  · intro i h0 h1 h2
    rw [hit]
    by_cases hij : i = j
    · subst hij; rw [upd_same]; exact hk
    · rw [upd_other _ _ _ _ hij]
      rw [hp] at h1
      rw [htk1 i hij] at h2
      exact hw.kind i h0 h1 h2
  · intro i h0 h1 h2
    have hl2 := hlinks i _ hp hrd hd
    rw [hdf] at hl2
    have hneg : ¬ ((-1 : Int) = (i : Int)) := by omega
    simp only [hneg, if_false] at hl2
    rw [hit]
    by_cases hij : i = j
    · subst hij
      rw [upd_same, hl]
      rw [dir_links_of_free_inode s hw i hjf] at hl2
      simp at hl2
      omega
    · rw [upd_other _ _ _ _ hij]
      rw [hp] at h1
      rw [htk1 i hij] at h2
      have hji : ¬ ((j : Int) = (i : Int)) := by omega
      simp only [hji, if_false] at hl2
      rw [hw.links i h0 h1 h2]
      omega
  · intro k h1 h2
    rw [hp] at h1
    rw [hfo] at h2
    obtain ⟨i, e1, e2, e3, e4, e5, e6⟩ := hw.handles k h1 h2
    rw [hp, hoft, hit]
    refine ⟨i, e1, e2, e3, htk2 i e4, ?_, e6⟩
    rw [upd_other _ _ _ _ (htk i e4)]
    exact e5
  · intro i h1 h2
    rw [hp] at h1 ⊢
    rw [hit]
    by_cases hij : i = j
    · subst hij; rw [upd_same]; exact hs
    · rw [upd_other _ _ _ _ hij]
      rw [htk1 i hij] at h2
      exact hw.sizes i h1 h2
  · intro i h1 h2 h3
    rw [hp] at h1 ⊢
    rw [hit] at h3 ⊢
    by_cases hij : i = j
    · subst hij
      rw [upd_same] at h3 ⊢
      rcases hb with ⟨hb0, _⟩ | ⟨b, hb1, hb2, _, hb4⟩
      · omega
      · exact ⟨b, hb1, hb2, by rw [hb4, upd_same]⟩
    · rw [upd_other _ _ _ _ hij] at h3 ⊢
      rw [htk1 i hij] at h2
      obtain ⟨b, e1, e2, e3⟩ := hw.blocks i h1 h2 h3
      exact ⟨b, e1, e2, hfbk b e3⟩
  · intro i k h1 h2 h3 h4 h5 h6 h7
    rw [hp] at h1 h2
    rw [hit] at h5 h6 h7
    have key : ∀ x, x ≠ j → x < s.params.max_inode_count → s.freeinode_ts x = TAKEN →
        0 < (s.inode_table x).i_size → 0 < ino.i_size →
        (s.inode_table x).i_data_block = ino.i_data_block → False := by
      intro x _ hx1 hx2 hx3 hx4 hx5
      rcases hb with ⟨hb0, _⟩ | ⟨b, hb1, _, hb3, _⟩
      · omega
      · obtain ⟨b2, e1, _, e3⟩ := hw.blocks x hx1 hx2 hx3
        rw [e1, hb1] at hx5
        have : b2 = b := by omega
        rw [this, hb3] at e3
        cases e3
    by_cases hij : i = j
    · by_cases hkj : k = j
      · rw [hij, hkj]
      · rw [hij, upd_same] at h5 h7
        rw [upd_other _ _ _ _ hkj] at h6 h7
        rw [htk1 k hkj] at h4
        exact (key k hkj h2 h4 h6 h5 h7.symm).elim
    · by_cases hkj : k = j
      · rw [hkj, upd_same] at h6 h7
        rw [upd_other _ _ _ _ hij] at h5 h7
        rw [htk1 i hij] at h3
        exact (key i hij h1 h3 h5 h6 h7).elim
      · rw [upd_other _ _ _ _ hij] at h5 h7
        rw [upd_other _ _ _ _ hkj] at h6 h7
        rw [htk1 i hij] at h3
        rw [htk1 k hkj] at h4
        exact hw.blocks_inj i k h1 h2 h3 h4 h5 h6 h7
  · intro i h0 h1 h2
    rw [hit]
    by_cases hij : i = j
    · rw [hij, upd_same, hl]; decide
    · rw [upd_other _ _ _ _ hij]
      rw [hp] at h1
      rw [htk1 i hij] at h2
      exact hw.linked i h0 h1 h2


/-- Changing one directory slot between FREE and a name of inode i, with the link count of
i adjusted by the same amount and still positive, keeps the invariants. -/
theorem wf_of_dir_change (s s1 : tfs_state) (hw : wf s) (i d : Nat) (ino : inode_t)
    (e : dir_entry_t)
    (h0 : 0 < i) (hi : i < s.params.max_inode_count) (hti : s.freeinode_ts i = TAKEN)
    (hd : d < MAX_DIR_ENTRIES s)
    (hp : s1.params = s.params) (hft : s1.freeinode_ts = s.freeinode_ts)
    (hfb : s1.free_blocks = s.free_blocks)
    (hfo : s1.free_open_file_entries = s.free_open_file_entries)
    (hoft : s1.open_file_table = s.open_file_table)
    (hit : s1.inode_table = upd s.inode_table i ino)
    (hrd : s1.root_dir = upd s.root_dir d e)
    (hk : ino.i_node_type = (s.inode_table i).i_node_type)
    (hs : ino.i_size = (s.inode_table i).i_size)
    (hb : ino.i_data_block = (s.inode_table i).i_data_block)
    (hold : (s.root_dir d).d_inumber = -1 ∨ (s.root_dir d).d_inumber = (i : Int))
    (hnew : e.d_inumber = -1 ∨ e.d_inumber = (i : Int))
    (hl : ino.hard_links + (if (s.root_dir d).d_inumber = (i : Int) then 1 else 0) =
      (s.inode_table i).hard_links + (if e.d_inumber = (i : Int) then 1 else 0))
    (hnz : 0 < ino.hard_links) :
    wf s1 := by
  have hm : MAX_DIR_ENTRIES s1 = MAX_DIR_ENTRIES s := by simp [MAX_DIR_ENTRIES, hp]
  have hlinks := dir_links_upd s s1 d
  have hkind : ∀ j, (s1.inode_table j).i_node_type = (s.inode_table j).i_node_type := by
    intro j; rw [hit]
    by_cases hj : j = i
    · subst hj; rw [upd_same]; exact hk
    · rw [upd_other _ _ _ _ hj]
  have hsize : ∀ j, (s1.inode_table j).i_size = (s.inode_table j).i_size := by
    intro j; rw [hit]
    by_cases hj : j = i
    · subst hj; rw [upd_same]; exact hs
    · rw [upd_other _ _ _ _ hj]
  have hblock : ∀ j, (s1.inode_table j).i_data_block = (s.inode_table j).i_data_block := by
    intro j; rw [hit]
    by_cases hj : j = i
    · subst hj; rw [upd_same]; exact hb
    · rw [upd_other _ _ _ _ hj]
  constructor
  · rw [hp]; exact hw.root
  · rw [hft]; exact hw.root_taken
  · intro m hm1 hne
    rw [hm] at hm1
    rw [hp, hft]
    by_cases hmd : m = d
    · subst hmd
      rw [hrd, upd_same] at hne ⊢
      rcases hnew with hn | hn
      · exact (hne hn).elim
      · exact ⟨i, hn, h0, hi, hti⟩
    · rw [hrd, upd_other _ _ _ _ hmd] at hne ⊢
      exact hw.dir m hm1 hne
  · intro j h1 h2 h3
    rw [hkind]
    rw [hp] at h2
    rw [hft] at h3
    exact hw.kind j h1 h2 h3
  · intro j h1 h2 h3
    rw [hp] at h2
    rw [hft] at h3
    have hl2 := hlinks j e hp hrd hd
    have hwl := hw.links j h1 h2 h3
    rw [hit]
    by_cases hj : j = i
    · subst hj
      rw [upd_same]
      by_cases c1 : (s.root_dir d).d_inumber = (j : Int) <;>
        by_cases c2 : e.d_inumber = (j : Int) <;>
        simp only [c1, c2, if_true, if_false] at hl hl2 <;> omega
    · rw [upd_other _ _ _ _ hj]
      have hne1 : ¬ ((s.root_dir d).d_inumber = (j : Int)) := by
        rcases hold with ho | ho <;> rw [ho] <;> omega
      have hne2 : ¬ (e.d_inumber = (j : Int)) := by
        rcases hnew with ho | ho <;> rw [ho] <;> omega
      simp only [hne1, hne2, if_false] at hl2
      rw [hwl]; omega
  · intro k h1 h2
    rw [hp] at h1
    rw [hfo] at h2
    obtain ⟨j, e1, e2, e3, e4, e5, e6⟩ := hw.handles k h1 h2
    rw [hp, hoft, hft]
    refine ⟨j, e1, e2, e3, e4, ?_, e6⟩
    rw [hkind]; exact e5
  · intro j h1 h2
    rw [hp] at h1 ⊢
    rw [hft] at h2
    rw [hsize]
    exact hw.sizes j h1 h2
  · intro j h1 h2 h3
    rw [hp] at h1 ⊢
    rw [hft] at h2
    rw [hsize] at h3
    rw [hblock, hfb]
    exact hw.blocks j h1 h2 h3
  · intro j k h1 h2 h3 h4 h5 h6 h7
    rw [hp] at h1 h2
    rw [hft] at h3 h4
    rw [hsize] at h5 h6
    rw [hblock, hblock] at h7
    exact hw.blocks_inj j k h1 h2 h3 h4 h5 h6 h7
  · intro j h1 h2 h3
    rw [hp] at h2
    rw [hft] at h3
    rw [hit]
    by_cases hj : j = i
    · rw [hj, upd_same]; exact hnz
    · rw [upd_other _ _ _ _ hj]; exact hw.linked j h1 h2 h3

/-- Removing the last name of inode i and freeing the inode and its block keeps the
invariants, provided no TAKEN handle refers to i. -/
theorem wf_of_unlink_last (s s1 : tfs_state) (hw : wf s) (i d : Nat) (e : dir_entry_t)
    (h0 : 0 < i) (hi : i < s.params.max_inode_count) (hti : s.freeinode_ts i = TAKEN)
    (hd : d < MAX_DIR_ENTRIES s) (hdi : (s.root_dir d).d_inumber = (i : Int))
    (he : e.d_inumber = -1)
    (hone : (s.inode_table i).hard_links = 1)
    (hclosed : ∀ h, h < s.params.max_open_files_count →
      s.free_open_file_entries h = TAKEN → (s.open_file_table h).of_inumber ≠ (i : Int))
    (hp : s1.params = s.params) (hft : s1.freeinode_ts = upd s.freeinode_ts i FREE)
    (hfb : ∀ b : Nat, ¬ (0 < (s.inode_table i).i_size ∧
      (s.inode_table i).i_data_block = (b : Int)) → s1.free_blocks b = s.free_blocks b)
    (hfo : s1.free_open_file_entries = s.free_open_file_entries)
    (hoft : s1.open_file_table = s.open_file_table)
    (hit : ∀ j, j ≠ i → s1.inode_table j = s.inode_table j)
    (hrd : s1.root_dir = upd s.root_dir d e) :
    wf s1 := by
  have hm : MAX_DIR_ENTRIES s1 = MAX_DIR_ENTRIES s := by simp [MAX_DIR_ENTRIES, hp]
  have hlinks := dir_links_upd s s1 d
  have hl1 := hlinks i e hp hrd hd
  have hwl := hw.links i h0 hi hti
  rw [hone] at hwl
  have hz : dir_links s1 i = 0 := by
    have hne : ¬ (e.d_inumber = (i : Int)) := by rw [he]; omega
    simp only [hdi, hne, if_true, if_false] at hl1
    omega
  have hnoi := dir_links_zero_imp s1 i hz
  have htk : ∀ j, s1.freeinode_ts j = TAKEN → j ≠ i ∧ s.freeinode_ts j = TAKEN := by
    intro j hj
    rw [hft] at hj
    by_cases hji : j = i
    · rw [hji, upd_same] at hj; cases hj
    · rw [upd_other _ _ _ _ hji] at hj; exact ⟨hji, hj⟩
  have hkeep : ∀ j, j ≠ i → s.freeinode_ts j = TAKEN → s1.freeinode_ts j = TAKEN := by
    intro j hji hj
    rw [hft, upd_other _ _ _ _ hji]; exact hj
  have hblk : ∀ j, j ≠ i → j < s.params.max_inode_count → s.freeinode_ts j = TAKEN →
      0 < (s.inode_table j).i_size → ∀ b : Nat, (s.inode_table j).i_data_block = (b : Int) →
      s1.free_blocks b = s.free_blocks b := by
    intro j hji hj1 hj2 hj3 b hb
    apply hfb
    rintro ⟨c1, c2⟩
    exact hji (hw.blocks_inj j i hj1 hi hj2 hti hj3 c1 (by rw [hb, c2]))
  constructor
  · rw [hp]; exact hw.root
  · exact hkeep 0 (by omega) hw.root_taken
  · intro m hm1 hne
    have hmi := hnoi m hm1
    rw [hm] at hm1
    rw [hp]
    by_cases hmd : m = d
    · subst hmd
      rw [hrd, upd_same] at hne
      exact (hne he).elim
    · rw [hrd, upd_other _ _ _ _ hmd] at hne hmi ⊢
      obtain ⟨j, e1, e2, e3, e4⟩ := hw.dir m hm1 hne
      refine ⟨j, e1, e2, e3, hkeep j ?_ e4⟩
      intro hc
      rw [e1, hc] at hmi
      exact hmi rfl
  · intro j h1 h2 h3
    rw [hp] at h2
    obtain ⟨hji, h4⟩ := htk j h3
    rw [hit j hji]
    exact hw.kind j h1 h2 h4
  · intro j h1 h2 h3
    rw [hp] at h2
    obtain ⟨hji, h4⟩ := htk j h3
    rw [hit j hji, hw.links j h1 h2 h4]
    have hl2 := hlinks j e hp hrd hd
    have hne1 : ¬ ((s.root_dir d).d_inumber = (j : Int)) := by rw [hdi]; omega
    have hne2 : ¬ (e.d_inumber = (j : Int)) := by rw [he]; omega
    simp only [hne1, hne2, if_false] at hl2
    omega
  · intro k h1 h2
    rw [hp] at h1
    rw [hfo] at h2
    obtain ⟨j, e1, e2, e3, e4, e5, e6⟩ := hw.handles k h1 h2
    have hji : j ≠ i := by
      intro hc
      rw [hc] at e1
      exact hclosed k h1 h2 e1
    rw [hp, hoft]
    refine ⟨j, e1, e2, e3, hkeep j hji e4, ?_, e6⟩
    rw [hit j hji]; exact e5
  · intro j h1 h2
    rw [hp] at h1 ⊢
    obtain ⟨hji, h4⟩ := htk j h2
    rw [hit j hji]
    exact hw.sizes j h1 h4
  · intro j h1 h2 h3
    rw [hp] at h1 ⊢
    obtain ⟨hji, h4⟩ := htk j h2
    rw [hit j hji] at h3 ⊢
    obtain ⟨b, e1, e2, e3⟩ := hw.blocks j h1 h4 h3
    exact ⟨b, e1, e2, by rw [hblk j hji h1 h4 h3 b e1]; exact e3⟩
  · intro j k h1 h2 h3 h4 h5 h6 h7
    rw [hp] at h1 h2
    obtain ⟨hji, h3b⟩ := htk j h3
    obtain ⟨hki, h4b⟩ := htk k h4
    rw [hit j hji] at h5 h7
    rw [hit k hki] at h6 h7
    exact hw.blocks_inj j k h1 h2 h3b h4b h5 h6 h7
  · intro j h1 h2 h3
    rw [hp] at h2
    obtain ⟨hji, h4⟩ := htk j h3
    rw [hit j hji]
    exact hw.linked j h1 h2 h4


/-- In a state that satisfies the invariants, a lookup that finds an inumber finds the inumber
of a TAKEN inode other than the root, stored in the first directory slot with that name. -/
theorem tfs_lookup_wf (s : tfs_state) (hw : wf s) (name : Option (List Nat))
    (root : Option inode_t) (inum : Int)
    (h : tfs_lookup s name root = some inum) (hn : inum ≠ -1) :
    ∃ d i : Nat, dir_slot s (skip_slash name) = some d ∧ d < MAX_DIR_ENTRIES s ∧
      (s.root_dir d).d_inumber = inum ∧ inum = (i : Int) ∧ 0 < i ∧
      i < s.params.max_inode_count ∧ s.freeinode_ts i = TAKEN := by
  unfold tfs_lookup at h
  split at h
  · simp at h; exact (hn h.symm).elim
  · cases root with
    | none => simp at h
    | some r =>
      simp only [Option.some.injEq] at h
      unfold find_in_dir at h
      cases hs : dir_slot s (skip_slash name) with
      | none => rw [hs] at h; exact (hn h.symm).elim
      | some d =>
        rw [hs] at h
        simp only at h
        have hd := (dir_slot_eq_some s (skip_slash name) d).1 hs
        obtain ⟨i, e1, e2, e3, e4⟩ := hw.dir d hd.1 hd.2.1.1
        exact ⟨d, i, rfl, hd.1, h, by rw [← h, e1], e2, e3, e4⟩

theorem wf_tfs_link (s s1 : tfs_state) (target link_name : Option (List Nat)) (v : Int)
    (hw : wf s) (h : tfs_link s target link_name = ret v s1) : wf s1 := by
  unfold tfs_link at h
  split at h
  · cases h; exact hw
  · cases hl : tfs_lookup s target (inode_get s ROOT_DIR_INUM) with
    | none => rw [hl] at h; cases h
    | some inum =>
      rw [hl] at h
      simp only at h
      split at h
      · cases h; exact hw
      · rename_i hne
        obtain ⟨d0, i, _, _, _, e4, e5, e6, e7⟩ := tfs_lookup_wf s hw target _ inum hl hne
        subst e4
        rw [inode_get_nat s i e6, is_inum_taken_nat s i e6 e7] at h
        simp only [Int.toNat_ofNat] at h
        split at h
        · rename_i hc; cases hc
        · split at h
          · cases h; exact hw
          · unfold add_dir_entry at h
            dsimp only at h
            split at h
            · simp at h
            · cases hf : first_index (fun k => decide ((s.root_dir k).d_inumber = -1))
                (MAX_DIR_ENTRIES s) with
              | none =>
                simp only [MAX_DIR_ENTRIES, state_block_size] at hf h
                rw [hf] at h; simp at h
              | some d =>
                have hd := (first_index_eq_some _ _ _).1 hf
                simp only [MAX_DIR_ENTRIES, state_block_size] at hf h
                rw [hf] at h
                have h01 : ¬ ((0 : Int) = -1) := by decide
                simp only [h01, if_false] at h
                cases h
                have hdf : (s.root_dir d).d_inumber = -1 := by simpa using hd.2.1
                have hpos : 0 < (s.inode_table i).hard_links + 1 := by
                  have := hw.linked i e5 e6 e7
                  omega
                refine wf_of_dir_change s _ hw i d
                  { s.inode_table i with hard_links := (s.inode_table i).hard_links + 1 }
                  { d_name := skip_slash link_name, d_inumber := (i : Int) }
                  e5 e6 e7 hd.1 rfl rfl rfl rfl rfl rfl rfl rfl rfl rfl (Or.inl hdf)
                  (Or.inr rfl) ?_ hpos
                have hne2 : ¬ ((-1 : Int) = (i : Int)) := by omega
                simp [hdf, hne2]


theorem inode_delete_spec (s : tfs_state) (i : Nat) (hi : i < s.params.max_inode_count) :
    (inode_delete s (i : Int)).freeinode_ts = upd s.freeinode_ts i FREE ∧
    (inode_delete s (i : Int)).inode_table = s.inode_table ∧
    (inode_delete s (i : Int)).open_file_table = s.open_file_table ∧
    (inode_delete s (i : Int)).free_open_file_entries = s.free_open_file_entries ∧
    (∀ b : Nat, ¬ (0 < (s.inode_table i).i_size ∧ (s.inode_table i).i_data_block = (b : Int)) →
      (inode_delete s (i : Int)).free_blocks b = s.free_blocks b) := by
  have hr : (0 : Int) ≤ (i : Int) ∧ (i : Int) < (s.params.max_inode_count : Int) := by omega
  by_cases hz : 0 < (s.inode_table i).i_size
  · by_cases hb : 0 ≤ (s.inode_table i).i_data_block ∧
        (s.inode_table i).i_data_block < (s.params.max_block_count : Int)
    · refine ⟨?_, ?_, ?_, ?_, ?_⟩
      · simp [inode_delete, hr, hz, data_block_free, hb]
      · simp [inode_delete, hr, hz, data_block_free, hb]
      · simp [inode_delete, hr, hz, data_block_free, hb]
      · simp [inode_delete, hr, hz, data_block_free, hb]
      · intro b hne
        simp only [inode_delete, hr, hz, data_block_free, hb, and_self, if_true,
          Int.toNat_ofNat]
        apply upd_other
        intro hc
        apply hne
        rw [hc]; omega
    · refine ⟨?_, ?_, ?_, ?_, ?_⟩
      · simp [inode_delete, hr, hz, data_block_free, hb]
      · simp [inode_delete, hr, hz, data_block_free, hb]
      · simp [inode_delete, hr, hz, data_block_free, hb]
      · simp [inode_delete, hr, hz, data_block_free, hb]
      · intro b _
        simp [inode_delete, hr, hz, data_block_free, hb]
  · refine ⟨?_, ?_, ?_, ?_, ?_⟩
    · simp [inode_delete, hr, hz]
    · simp [inode_delete, hr, hz]
    · simp [inode_delete, hr, hz]
    · simp [inode_delete, hr, hz]
    · intro b _
      simp [inode_delete, hr, hz]

theorem wf_tfs_unlink (s s1 : tfs_state) (target : Option (List Nat)) (v : Int)
    (hw : wf s) (h : tfs_unlink s target = ret v s1) : wf s1 := by
  cases hl : tfs_lookup s target (inode_get s ROOT_DIR_INUM) with
  | none => simp [tfs_unlink, hl] at h
  | some inum =>
    by_cases hne : inum = -1
    · simp [tfs_unlink, hl, hne] at h
      rw [← h.2]; exact hw
    · by_cases ho : is_file_open s inum = true
      · simp [tfs_unlink, hl, hne, ho] at h
        rw [← h.2]; exact hw
      · obtain ⟨d, i, e1, e2, e3, e4, e5, e6, e7⟩ := tfs_lookup_wf s hw target _ inum hl hne
        obtain ⟨hv, hroot, _⟩ := tfs_lookup_some_nonneg s target inum hl hne
        subst e4
        have hclosed : is_file_open s (i : Int) = false := by simpa using ho
        have hok := tfs_unlink_ok s target (s.inode_table i) d hv hroot e1
          (by rw [e3]; exact hclosed) (by rw [e3]; exact inode_get_nat s i e6)
          (by rw [e3]; exact is_inum_taken_nat s i e6 e7)
        rw [e3] at hok
        simp only [Int.toNat_ofNat] at hok
        rw [hok] at h
        injection h with _ hs
        subst hs
        by_cases hz : (s.inode_table i).hard_links - 1 = 0
        · simp only [hz, if_true]
          have hsp := inode_delete_spec
            { s with
              inode_table := upd s.inode_table i
                { s.inode_table i with hard_links := 0 } } i e6
          obtain ⟨d1, d2, d3, d4, d5⟩ := hsp
          refine wf_of_unlink_last s _ hw i d
            { d_name := (s.root_dir d).d_name, d_inumber := -1 } e5 e6 e7 e2 e3 rfl
            (by omega) ?_ (by simp [inode_delete_params]) d1 ?_ d4 d3 ?_ rfl
          · intro k hk1 hk2 hc
            have : is_file_open s (i : Int) = true :=
              (is_file_open_iff s _).2 ⟨k, hk1, hk2, hc⟩
            rw [hclosed] at this
            cases this
          · intro b hb
            apply d5
            simpa [upd_same] using hb
          · intro j hj
            show (inode_delete _ _).inode_table j = _
            rw [d2]
            exact upd_other _ _ _ _ hj
        · simp only [hz, if_false]
          have hpos : 0 < (s.inode_table i).hard_links - 1 := by
            have := hw.linked i e5 e6 e7
            omega
          refine wf_of_dir_change s _ hw i d
            { s.inode_table i with hard_links := (s.inode_table i).hard_links - 1 }
            { d_name := (s.root_dir d).d_name, d_inumber := -1 }
            e5 e6 e7 e2 rfl rfl rfl rfl rfl rfl rfl rfl rfl rfl (Or.inr e3)
            (Or.inl rfl) ?_ hpos
          have hne2 : ¬ ((-1 : Int) = (i : Int)) := by omega
          simp [e3, hne2]


theorem upd_upd {β : Type} (f : Nat → β) (i : Nat) (v w : β) :
    upd (upd f i v) i w = upd f i w := by
  funext j
  by_cases h : j = i
  · subst h; simp [upd]
  · simp [upd, h]

theorem upd_self_eq {β : Type} (f : Nat → β) (i : Nat) (v : β) (h : f i = v) :
    upd f i v = f := by
  funext j
  by_cases hj : j = i
  · subst hj; simp [upd, h]
  · simp [upd, hj]

theorem upd_free_taken (i j : Nat) (h : upd (fun _ => FREE) i TAKEN j = TAKEN) : j = i := by
  by_contra hc
  rw [upd_other _ _ _ _ hc] at h
  cases h

theorem first_free_zero (tbl : Nat → allocation_state_t) : first_free tbl 0 = none :=
  (first_free_eq_none tbl 0).2 (fun m hm => by omega)

/-- A successful tfs_init leaves a state that satisfies the invariants. -/
theorem wf_tfs_init (params_ptr : Option tfs_params) (mem s : tfs_state)
    (h : tfs_init params_ptr mem = (0, s)) : wf s := by
  have key : ∀ p : tfs_params, tfs_init (some p) mem = (0, s) → wf s := by
    intro p hp
    by_cases hi : 0 < p.max_inode_count
    · by_cases hb : 0 < p.max_block_count
      · rw [tfs_init_ok p mem hi hb] at hp
        injection hp with _ hs
        subst hs
        constructor
        · exact hi
        · show upd (fun _ => FREE) 0 TAKEN 0 = TAKEN
          simp [upd]
        · intro m _ hne
          exact (hne rfl).elim
        · intro i h0 _ h2
          have := upd_free_taken 0 i h2
          omega
        · intro i h0 _ h2
          have := upd_free_taken 0 i h2
          omega
        · intro k _ h2
          cases h2
        · intro i _ h2
          have hi0 := upd_free_taken 0 i h2
          subst hi0
          show (upd (upd mem.inode_table 0
            { i_node_type := T_DIRECTORY, i_size := 0, i_data_block := -1, hard_links := 1 }) 0
            { i_node_type := T_DIRECTORY, i_size := 0, i_data_block := 0, hard_links := 1 }
            0).i_size ≤ p.block_size
          simp [upd]
        · intro i _ h2 h3
          have hi0 := upd_free_taken 0 i h2
          subst hi0
          have h4 : 0 < (upd (upd mem.inode_table 0
            { i_node_type := T_DIRECTORY, i_size := 0, i_data_block := -1, hard_links := 1 }) 0
            { i_node_type := T_DIRECTORY, i_size := 0, i_data_block := 0, hard_links := 1 }
            0).i_size := h3
          simp [upd] at h4
        · intro i j _ _ h3 h4 _ _ _
          have hi0 := upd_free_taken 0 i h3
          have hj0 := upd_free_taken 0 j h4
          rw [hi0, hj0]
        · intro i h0 _ h2
          have := upd_free_taken 0 i h2
          omega
      · have hz : p.max_block_count = 0 := by omega
        have hff : first_free (fun _ => FREE) p.max_inode_count = some 0 :=
          (first_free_eq_some _ _ _).2 ⟨hi, rfl, fun m hm => by omega⟩
        simp [tfs_init, state_init, inode_create, hff, data_block_alloc, hz, first_free_zero,
          ROOT_DIR_INUM] at hp
    · have hz : p.max_inode_count = 0 := by omega
      simp [tfs_init, state_init, inode_create, hz, first_free_zero, ROOT_DIR_INUM] at hp
  cases params_ptr with
  | none => exact key tfs_default_params h
  | some p => exact key p h


theorem inode_create_none (s : tfs_state) (t : inode_type)
    (hff : first_free s.freeinode_ts s.params.max_inode_count = none) :
    inode_create s t = (-1, s) := by
  simp [inode_create, hff]

theorem inode_create_some (s : tfs_state) (t : inode_type) (ht : t ≠ T_DIRECTORY) (j : Nat)
    (hff : first_free s.freeinode_ts s.params.max_inode_count = some j) :
    inode_create s t =
      ((j : Int),
        { s with
          freeinode_ts := upd s.freeinode_ts j TAKEN
          inode_table := upd s.inode_table j
            { i_node_type := t, i_size := 0, i_data_block := -1, hard_links := 1 } }) := by
  simp [inode_create, hff, ht]

theorem wf_tfs_sym_link (s s1 : tfs_state) (target link_name : Option (List Nat)) (v : Int)
    (hw : wf s) (h : tfs_sym_link s target link_name = ret v s1) : wf s1 := by
  unfold tfs_sym_link at h
  split at h
  · cases h; exact hw
  · cases hl : tfs_lookup s target (inode_get s ROOT_DIR_INUM) with
    | none => rw [hl] at h; cases h
    | some inum =>
      rw [hl] at h
      simp only at h
      split at h
      · cases h; exact hw
      · cases hff : first_free s.freeinode_ts s.params.max_inode_count with
        | none => rw [inode_create_none s _ hff] at h; simp at h
        | some j =>
          have hj := (first_free_eq_some _ _ _).1 hff
          rw [inode_create_some s T_SYMLINK (by decide) j hff] at h
          have hji : ¬ ((j : Int) = -1) := by omega
          have hr : (0 : Int) ≤ (j : Int) ∧ (j : Int) < (s.params.max_inode_count : Int) := by
            omega
          simp only [hji, if_false, inode_get, hr, and_self, if_true, is_inum_taken,
            Int.toNat_ofNat, upd_same, decide_True, Bool.true_eq_false, and_true] at h
          cases hfb : first_free s.free_blocks s.params.max_block_count with
          | none =>
            simp only [data_block_alloc, hfb, if_true] at h
            injection h with _ hs
            subst hs
            obtain ⟨d1, d2, d3, d4, d5⟩ := inode_delete_spec
              { s with
                freeinode_ts := upd s.freeinode_ts j TAKEN
                inode_table := upd s.inode_table j
                  { i_node_type := T_SYMLINK, i_size := 0, i_data_block := -1, hard_links := 1 } }
              j hj.1
            refine wf_of_free_slot_change s _ hw j hj.2.1 (by rw [inode_delete_params])
              ?_ (by rw [inode_delete_root_dir]) ?_ d4 d3 ?_
            · rw [d1]
              show upd (upd s.freeinode_ts j TAKEN) j FREE = s.freeinode_ts
              rw [upd_upd, upd_self_eq _ _ _ hj.2.1]
            · funext b
              rw [d5 b (by simp [upd_same])]
            · intro i hi
              rw [d2]
              exact upd_other _ _ _ _ hi
          | some b =>
            have hb := (first_free_eq_some _ _ _).1 hfb
            have hbi : ¬ ((b : Int) = -1) := by omega
            have hbr : (0 : Int) ≤ (b : Int) ∧ (b : Int) < (s.params.max_block_count : Int) := by
              omega
            simp only [data_block_alloc, hfb, hbi, if_false, data_block_get, hbr, and_self,
              if_true, Int.toNat_ofNat, upd_same] at h
            split at h
            · cases h
            · rename_i hlen
              unfold add_dir_entry at h
              dsimp only at h
              split at h
              · simp at h
              · cases hf : first_index (fun k => decide ((s.root_dir k).d_inumber = -1))
                  (MAX_DIR_ENTRIES s) with
                | none =>
                  simp only [MAX_DIR_ENTRIES, state_block_size] at hf h
                  rw [hf] at h; simp at h
                | some d =>
                  have hd := (first_index_eq_some _ _ _).1 hf
                  simp only [MAX_DIR_ENTRIES, state_block_size] at hf h
                  rw [hf] at h
                  have h01 : ¬ ((0 : Int) = -1) := by decide
                  simp only [h01, if_false] at h
                  cases h
                  have hdf : (s.root_dir d).d_inumber = -1 := by simpa using hd.2.1
                  refine wf_of_new_inode s _ hw j d
                    { i_node_type := T_SYMLINK, i_size := strlen (link_name.getD []) + 1,
                      i_data_block := (b : Int), hard_links := 1 }
                    (skip_slash link_name) hj.1 hj.2.1 hd.1 hdf rfl rfl ?_ rfl rfl rfl
                    (by simp) rfl (by simpa using hlen) ?_
                  · show upd (upd s.inode_table j _) j _ = _
                    rw [upd_upd]
                  · exact Or.inr ⟨b, rfl, hb.1, hb.2.1, rfl⟩


theorem data_block_free_params (s : tfs_state) (b : Int) :
    (data_block_free s b).params = s.params := by
  unfold data_block_free; split <;> rfl

theorem data_block_free_inode_table (s : tfs_state) (b : Int) :
    (data_block_free s b).inode_table = s.inode_table := by
  unfold data_block_free; split <;> rfl

theorem data_block_free_freeinode_ts (s : tfs_state) (b : Int) :
    (data_block_free s b).freeinode_ts = s.freeinode_ts := by
  unfold data_block_free; split <;> rfl

theorem data_block_free_root_dir (s : tfs_state) (b : Int) :
    (data_block_free s b).root_dir = s.root_dir := by
  unfold data_block_free; split <;> rfl

theorem data_block_free_open_file_table (s : tfs_state) (b : Int) :
    (data_block_free s b).open_file_table = s.open_file_table := by
  unfold data_block_free; split <;> rfl

theorem data_block_free_free_open_file_entries (s : tfs_state) (b : Int) :
    (data_block_free s b).free_open_file_entries = s.free_open_file_entries := by
  unfold data_block_free; split <;> rfl

theorem data_block_free_other (s : tfs_state) (blk : Int) (b : Nat) (h : blk ≠ (b : Int)) :
    (data_block_free s blk).free_blocks b = s.free_blocks b := by
  unfold data_block_free
  split
  · apply upd_other
    intro hc
    apply h
    rw [hc]; omega
  · rfl

/-- Undoing the creation of an empty inode in a FREE slot keeps the invariants. -/
theorem wf_inode_create_rollback (s : tfs_state) (hw : wf s) (j : Nat) (t : inode_type)
    (hj : j < s.params.max_inode_count) (hjf : s.freeinode_ts j = FREE) :
    wf (inode_delete
      { s with
        freeinode_ts := upd s.freeinode_ts j TAKEN
        inode_table := upd s.inode_table j
          { i_node_type := t, i_size := 0, i_data_block := -1, hard_links := 1 } }
      (j : Int)) := by
  obtain ⟨d1, d2, d3, d4, d5⟩ := inode_delete_spec
    { s with
      freeinode_ts := upd s.freeinode_ts j TAKEN
      inode_table := upd s.inode_table j
        { i_node_type := t, i_size := 0, i_data_block := -1, hard_links := 1 } }
    j hj
  refine wf_of_free_slot_change s _ hw j hjf (by rw [inode_delete_params])
    ?_ (by rw [inode_delete_root_dir]) ?_ d4 d3 ?_
  · rw [d1]
    show upd (upd s.freeinode_ts j TAKEN) j FREE = s.freeinode_ts
    rw [upd_upd, upd_self_eq _ _ _ hjf]
  · funext b
    rw [d5 b (by simp [upd_same])]
  · intro i hi
    rw [d2]
    exact upd_other _ _ _ _ hi

theorem inode_type_file (t : inode_type) (h1 : t ≠ T_DIRECTORY) (h2 : t ≠ T_SYMLINK) :
    t = T_FILE := by
  cases t
  · rfl
  · exact (h1 rfl).elim
  · exact (h2 rfl).elim

/-- Every returning tfs_open keeps the invariants, whatever the fuel. -/
theorem wf_tfs_open (fuel : Nat) :
    ∀ (s s1 : tfs_state) (name : Option (List Nat)) (mode : Nat) (v : Int), wf s →
      tfs_open fuel s name mode = some (ret v s1) → wf s1 := by
  induction fuel with
  | zero =>
    intro s s1 name mode v _ h
    simp [tfs_open] at h
  | succ n ih =>
    intro s s1 name mode v hw h
    unfold tfs_open at h
    split at h
    · simp only [Option.some.injEq, tfs_result.ret.injEq] at h
      rw [← h.2]; exact hw
    · rw [inode_get_root s hw.root] at h
      simp only at h
      cases hl : tfs_lookup s name (some (s.inode_table 0)) with
      | none => rw [hl] at h; simp at h
      | some inum =>
        rw [hl] at h
        simp only at h
        by_cases hnn : 0 ≤ inum
        · rw [if_pos hnn] at h
          obtain ⟨d, i, e1, e2, e3, e4, e5, e6, e7⟩ :=
            tfs_lookup_wf s hw name _ inum hl (by omega)
          subst e4
          rw [inode_get_nat s i e6] at h
          simp only at h
          by_cases hsym : (s.inode_table i).i_node_type = T_SYMLINK
          · rw [if_pos hsym, is_inum_taken_nat s i e6 e7] at h
            simp only [Bool.true_eq_false, if_false] at h
            cases hdb : data_block_get s (s.inode_table i).i_data_block with
            | none => rw [hdb] at h; simp at h
            | some block =>
              rw [hdb] at h
              simp only at h
              split at h
              · simp at h
              · split at h
                · simp at h
                · exact ih s s1 _ mode v hw h
          · rw [if_neg hsym] at h
            have hfile : (s.inode_table i).i_node_type = T_FILE :=
              inode_type_file _ (hw.kind i e5 e6 e7) hsym
            simp only [Option.some.injEq, tfs_result.ret.injEq, Int.toNat_ofNat] at h
            rw [← h.2]
            by_cases ht : mode &&& TFS_O_TRUNC ≠ 0 ∧ 0 < (s.inode_table i).i_size
            · rw [if_pos ht]
              refine wf_add_to_open_file_table _ _ _ i ?_ rfl e5 ?_ ?_ ?_ ?_
              · refine wf_of_trunc s _ hw i e6 e7 ht.2 (data_block_free_params _ _)
                  (data_block_free_freeinode_ts _ _) (data_block_free_root_dir _ _)
                  (data_block_free_free_open_file_entries _ _)
                  (data_block_free_open_file_table _ _) ?_ ?_
                · show upd (data_block_free s _).inode_table i _ = _
                  rw [data_block_free_inode_table]
                · intro b hb
                  exact data_block_free_other s _ b hb
              · show i < (data_block_free s _).params.max_inode_count
                rw [data_block_free_params]; exact e6
              · show (data_block_free s _).freeinode_ts i = TAKEN
                rw [data_block_free_freeinode_ts]; exact e7
              · show (upd (data_block_free s _).inode_table i _ i).i_node_type = T_FILE
                rw [upd_same]
                exact hfile
              · split
                · show (upd (data_block_free s _).inode_table i _ i).i_size ≤ _
                  rw [upd_same]
                  exact Nat.zero_le _
                · exact Nat.zero_le _
            · rw [if_neg ht]
              refine wf_add_to_open_file_table _ _ _ i hw rfl e5 e6 e7 hfile ?_
              split
              · exact hw.sizes i e6 e7
              · exact Nat.zero_le _
        · rw [if_neg hnn] at h
          by_cases hc : mode &&& TFS_O_CREAT ≠ 0
          · rw [if_pos hc] at h
            cases hff : first_free s.freeinode_ts s.params.max_inode_count with
            | none =>
              rw [inode_create_none s _ hff] at h
              simp only [if_true, Option.some.injEq, tfs_result.ret.injEq] at h
              rw [← h.2]; exact hw
            | some j =>
              have hj := (first_free_eq_some _ _ _).1 hff
              have hj0 : 0 < j := by
                by_contra hc0
                have hz : j = 0 := by omega
                have h1 := hj.2.1
                rw [hz, hw.root_taken] at h1
                cases h1
              rw [inode_create_some s T_FILE (by decide) j hff] at h
              have hji : ¬ ((j : Int) = -1) := by omega
              simp only [hji, if_false] at h
              unfold add_dir_entry at h
              dsimp only at h
              split at h
              · simp only [if_true, Option.some.injEq, tfs_result.ret.injEq] at h
                rw [← h.2]
                exact wf_inode_create_rollback s hw j T_FILE hj.1 hj.2.1
              · cases hf : first_index (fun k => decide ((s.root_dir k).d_inumber = -1))
                  (MAX_DIR_ENTRIES s) with
                | none =>
                  simp only [MAX_DIR_ENTRIES, state_block_size] at hf h
                  rw [hf] at h
                  simp only [if_true, Option.some.injEq, tfs_result.ret.injEq] at h
                  rw [← h.2]
                  exact wf_inode_create_rollback s hw j T_FILE hj.1 hj.2.1
                | some d =>
                  have hd := (first_index_eq_some _ _ _).1 hf
                  simp only [MAX_DIR_ENTRIES, state_block_size] at hf h
                  rw [hf] at h
                  have h01 : ¬ ((0 : Int) = -1) := by decide
                  simp only [h01, if_false, Option.some.injEq, tfs_result.ret.injEq] at h
                  rw [← h.2]
                  have hdf : (s.root_dir d).d_inumber = -1 := by simpa using hd.2.1
                  refine wf_add_to_open_file_table _ _ _ j ?_ rfl hj0 hj.1 ?_ ?_
                    (Nat.zero_le _)
                  · exact wf_of_new_inode s _ hw j d
                      { i_node_type := T_FILE, i_size := 0, i_data_block := -1, hard_links := 1 }
                      (skip_slash name) hj.1 hj.2.1 hd.1 hdf rfl rfl rfl rfl rfl rfl
                      (by simp) rfl (Nat.zero_le _) (Or.inl ⟨rfl, rfl⟩)
                  · show upd s.freeinode_ts j TAKEN j = TAKEN
                    rw [upd_same]
                  · show (upd s.inode_table j _ j).i_node_type = T_FILE
                    rw [upd_same]
          · rw [if_neg hc] at h
            simp only [Option.some.injEq, tfs_result.ret.injEq] at h
            rw [← h.2]; exact hw


/-! ## Reachable states satisfy the invariants -/

theorem reachable_wf (s : tfs_state) (h : reachable s) : wf s := by
  induction h with
  | start p mem s h => exact wf_tfs_init p mem s h
  | step_open s s1 fuel name mode v _ h ih => exact wf_tfs_open fuel s s1 name mode v ih h
  | step_close s s1 fhandle v _ h ih => exact wf_tfs_close s s1 fhandle v ih h
  | step_write s s1 fhandle buffer to_write v _ h ih =>
    exact wf_tfs_write s s1 fhandle buffer to_write v ih h
  | step_read s s1 fhandle len v _ h ih => exact wf_tfs_read s s1 fhandle len v ih h
  | step_link s s1 target link_name v _ h ih => exact wf_tfs_link s s1 target link_name v ih h
  | step_sym_link s s1 target link_name v _ h ih =>
    exact wf_tfs_sym_link s s1 target link_name v ih h
  | step_unlink s s1 target v _ h ih => exact wf_tfs_unlink s s1 target v ih h

theorem reachable_fresh_default : reachable fresh_default :=
  reachable.start none zero_mem fresh_default rfl

theorem reachable_created_state : reachable created_state :=
  reachable.step_open fresh_default created_state 1 (some (str "/f1")) TFS_O_CREAT 0
    reachable_fresh_default rfl

theorem reachable_filled_state : reachable filled_state :=
  reachable.step_write created_state filled_state 0 (str "AAA!" ++ [0]) 5 5
    reachable_created_state rfl

theorem reachable_written_state : reachable written_state :=
  reachable.step_close filled_state written_state 0 0 reachable_filled_state rfl

theorem reachable_truncated_state : reachable truncated_state :=
  reachable.step_open filled_state truncated_state 1 (some (str "/f1")) TFS_O_TRUNC 1
    reachable_filled_state rfl


/-! ## Writes are capped at the block (C13) -/

/-- The length tfs_write ends up with: the smaller of the request and the room left in the
block, unless the sum wrapped, in which case the request is kept and overruns the block. -/
theorem capped_length_cases (bs o n : Nat) (hbs : bs < 2 ^ 63) (ho : o ≤ bs)
    (hn : n < SIZE_MOD) :
    capped_length bs o n = min n (bs - o) ∨ bs < o + capped_length bs o n := by
  unfold capped_length
  simp only [SIZE_MOD] at hn ⊢
  split
  · left
    rename_i hc
    have h1 : o % 2 ^ 64 = o := Nat.mod_eq_of_lt (by omega)
    rw [h1]
    by_cases hw : n + o < 2 ^ 64
    · rw [Nat.mod_eq_of_lt hw] at hc
      omega
    · omega
  · rename_i hc
    by_cases hw : n + o < 2 ^ 64
    · rw [Nat.mod_eq_of_lt hw] at hc
      left; omega
    · right; omega

/-- C13 (amended). In every state reachable from `tfs_init` by the public operations
(block_size below 2^63), for every TAKEN handle with offset `o` and every requested length
`to_write` below 2^64, a `tfs_write` that returns `v >= 0` returns
`v = min(to_write, block_size - o)` and advances the offset of the handle by `v`; the size
becomes `max(size, o + v)` when `v > 0` and is left as it was when `v = 0`, and in both
cases it stays within block_size. -/
theorem write_capped_at_block (s s1 : tfs_state) (h : Nat) (buffer : List Nat)
    (to_write : Nat) (v : Int)
    (hr : reachable s) (hbs : s.params.block_size < 2 ^ 63) (hn : to_write < SIZE_MOD)
    (hh : h < s.params.max_open_files_count) (ht : s.free_open_file_entries h = TAKEN)
    (hres : tfs_write s (h : Int) buffer to_write = ret v s1) (hv : 0 ≤ v) :
    v = ((min to_write (s.params.block_size - (s.open_file_table h).of_offset) : Nat) : Int) ∧
    (s1.open_file_table h).of_offset =
      (s.open_file_table h).of_offset +
        min to_write (s.params.block_size - (s.open_file_table h).of_offset) ∧
    (s1.inode_table (s.open_file_table h).of_inumber.toNat).i_size =
      (if 0 < min to_write (s.params.block_size - (s.open_file_table h).of_offset) then
        max (s.inode_table (s.open_file_table h).of_inumber.toNat).i_size
          ((s.open_file_table h).of_offset +
            min to_write (s.params.block_size - (s.open_file_table h).of_offset))
       else (s.inode_table (s.open_file_table h).of_inumber.toNat).i_size) ∧
    (s1.inode_table (s.open_file_table h).of_inumber.toNat).i_size ≤ s1.params.block_size := by
  have hw := reachable_wf s hr
  obtain ⟨i, e1, e2, e3, e4, e5, e6⟩ := hw.handles h hh ht
  have hcap := capped_length_cases s.params.block_size (s.open_file_table h).of_offset
    to_write hbs e6 hn
  have hsz := hw.sizes i e3 e4
  unfold tfs_write at hres
  rw [get_open_file_entry_nat s h hh] at hres
  simp only [e1, inode_get_nat s i e3, is_inum_taken_nat s i e3 e4, Bool.true_eq_false,
    if_false, state_block_size, Int.toNat_ofNat] at hres
  rw [e1]
  simp only [Int.toNat_ofNat]
  generalize ho : (s.open_file_table h).of_offset = o at *
  generalize hnd : min to_write (s.params.block_size - o) = n at *
  have htw : (if s.params.block_size < (to_write + o) % SIZE_MOD
      then (s.params.block_size + SIZE_MOD - o % SIZE_MOD) % SIZE_MOD
      else to_write) = capped_length s.params.block_size o to_write := rfl
  rw [htw] at hres
  generalize capped_length s.params.block_size o to_write = tw at *
  clear htw
  by_cases hpos : 0 < tw
  · rw [if_pos hpos] at hres
    have hfin : ∀ (a : Int × tfs_state) (block : Nat → Nat),
        a.2.params = s.params → a.2.inode_table = s.inode_table →
        a.2.open_file_table = s.open_file_table →
        (if s.params.block_size < o + tw then (invalid_access : tfs_result Int)
          else
            ret (to_ssize tw)
              { a.2 with
                fs_data := upd a.2.fs_data a.1.toNat
                  (fun k => if o ≤ k ∧ k < o + tw then byte_at buffer (k - o) else block k)
                open_file_table := upd a.2.open_file_table h
                  { of_inumber := (i : Int), of_offset := (o + tw) % SIZE_MOD }
                inode_table := upd a.2.inode_table i
                  { i_node_type := (s.inode_table i).i_node_type
                    i_size := if (s.inode_table i).i_size < (o + tw) % SIZE_MOD
                      then (o + tw) % SIZE_MOD else (s.inode_table i).i_size
                    i_data_block := a.1
                    hard_links := (s.inode_table i).hard_links } }) = ret v s1 →
        v = (n : Int) ∧ (s1.open_file_table h).of_offset = o + n ∧
          ((s1.inode_table i).i_size =
            if 0 < n then max (s.inode_table i).i_size (o + n) else (s.inode_table i).i_size) ∧
          (s1.inode_table i).i_size ≤ s1.params.block_size := by
      intro a block hp _ _ hq
      split at hq
      · cases hq
      · rename_i hfit
        have htn : tw = n := by
          rcases hcap with hc | hc
          · exact hc
          · exact (hfit hc).elim
        have hmod : (o + tw) % SIZE_MOD = o + tw :=
          Nat.mod_eq_of_lt (by simp only [SIZE_MOD]; omega)
        injection hq with hq1 hq2
        subst hq2
        rw [to_ssize_small tw (by omega)] at hq1
        simp only [upd_same, hmod, hp]
        subst htn
        refine ⟨hq1.symm, rfl, ?_, ?_⟩
        · simp only [hpos, if_true]
          split <;> omega
        · split <;> omega
    by_cases hz : (s.inode_table i).i_size = 0
    · simp only [hz, if_true, true_and, data_block_alloc] at hres hfin
      cases hff : first_free s.free_blocks s.params.max_block_count with
      | none =>
        simp only [hff, if_true] at hres
        injection hres with hq1 _
        omega
      | some b =>
        have hb := (first_free_eq_some _ _ _).1 hff
        have hbi : ¬ ((b : Int) = -1) := by omega
        have hrange : (0 : Int) ≤ (b : Int) ∧ (b : Int) < (s.params.max_block_count : Int) :=
          ⟨by omega, by omega⟩
        simp only [hff, hbi, if_false, data_block_get, hrange, and_self, if_true] at hres
        rw [hz]
        exact hfin ((b : Int), { s with free_blocks := upd s.free_blocks b TAKEN }) _
          rfl rfl rfl hres
    · simp only [hz, if_false, false_and] at hres hfin
      split at hres
      · cases hres
      · rename_i block _
        exact hfin ((s.inode_table i).i_data_block, s) block rfl rfl rfl hres
  · have htz : tw = 0 := by omega
    rw [if_neg hpos] at hres
    injection hres with hq1 hq2
    subst hq2
    subst htz
    have hnz : n = 0 := by
      rcases hcap with hc | hc
      · exact hc.symm
      · omega
    subst hnz
    refine ⟨?_, ho, ?_, hsz⟩
    · rw [← hq1]; decide
    · simp


/-- C13 on "/f1" holding five bytes, handle 0 at offset 5: a request of 2000 bytes is cut
to the 1019 bytes left in the block of 1024. -/
theorem write_capped_at_block_witness :
    filled_state.free_open_file_entries 0 = TAKEN ∧
    tfs_write filled_state ((0 : Nat) : Int) (str "BBBB") 2000 = ret 1019 capped_state ∧
    ((1019 : Int) =
      ((min 2000 (filled_state.params.block_size - (filled_state.open_file_table 0).of_offset)
        : Nat) : Int) ∧
    (capped_state.open_file_table 0).of_offset =
      (filled_state.open_file_table 0).of_offset +
        min 2000 (filled_state.params.block_size - (filled_state.open_file_table 0).of_offset) ∧
    (capped_state.inode_table (filled_state.open_file_table 0).of_inumber.toNat).i_size =
      (if 0 < min 2000
          (filled_state.params.block_size - (filled_state.open_file_table 0).of_offset) then
        max (filled_state.inode_table (filled_state.open_file_table 0).of_inumber.toNat).i_size
          ((filled_state.open_file_table 0).of_offset +
            min 2000 (filled_state.params.block_size - (filled_state.open_file_table 0).of_offset))
       else (filled_state.inode_table (filled_state.open_file_table 0).of_inumber.toNat).i_size) ∧
    (capped_state.inode_table (filled_state.open_file_table 0).of_inumber.toNat).i_size ≤
      capped_state.params.block_size) :=
  ⟨by decide, rfl,
   write_capped_at_block filled_state capped_state 0 (str "BBBB") 2000 1019
     reachable_filled_state (by decide) (by decide) (by decide) (by decide) rfl (by decide)⟩

/-- C13 as stated fails for a write of length 0 through a handle whose offset exceeds the
size. After "/f1" was written through handle 0 (offset 5) and truncated through a second
open, `tfs_write` through handle 0 with `to_write = 0` returns 0 and changes nothing: the
size stays 0, not max(size, new offset) = 5. -/
theorem write_size_counterexample :
    reachable truncated_state ∧
    truncated_state.free_open_file_entries 0 = TAKEN ∧
    truncated_state.open_file_table 0 = { of_inumber := 1, of_offset := 5 } ∧
    (truncated_state.inode_table 1).i_size = 0 ∧
    tfs_write truncated_state 0 [] 0 = ret 0 truncated_state ∧
    (truncated_state.inode_table 1).i_size ≠
      max (truncated_state.inode_table 1).i_size
        ((truncated_state.open_file_table 0).of_offset + 0) :=
  ⟨reachable_truncated_state, by decide, by decide, by decide, rfl, by decide⟩

/-! ## C14: the clamp of a read -/

/-- C14 at the failing input. After "/f1" was written through handle 0 (offset 5) and
truncated through a second open, a state reached by public operations alone, the size is 0
and the offset 5 exceeds it; `size - offset` wraps in `size_t`, and `tfs_read` through
handle 0 with `len = 3` returns 3, not 0, copying three bytes of the block the file no
longer owns and moving the offset to 8. -/
theorem read_past_truncated_size :
    reachable truncated_state ∧
    (truncated_state.open_file_table 0) = { of_inumber := 1, of_offset := 5 } ∧
    truncated_state.free_open_file_entries 0 = TAKEN ∧
    (truncated_state.inode_table 1).i_size = 0 ∧
    truncated_state.free_blocks 1 = FREE ∧
    ∃ s1, tfs_read truncated_state 0 3 = ret (3, [0, 0, 0]) s1 ∧
      (s1.open_file_table 0).of_offset = 8 :=
  ⟨reachable_truncated_state, by decide, by decide, by decide, by decide, _, rfl, rfl⟩

/-! ## C17: names in the directory -/

/-- C17 at the failing input. In the default file system holding "/f1",
`tfs_link("/f1", "/f1")` returns 0: the link name is not looked up, and in the state it
leaves, reached by public operations alone, the directory slots 0 and 1 are both taken and
both named "f1". -/
theorem link_duplicates_name :
    tfs_link written_state (some (str "/f1")) (some (str "/f1")) = ret 0 duplicate_name_state ∧
    reachable duplicate_name_state ∧
    (duplicate_name_state.root_dir 0).d_inumber ≠ -1 ∧
    (duplicate_name_state.root_dir 1).d_inumber ≠ -1 ∧
    (duplicate_name_state.root_dir 0).d_name = str "f1" ∧
    (duplicate_name_state.root_dir 1).d_name = str "f1" ∧
    1 < MAX_DIR_ENTRIES duplicate_name_state :=
  ⟨rfl,
   reachable.step_link written_state duplicate_name_state (some (str "/f1"))
     (some (str "/f1")) 0 reachable_written_state rfl,
   by decide, by decide, by decide, by decide, by decide⟩

/-! ## C18, C19, C20: what directory entries, inodes and handles refer to -/

theorem reachable_file_a_state : reachable file_a_state :=
  reachable.step_close _ file_a_state 0 0
    (reachable.step_open fresh_default
      (((tfs_open 1 fresh_default (some (str "/a")) TFS_O_CREAT).getD aborted).state_or
        fresh_default)
      1 (some (str "/a")) TFS_O_CREAT 0 reachable_fresh_default rfl) rfl

theorem reachable_link_b_state : reachable link_b_state :=
  reachable.step_sym_link file_a_state link_b_state (some (str "/a")) (some (str "/b")) 0
    reachable_file_a_state rfl

theorem reachable_dangling_b_state : reachable dangling_b_state :=
  reachable.step_unlink link_b_state dangling_b_state (some (str "/a")) 0
    reachable_link_b_state rfl

theorem reachable_cycle_state : reachable cycle_state :=
  reachable.step_sym_link dangling_b_state cycle_state (some (str "/b")) (some (str "/a")) 0
    reachable_dangling_b_state rfl

theorem tfs_open_cycle_a (n mode : Nat) :
    tfs_open (n + 1) cycle_state (some (str "/a")) mode =
      tfs_open n cycle_state (some (str "/b")) mode := rfl

theorem tfs_open_cycle_b (n mode : Nat) :
    tfs_open (n + 1) cycle_state (some (str "/b")) mode =
      tfs_open n cycle_state (some (str "/a")) mode := rfl


/-- C21. The calls `f = tfs_open("/a", TFS_O_CREAT); tfs_close(f); tfs_sym_link("/a", "/b");
tfs_unlink("/a"); tfs_sym_link("/b", "/a")` on the default file system all return 0 and
leave a state in which "/a" is a SYMLINK that stores "/b" and "/b" is a SYMLINK that stores
"/a". In that state the symlink resolution of `tfs_open` never ends: for no recursion depth
and no mode does `tfs_open("/a", mode)` or `tfs_open("/b", mode)` yield a result. -/
theorem symlink_cycle_diverges :
    (tfs_open 1 fresh_default (some (str "/a")) TFS_O_CREAT =
        some (ret 0 (((tfs_open 1 fresh_default (some (str "/a")) TFS_O_CREAT).getD
          aborted).state_or fresh_default)) ∧
      tfs_close (((tfs_open 1 fresh_default (some (str "/a")) TFS_O_CREAT).getD
          aborted).state_or fresh_default) 0 = ret 0 file_a_state ∧
      tfs_sym_link file_a_state (some (str "/a")) (some (str "/b")) = ret 0 link_b_state ∧
      tfs_unlink link_b_state (some (str "/a")) = ret 0 dangling_b_state ∧
      tfs_sym_link dangling_b_state (some (str "/b")) (some (str "/a")) = ret 0 cycle_state) ∧
    reachable cycle_state ∧
    (find_in_dir cycle_state (str "a") = 1 ∧
      (cycle_state.inode_table 1).i_node_type = T_SYMLINK ∧
      (data_block_get cycle_state (cycle_state.inode_table 1).i_data_block).map
        (fun block => symlink_path block (cycle_state.inode_table 1).i_size) =
        some (str "/b") ∧
      find_in_dir cycle_state (str "b") = 2 ∧
      (cycle_state.inode_table 2).i_node_type = T_SYMLINK ∧
      (data_block_get cycle_state (cycle_state.inode_table 2).i_data_block).map
        (fun block => symlink_path block (cycle_state.inode_table 2).i_size) =
        some (str "/a")) ∧
    ∀ fuel mode : Nat,
      tfs_open fuel cycle_state (some (str "/a")) mode = none ∧
      tfs_open fuel cycle_state (some (str "/b")) mode = none := by
  refine ⟨⟨rfl, rfl, rfl, rfl, rfl⟩, reachable_cycle_state,
    ⟨by decide, by decide, by decide, by decide, by decide, by decide⟩, ?_⟩
  intro fuel mode
  induction fuel with
  | zero => exact ⟨rfl, rfl⟩
  | succ n ih =>
    exact ⟨by rw [tfs_open_cycle_a]; exact ih.2, by rw [tfs_open_cycle_b]; exact ih.1⟩


/-! ## C22: the link count and the directory -/

end TecnicoFS
